import Mathlib

/-! # Fractal viewer: coordinate mapper, view controller, renderers, settings

A shallow embedding of `src/main.cpp`.

Numbers.  A C++ `double` is embedded in two ways, both over `ℚ` so that every
definition can be evaluated:

* the *exact* embedding (`map`, `pixelToReal`, `realToPixel`, the controller
  transitions, `calculateMandelbrot`, the renderers) performs each arithmetic
  operation without rounding.  The specification states its view laws "within
  floating-point epsilon"; the exact embedding is the reading under which such
  a law is an equation.  Division by zero, infinities and NaN are not
  represented; the statements that divide assume the divisor is non-zero.
* the *binary64* embedding (`mapD`, `pixelToRealD`, `realToPixelD`,
  `sierpinskiVerticesD`, `startupD`, `clickD`, `zoomTickD`, `savedSettingsD`,
  `mainStartupD`) rounds the result of every operation to the nearest IEEE-754
  double, ties to even, and is `none` on overflow, on division by zero and on an
  out-of-range integer conversion.  It is consulted where a rounding error of
  one unit in the last place changes the answer: where a mapped coordinate is
  truncated to a pixel index, where a strict inequality or a fixed tolerance is
  stated of the bounds, and where a value passes through the 15-digit text of
  the settings file.

A C++ `int` is embedded as `ℤ`; no statement below relies on wrap-around.  The
functions of `<cmath>` whose values are not rational (`atan2`, `cos`, `sin`,
`hypot`) and the conversion `std::stod` are parameters of the definitions that
call them, and so are the values returned by the successive calls of `rand` in
the chaos game; `stodDecimal` is `std::stod` on decimal text, for the statements
that follow a value through the settings file.  An `sf::Image` is its size and a pixel function; the file
system, the window and the clocks are outside the model.
-/

namespace Fractal

/-! ## Coordinate mapper (exact embedding) -/

/-- Linear range map: `outMin + (value - inMin) * (outMax - outMin) / (inMax - inMin)`. -/
def map (value inMin inMax outMin outMax : ℚ) : ℚ :=
  outMin + (value - inMin) * (outMax - outMin) / (inMax - inMin)

/-- Conversion `static_cast<int>(double)`: truncation toward zero. -/
def castInt (q : ℚ) : ℤ :=
  if 0 ≤ q then ⌊q⌋ else ⌈q⌉

/-- Pixel column to real coordinate: `map(px, 0, width - 1, realMin, realMax)`. -/
def pixelToReal (px width : ℤ) (realMin realMax : ℚ) : ℚ :=
  map (px : ℚ) 0 ((width - 1 : ℤ) : ℚ) realMin realMax

/-- Pixel row to imaginary coordinate; row 0 is the top and maps to `imagMax`. -/
def pixelToImag (py height : ℤ) (imagMin imagMax : ℚ) : ℚ :=
  map (py : ℚ) 0 ((height - 1 : ℤ) : ℚ) imagMax imagMin

/-- Real coordinate to pixel column, truncated toward zero. -/
def realToPixel (r : ℚ) (width : ℤ) (realMin realMax : ℚ) : ℤ :=
  castInt (map r realMin realMax 0 ((width - 1 : ℤ) : ℚ))

/-- Imaginary coordinate to pixel row, truncated toward zero. -/
def imagToPixel (i : ℚ) (height : ℤ) (imagMin imagMax : ℚ) : ℤ :=
  castInt (map i imagMax imagMin 0 ((height - 1 : ℤ) : ℚ))

/-! ## Coordinate mapper (binary64 embedding) -/

/-- Power of two with an integer exponent, as a rational. -/
def pow2 (e : ℤ) : ℚ :=
  if 0 ≤ e then ((2 ^ e.toNat : ℕ) : ℚ) else 1 / ((2 ^ (-e).toNat : ℕ) : ℚ)

/-- Bisection for the binary exponent: given `2^lo ≤ a < 2^hi` it returns the `e`
with `2^e ≤ a < 2^(e+1)`; a value below `2^lo` yields `lo` and a value of at
least `2^hi` yields `hi - 1`. -/
def exponentSearch (a : ℚ) : ℕ → ℤ → ℤ → ℤ
  | 0, lo, _ => lo
  | fuel + 1, lo, hi =>
    if hi ≤ lo + 1 then lo
    else
      let mid := (lo + hi) / 2
      if a < pow2 mid then exponentSearch a fuel lo mid else exponentSearch a fuel mid hi

/-- Binary exponent of a non-zero rational, clamped to the binary64 range: the
`e` with `2^e ≤ |q| < 2^(e+1)` when `-1022 ≤ e ≤ 1023`, the value `-1022` for
smaller `|q|` (subnormal range) and `1024` for larger `|q|` (overflow range).
The interval `[-1022, 1025)` has 2047 points, so 12 halvings suffice. -/
def binade (q : ℚ) : ℤ :=
  exponentSearch |q| 12 (-1022) 1025

/-- Nearest integer, ties to the even neighbour. -/
def roundHalfEven (q : ℚ) : ℤ :=
  let f := ⌊q⌋
  if q - f < 1 / 2 then f
  else if 1 / 2 < q - f then f + 1
  else if f % 2 = 0 then f else f + 1

/-- Nearest binary64 value of a rational (53-bit significand, ties to even, gradual
underflow below `2^(-1022)`), before the overflow test. -/
def roundDouble (q : ℚ) : ℚ :=
  if q = 0 then 0
  else
    let u := pow2 (binade q - 52)
    (roundHalfEven (q / u) : ℚ) * u

/-- Rounded result of an operation whose exact value is `q`; `none` on overflow. -/
def toDouble (q : ℚ) : Option ℚ :=
  let r := roundDouble q
  if |r| < pow2 1024 then some r else none

/-- Binary64 addition. -/
def fadd (a b : ℚ) : Option ℚ := toDouble (a + b)

/-- Binary64 subtraction. -/
def fsub (a b : ℚ) : Option ℚ := toDouble (a - b)

/-- Binary64 multiplication. -/
def fmul (a b : ℚ) : Option ℚ := toDouble (a * b)

/-- Binary64 division; `none` when the divisor is zero. -/
def fdiv (a b : ℚ) : Option ℚ := if b = 0 then none else toDouble (a / b)

/-- The function `map` with every operation rounded, in the evaluation order of
the C++ expression `outMin + (value - inMin) * (outMax - outMin) / (inMax - inMin)`. -/
def mapD (value inMin inMax outMin outMax : ℚ) : Option ℚ := do
  let t1 ← fsub value inMin
  let t2 ← fsub outMax outMin
  let t3 ← fmul t1 t2
  let t4 ← fsub inMax inMin
  let t5 ← fdiv t3 t4
  fadd outMin t5

/-- Conversion `static_cast<int>(double)` to a 32-bit `int`; `none` when out of range. -/
def castIntD (q : ℚ) : Option ℤ :=
  let t := castInt q
  if -2147483648 ≤ t ∧ t ≤ 2147483647 then some t else none

/-- The function `pixelToReal` in binary64. -/
def pixelToRealD (px width : ℤ) (realMin realMax : ℚ) : Option ℚ := do
  let v ← toDouble (px : ℚ)
  let w ← toDouble ((width - 1 : ℤ) : ℚ)
  mapD v 0 w realMin realMax

/-- The function `realToPixel` in binary64. -/
def realToPixelD (r : ℚ) (width : ℤ) (realMin realMax : ℚ) : Option ℤ := do
  let w ← toDouble ((width - 1 : ℤ) : ℚ)
  let m ← mapD r realMin realMax 0 w
  castIntD m

/-- The function `imagToPixel` in binary64. -/
def imagToPixelD (i : ℚ) (height : ℤ) (imagMin imagMax : ℚ) : Option ℤ := do
  let h ← toDouble ((height - 1 : ℤ) : ℚ)
  let m ← mapD i imagMax imagMin 0 h
  castIntD m

/-! ## View state and controller transitions of `main` (exact embedding) -/

/-- Raster width `WIDTH`. -/
def WIDTH : ℤ := 640

/-- Raster height `HEIGHT`. -/
def HEIGHT : ℤ := 480

/-- Iteration cap `MAX_ITER`. -/
def MAX_ITER : ℤ := 100

/-- Initial bound `INIT_REAL_MIN`. -/
def INIT_REAL_MIN : ℚ := -5 / 2

/-- Initial bound `INIT_REAL_MAX`. -/
def INIT_REAL_MAX : ℚ := 1

/-- Initial bound `INIT_IMAG_MIN`. -/
def INIT_IMAG_MIN : ℚ := -1

/-- Initial bound `INIT_IMAG_MAX`. -/
def INIT_IMAG_MAX : ℚ := 1

/-- The enumeration `FractalType` (the first constant is spelled as in the source). -/
inductive FractalType where
  | MADELBROT
  | SIERPINSKI
  | KOCH
  | MENGER
  | DRAGON
  deriving DecidableEq, Repr

/-- Integer value of an enumerator: `MADELBROT = 1`, ..., `DRAGON = 5`. -/
def FractalType.code : FractalType → ℤ
  | .MADELBROT => 1
  | .SIERPINSKI => 2
  | .KOCH => 3
  | .MENGER => 4
  | .DRAGON => 5

/-- The view variables of `main`: the four bounds and the selected fractal. -/
structure State where
  realMin : ℚ
  realMax : ℚ
  imagMin : ℚ
  imagMax : ℚ
  currentFractal : ℤ
  deriving DecidableEq, Repr

/-- Start of `main` (exact embedding; `startupD` is the binary64 embedding): bounds
derived from the loaded settings when `loadSettings` returned true and the
loaded width is positive, the initial bounds otherwise.  The arguments are the
values of `savedCenterReal`, `savedCenterImag`, `savedWidth`, `savedFractal`
after the call of `loadSettings`. -/
def startup (haveSaved : Bool) (savedCenterReal savedCenterImag savedWidth : ℚ)
    (savedFractal : ℤ) : State :=
  if haveSaved = true ∧ savedWidth > 0 then
    let halfW := savedWidth / 2
    let heightSpan := savedWidth * ((HEIGHT : ℚ) / (WIDTH : ℚ))
    let halfH := heightSpan / 2
    { realMin := savedCenterReal - halfW
      realMax := savedCenterReal + halfW
      imagMin := savedCenterImag - halfH
      imagMax := savedCenterImag + halfH
      currentFractal := savedFractal }
  else
    { realMin := INIT_REAL_MIN
      realMax := INIT_REAL_MAX
      imagMin := INIT_IMAG_MIN
      imagMax := INIT_IMAG_MAX
      currentFractal := savedFractal }

/-- Left mouse button pressed at pixel `(mx, my)`: recentre on the clicked point. -/
def click (s : State) (mx my : ℤ) : State :=
  let clickedReal := pixelToReal mx WIDTH s.realMin s.realMax
  let clickedImag := pixelToImag my HEIGHT s.imagMin s.imagMax
  let halfW := (s.realMax - s.realMin) / 2
  let halfH := (s.imagMax - s.imagMin) / 2
  { s with
    realMin := clickedReal - halfW
    realMax := clickedReal + halfW
    imagMin := clickedImag - halfH
    imagMax := clickedImag + halfH }

/-- Vertical mouse wheel scrolled at pixel `(mx, my)`.  The argument `zoomFactor`
is the value of `std::pow(0.98, delta)`, which is not a rational function of
`delta` and is therefore taken as given. -/
def wheel (s : State) (zoomFactor : ℚ) (mx my : ℤ) : State :=
  let clickR := pixelToReal mx WIDTH s.realMin s.realMax
  let clickI := pixelToImag my HEIGHT s.imagMin s.imagMax
  { s with
    realMin := clickR + (s.realMin - clickR) * zoomFactor
    realMax := clickR + (s.realMax - clickR) * zoomFactor
    imagMin := clickI + (s.imagMin - clickI) * zoomFactor
    imagMax := clickI + (s.imagMax - clickI) * zoomFactor }

/-- Key `R`: reset the bounds to the literals `-2.5, 1.0, -1.0, 1.0`. -/
def reset (s : State) : State :=
  { s with realMin := -5 / 2, realMax := 1, imagMin := -1, imagMax := 1 }

/-- Keys `1` to `5`: select a fractal. -/
def selectFractal (s : State) (f : FractalType) : State :=
  { s with currentFractal := f.code }

/-- Zoom factor chosen by the continuous-zoom tick from the two held-key flags. -/
def zoomTickFactor (zoomInPressed zoomOutPressed : Bool) : ℚ :=
  if zoomInPressed = true ∧ zoomOutPressed = false then 49 / 50
  else if zoomOutPressed = true ∧ zoomInPressed = false then 51 / 50
  else 1

/-- One continuous-zoom tick (the 50 ms interval has elapsed): nothing happens
unless a zoom key is held; otherwise the half spans are scaled about the centre. -/
def zoomTick (s : State) (zoomInPressed zoomOutPressed : Bool) : State :=
  if zoomInPressed = true ∨ zoomOutPressed = true then
    let zoomFactor := zoomTickFactor zoomInPressed zoomOutPressed
    let centerReal := (s.realMin + s.realMax) / 2
    let centerImag := (s.imagMin + s.imagMax) / 2
    let halfWidth := (s.realMax - s.realMin) / 2 * zoomFactor
    let halfHeight := (s.imagMax - s.imagMin) / 2 * zoomFactor
    { s with
      realMin := centerReal - halfWidth
      realMax := centerReal + halfWidth
      imagMin := centerImag - halfHeight
      imagMax := centerImag + halfHeight }
  else s

/-- Inputs that change the view variables. -/
inductive Event where
  | leftClick (mx my : ℤ)
  | wheelScrolled (zoomFactor : ℚ) (mx my : ℤ)
  | keyR
  | keyNum (f : FractalType)
  | zoomTick (zoomInPressed zoomOutPressed : Bool)
  deriving DecidableEq

/-- One pass of the controller for one input. -/
def step (s : State) : Event → State
  | .leftClick mx my => click s mx my
  | .wheelScrolled zoomFactor mx my => wheel s zoomFactor mx my
  | .keyR => reset s
  | .keyNum f => selectFractal s f
  | .zoomTick zoomInPressed zoomOutPressed => zoomTick s zoomInPressed zoomOutPressed

/-- The controller run on a sequence of inputs, in arrival order. -/
def run (s : State) (es : List Event) : State :=
  es.foldl step s

/-- Width of the view window, `realMax - realMin`. -/
def State.width (s : State) : ℚ := s.realMax - s.realMin

/-- Height span of the view window, `imagMax - imagMin`. -/
def State.heightSpan (s : State) : ℚ := s.imagMax - s.imagMin

/-- Real part of the window centre. -/
def State.centerReal (s : State) : ℚ := (s.realMin + s.realMax) / 2

/-- Imaginary part of the window centre. -/
def State.centerImag (s : State) : ℚ := (s.imagMin + s.imagMax) / 2

/-- Aspect of the view window, height span over width. -/
def State.aspect (s : State) : ℚ := (s.imagMax - s.imagMin) / (s.realMax - s.realMin)

/-- The view-window invariant `realMin < realMax` and `imagMin < imagMax`. -/
def State.valid (s : State) : Prop := s.realMin < s.realMax ∧ s.imagMin < s.imagMax

instance (s : State) : Decidable s.valid := by
  unfold State.valid
  infer_instance

/-- Wheel events are those whose zoom factor is positive, as every value of
`std::pow(0.98, delta)` is; the other inputs carry no condition. -/
def Event.factorPositive : Event → Prop
  | .wheelScrolled zoomFactor _ _ => 0 < zoomFactor
  | _ => True

/-- Whether the input is a wheel event. -/
def Event.isWheel : Event → Bool
  | .wheelScrolled _ _ _ => true
  | _ => false

/-! ## Escape count (exact embedding) -/

/-- One iteration `z = z * z + c` of `std::complex<double>`, with `c = (x, y)`. -/
def mandelStep (x y : ℚ) (z : ℚ × ℚ) : ℚ × ℚ :=
  (z.1 * z.1 - z.2 * z.2 + x, z.1 * z.2 + z.2 * z.1 + y)

/-- The test `std::abs(z) > 2.0`, stated on the squared modulus. -/
def escaped (z : ℚ × ℚ) : Prop := z.1 * z.1 + z.2 * z.2 > 4

instance (z : ℚ × ℚ) : Decidable (escaped z) := by
  unfold escaped
  infer_instance

/-- The loop `for (int i = 0; i < maxIter; ++i)` of `calculateMandelbrot` with
`n` iterations left, loop counter `i` and current value `z`. -/
def mandelLoop (x y : ℚ) (maxIter : ℤ) : ℕ → ℤ → ℚ × ℚ → ℤ
  | 0, _, _ => maxIter
  | n + 1, i, z =>
    let z2 := mandelStep x y z
    if escaped z2 then i else mandelLoop x y maxIter n (i + 1) z2

/-- Escape count of the point `(x, y)`: the loop runs `maxIter` times when
`maxIter` is positive and not at all otherwise. -/
def calculateMandelbrot (x y : ℚ) (maxIter : ℤ) : ℤ :=
  mandelLoop x y maxIter maxIter.toNat 0 (0, 0)

/-- An `sf::Color` with full opacity: red, green and blue channels. -/
structure Color where
  r : ℕ
  g : ℕ
  b : ℕ
  deriving DecidableEq, Repr

/-- The colour `sf::Color::Black`. -/
def Color.Black : Color := ⟨0, 0, 0⟩

/-- An `sf::Image`: its size and its pixels.  The pixels of the image are those
at `0 ≤ x < sizeX`, `0 ≤ y < sizeY`; the values at other coordinates stand for
memory outside the buffer. -/
structure Image where
  sizeX : ℤ
  sizeY : ℤ
  pixel : ℤ → ℤ → Color

/-- The call `image.create(width, height, color)`: a fresh buffer of one colour. -/
def Image.create (width height : ℤ) (color : Color) : Image :=
  { sizeX := width, sizeY := height, pixel := fun _ _ => color }

/-- The call `image.setPixel(x, y, color)`. -/
def Image.setPixel (image : Image) (x y : ℤ) (color : Color) : Image :=
  { image with pixel := fun u v => if u = x ∧ v = y then color else image.pixel u v }

/-- Whether `(x, y)` is a pixel of the image. -/
def Image.inBounds (image : Image) (x y : ℤ) : Prop :=
  0 ≤ x ∧ x < image.sizeX ∧ 0 ≤ y ∧ y < image.sizeY

instance (image : Image) (x y : ℤ) : Decidable (image.inBounds x y) := by
  unfold Image.inBounds
  infer_instance

/-- The passes `0, 1, ..., n - 1` of a counted loop, in this order. -/
def forLoopAux {σ : Type} (body : ℤ → σ → σ) : ℕ → σ → σ
  | 0, s => s
  | n + 1, s => body (n : ℤ) (forLoopAux body n s)

/-- The loop `for (int i = 0; i < n; ++i) body`, which runs no pass when `n ≤ 0`. -/
def forLoop {σ : Type} (n : ℤ) (body : ℤ → σ → σ) (s : σ) : σ :=
  forLoopAux body n.toNat s

/-- Conversion `static_cast<uint8_t>(double)`: truncation toward zero, then the
low eight bits. -/
def castUint8 (q : ℚ) : ℕ :=
  (castInt q % 256).toNat

/-- Rounding to the nearest integer as the specification words it (ties upward). -/
def specRound (q : ℚ) : ℤ :=
  ⌊q + 1 / 2⌋

/-! ## Mandelbrot renderer -/

/-- The colour `renderMandelbrot` gives to a pixel with escape count `iterations`. -/
def mandelbrotColor (iterations maxIter : ℤ) : Color :=
  if iterations = maxIter then Color.Black
  else ⟨0, 0, castUint8 (map (iterations : ℚ) 0 (maxIter : ℚ) 0 255)⟩

/-- The function `renderMandelbrot`: columns outermost, every pixel written. -/
def renderMandelbrot (image : Image) (width height : ℤ)
    (realMin realMax imagMin imagMax : ℚ) (maxIter : ℤ) : Image :=
  forLoop width (fun x image =>
    forLoop height (fun y image =>
      let realPart := pixelToReal x width realMin realMax
      let imagPart := pixelToImag y height imagMin imagMax
      let iterations := calculateMandelbrot realPart imagPart maxIter
      image.setPixel x y (mandelbrotColor iterations maxIter)) image) image

/-! ## Line rasterizer -/

/-- The two error tests at the end of a pass of the `drawLine` loop: the new
`x`, `y` and `err` from the old ones. -/
def lineStep (dx dy sx sy x y err : ℤ) : ℤ × ℤ × ℤ :=
  let e2 := 2 * err
  let err1 := if e2 > -dy then err - dy else err
  let xn := if e2 > -dy then x + sx else x
  let err2 := if e2 < dx then err1 + dx else err1
  let yn := if e2 < dx then y + sy else y
  (xn, yn, err2)

/-- The loop `while (true)` of `drawLine` with at most `fuel` passes: clip test
and write, break test, step.  The result is `none` when the passes run out
before the break. -/
def drawLineLoop (col : Color) (x1 y1 dx dy sx sy : ℤ) : ℕ → Image → ℤ → ℤ → ℤ → Option Image
  | 0, _, _, _, _ => none
  | fuel + 1, image, x, y, err =>
    let written := if image.inBounds x y then image.setPixel x y col else image
    if x = x1 ∧ y = y1 then some written
    else
      drawLineLoop col x1 y1 dx dy sx sy fuel written (lineStep dx dy sx sy x y err).1
        (lineStep dx dy sx sy x y err).2.1 (lineStep dx dy sx sy x y err).2.2

/-- The points `(x, y)` at which the passes of the `drawLine` loop stand, in order. -/
def lineTraceLoop (x1 y1 dx dy sx sy : ℤ) : ℕ → ℤ → ℤ → ℤ → Option (List (ℤ × ℤ))
  | 0, _, _, _ => none
  | fuel + 1, x, y, err =>
    if x = x1 ∧ y = y1 then some [(x, y)]
    else
      (lineTraceLoop x1 y1 dx dy sx sy fuel (lineStep dx dy sx sy x y err).1
        (lineStep dx dy sx sy x y err).2.1 (lineStep dx dy sx sy x y err).2.2).map
        (fun pts => (x, y) :: pts)

/-- The function `drawLine`; the loop is given `dx + dy + 1` passes, which the
theorems below show to be enough. -/
def drawLine (image : Image) (x0 y0 x1 y1 : ℤ) (col : Color) : Option Image :=
  let dx := |x1 - x0|
  let dy := |y1 - y0|
  let sx : ℤ := if x0 < x1 then 1 else -1
  let sy : ℤ := if y0 < y1 then 1 else -1
  drawLineLoop col x1 y1 dx dy sx sy (dx + dy + 1).toNat image x0 y0 (dx - dy)

/-- The points visited by `drawLine` between two endpoints. -/
def linePoints (x0 y0 x1 y1 : ℤ) : Option (List (ℤ × ℤ)) :=
  let dx := |x1 - x0|
  let dy := |y1 - y0|
  let sx : ℤ := if x0 < x1 then 1 else -1
  let sy : ℤ := if y0 < y1 then 1 else -1
  lineTraceLoop x1 y1 dx dy sx sy (dx + dy + 1).toNat x0 y0 (dx - dy)

/-- Clipped writes of one colour at a list of points, in order. -/
def plotAll (col : Color) (image : Image) (pts : List (ℤ × ℤ)) : Image :=
  pts.foldl (fun img p => if img.inBounds p.1 p.2 then img.setPixel p.1 p.2 col else img) image

/-! ## Library functions and rounding -/

/-- The `<cmath>` functions the renderers call.  Each takes and returns doubles;
their values are not rational functions of the arguments, so they are taken as
given and every statement about a renderer that calls them holds for all of them. -/
structure Libm where
  atan2 : ℚ → ℚ → ℚ
  cos : ℚ → ℚ
  sin : ℚ → ℚ
  hypot : ℚ → ℚ → ℚ

/-- The constant `PI`, with the digits of the source. -/
def PI : ℚ := 314159265358979323846 / 100000000000000000000

/-- The function `std::lround`: nearest integer, halves away from zero. -/
def lround (q : ℚ) : ℤ :=
  if 0 ≤ q then ⌊q + 1 / 2⌋ else ⌈q - 1 / 2⌉

/-! ## Koch renderer -/

/-- The function `kochRecurse`: appends to `pts` the points of the curve from `a`
to `b`, the end point `b` excluded.  The depth is a natural number; the source
takes an `int` and does not return for a negative one. -/
def kochRecurse (m : Libm) : List (ℚ × ℚ) → ℚ × ℚ → ℚ × ℚ → ℕ → List (ℚ × ℚ)
  | pts, a, _, 0 => pts ++ [a]
  | pts, a, b, depth + 1 =>
    let ax := a.1
    let ay := a.2
    let bx := b.1
    let by_ := b.2
    let vx := bx - ax
    let vy := by_ - ay
    let p1 : ℚ × ℚ := (ax + vx / 3, ay + vy / 3)
    let p3 : ℚ × ℚ := (ax + vx * (2 / 3), ay + vy * (2 / 3))
    let angle := m.atan2 vy vx - PI / 3
    let len := m.hypot vx vy / 3
    let p2 : ℚ × ℚ := (p1.1 + m.cos angle * len, p1.2 + m.sin angle * len)
    let pts1 := kochRecurse m pts a p1 depth
    let pts2 := kochRecurse m pts1 p1 p2 depth
    let pts3 := kochRecurse m pts2 p2 p3 depth
    kochRecurse m pts3 p3 b depth

/-- The point list built by `renderKoch`: recursion to depth 6 between the two
pixel-space endpoints, then the end point. -/
def kochPoints (m : Libm) (width height : ℤ) (realMin realMax imagMin imagMax : ℚ) :
    List (ℚ × ℚ) :=
  let centerImag := (imagMin + imagMax) / 2
  let a_px : ℚ × ℚ := ((realToPixel realMin width realMin realMax : ℚ),
    (imagToPixel centerImag height imagMin imagMax : ℚ))
  let b_px : ℚ × ℚ := ((realToPixel realMax width realMin realMax : ℚ),
    (imagToPixel centerImag height imagMin imagMax : ℚ))
  kochRecurse m [] a_px b_px 6 ++ [b_px]

/-- The segments `(x0, y0, x1, y1)` drawn by the loop `for (i = 1; i < pts.size(); ++i)`:
consecutive points rounded with `lround`. -/
def roundedSegments (pts : List (ℚ × ℚ)) : List (ℤ × ℤ × ℤ × ℤ) :=
  List.zipWith (fun p q => (lround p.1, lround p.2, lround q.1, lround q.2)) pts pts.tail

/-- The function `renderKoch`: clear to black, then draw the segments in green. -/
def renderKoch (m : Libm) (_image : Image) (width height : ℤ)
    (realMin realMax imagMin imagMax : ℚ) : Option Image :=
  (roundedSegments (kochPoints m width height realMin realMax imagMin imagMax)).foldlM
    (fun img s => drawLine img s.1 s.2.1 s.2.2.1 s.2.2.2 ⟨34, 139, 34⟩)
    (Image.create width height Color.Black)

/-! ## Menger renderer -/

/-- The loop `for (int iter = 0; iter < 8; ++iter)` of `renderMenger` with `n` passes
left: whether the point `(tx, ty)` falls into a hole. -/
def mengerHoleLoop : ℕ → ℚ → ℚ → Bool
  | 0, _, _ => false
  | n + 1, tx, ty =>
    let tx3 := tx * 3
    let ty3 := ty * 3
    let ix : ℤ := ⌊tx3⌋
    let iy : ℤ := ⌊ty3⌋
    if ix.tmod 3 = 1 ∧ iy.tmod 3 = 1 then true
    else mengerHoleLoop n (tx3 - ix) (ty3 - iy)

/-- Whether pixel `(x, y)` of a `width` by `height` raster is a hole of the carpet. -/
def mengerHole (x y width height : ℤ) : Bool :=
  let ux : ℚ := (x : ℚ) / ((width - 1 : ℤ) : ℚ)
  let uy : ℚ := 1 - (y : ℚ) / ((height - 1 : ℤ) : ℚ)
  mengerHoleLoop 8 ux uy

/-- The function `renderMenger`: clear to black, then write silver at every pixel
that is not a hole.  The old image and the four bounds are not read. -/
def renderMenger (_image : Image) (width height : ℤ)
    (_realMin _realMax _imagMin _imagMax : ℚ) : Image :=
  forLoop width (fun x image =>
    forLoop height (fun y image =>
      if mengerHole x y width height = false then image.setPixel x y ⟨192, 192, 192⟩
      else image) image) (Image.create width height Color.Black)

/-! ## Settings file and startup of `main` -/

/-- The four persisted scalars. -/
structure Settings where
  centerReal : ℚ
  centerImag : ℚ
  width : ℚ
  fractal : ℤ
  deriving DecidableEq, Repr

/-- White space as `std::isspace` sees it in the default locale: space, tab, line
feed, vertical tab, form feed, carriage return. -/
def isSpace (c : Char) : Bool :=
  c.toNat = 32 || (9 ≤ c.toNat && c.toNat ≤ 13)

/-- The function `std::stoi` in base 10: leading white space, an optional sign,
then digits up to the first other character.  The result is `none` where the
function throws: no digit (`invalid_argument`) or a value outside the range of
`int` (`out_of_range`). -/
def stoi (s : List Char) : Option ℤ :=
  let t := s.dropWhile isSpace
  let negative : Bool := t.head? = some '-'
  let u := match t with
    | '-' :: r => r
    | '+' :: r => r
    | _ => t
  let ds := u.takeWhile Char.isDigit
  if ds = [] then none
  else
    let n : ℕ := ds.foldl (fun acc c => 10 * acc + (c.toNat - 48)) 0
    let v : ℤ := if negative then -(n : ℤ) else (n : ℤ)
    if -2147483648 ≤ v ∧ v ≤ 2147483647 then some v else none

/-- The two `std::getline` calls on one line: the key up to the first `=` and the
value after it.  The result is `none` when either call fails: an empty line, a
line without `=`, or nothing after the `=`. -/
def splitLine (line : List Char) : Option (List Char × List Char) :=
  if line = [] then none
  else
    match line.dropWhile (fun c => c ≠ '=') with
    | [] => none
    | _ :: value => if value = [] then none else some (line.takeWhile (fun c => c ≠ '='), value)

/-- The body of the loop of `loadSettings` for one line.  The argument `stod` is
`std::stod`, with `none` where it throws; an assignment takes place only after
the conversion has returned. -/
def applyLine (stod : List Char → Option ℚ) (v : Settings) (line : List Char) : Settings :=
  match splitLine line with
  | none => v
  | some (key, value) =>
    if key = "centerReal".toList then
      match stod value with
      | some x => { v with centerReal := x }
      | none => v
    else if key = "centerImag".toList then
      match stod value with
      | some x => { v with centerImag := x }
      | none => v
    else if key = "width".toList then
      match stod value with
      | some x => { v with width := x }
      | none => v
    else if key = "fractal".toList then
      match stoi value with
      | some n => { v with fractal := n }
      | none => v
    else v

/-- The function `loadSettings`: `file` is `none` when the file cannot be opened
and the list of its lines otherwise; `v` holds the caller's four variables. -/
def loadSettings (stod : List Char → Option ℚ) (file : Option (List (List Char)))
    (v : Settings) : Bool × Settings :=
  match file with
  | none => (false, v)
  | some lines => (true, lines.foldl (applyLine stod) v)

/-- The key a line assigns to, if it assigns at all. -/
def appliedKey (stod : List Char → Option ℚ) (line : List Char) : Option (List Char) :=
  match splitLine line with
  | none => none
  | some (key, value) =>
    if key = "centerReal".toList ∨ key = "centerImag".toList ∨ key = "width".toList then
      if (stod value).isSome then some key else none
    else if key = "fractal".toList then
      if (stoi value).isSome then some key else none
    else none

/-- The values of `savedCenterReal`, `savedCenterImag`, `savedWidth`,
`savedFractal` before `loadSettings` is called. -/
def defaultSaved : Settings :=
  { centerReal := 0, centerImag := 0, width := 0, fractal := FractalType.MADELBROT.code }

/-- The arguments of the call of `saveSettings` at startup, if it takes place. -/
def startupSave (haveSaved : Bool) (savedWidth : ℚ) (currentFractal : ℤ) : Option Settings :=
  if haveSaved = true ∧ savedWidth > 0 then none
  else
    some { centerReal := (INIT_REAL_MIN + INIT_REAL_MAX) / 2
           centerImag := (INIT_IMAG_MIN + INIT_IMAG_MAX) / 2
           width := INIT_REAL_MAX - INIT_REAL_MIN
           fractal := currentFractal }

/-- Start of `main` from the settings file: the view variables and the settings
written back, if any. -/
def mainStartup (stod : List Char → Option ℚ) (file : Option (List (List Char))) :
    State × Option Settings :=
  let loaded := loadSettings stod file defaultSaved
  (startup loaded.1 loaded.2.centerReal loaded.2.centerImag loaded.2.width loaded.2.fractal,
    startupSave loaded.1 loaded.2.width loaded.2.fractal)

/-! ## Dragon renderer -/

/-- One rewriting pass of `dragonLSystem`: `X → X+YF+`, `Y → -FX-Y`, every other
character kept. -/
def dragonRewrite (s : List Char) : List Char :=
  s.flatMap (fun c =>
    if c = 'X' then "X+YF+".toList else if c = 'Y' then "-FX-Y".toList else [c])

/-- The function `dragonLSystem`: `depth` rewriting passes from `FX` (none when
`depth ≤ 0`). -/
def dragonLSystem (depth : ℤ) : List Char :=
  dragonRewrite^[depth.toNat] "FX".toList

/-- The turtle of `renderDragon`: position, heading and the points emitted so far. -/
structure Turtle where
  x : ℚ
  y : ℚ
  angle : ℚ
  points : List (ℚ × ℚ)

/-- One character of the program: `F` emits the current point and advances by
`step`, `+` and `-` turn by a quarter turn, any other character does nothing. -/
def turtleStep (m : Libm) (step : ℚ) (t : Turtle) (c : Char) : Turtle :=
  if c = 'F' then
    { t with
      x := t.x + m.cos t.angle * step
      y := t.y + m.sin t.angle * step
      points := t.points ++ [(t.x, t.y)] }
  else if c = '+' then { t with angle := t.angle + PI / 2 }
  else if c = '-' then { t with angle := t.angle - PI / 2 }
  else t

/-- The world-space points emitted by `renderDragon` (depth 12, reference world
width 3.5). -/
def dragonPoints (m : Libm) (width : ℤ) (realMin realMax imagMin imagMax : ℚ) :
    List (ℚ × ℚ) :=
  let prog := dragonLSystem 12
  let step : ℚ := 7 / 2 / (width : ℚ) * 2
  let cx := (realMin + realMax) / 2
  let cy := (imagMin + imagMax) / 2
  (prog.foldl (turtleStep m step) { x := cx - 7 / 2 / 4, y := cy, angle := 0, points := [] }).points

/-- The colour of segment `i` when `N` points were emitted:
`t = i / max(1, N - 1)` and red `static_cast<uint8_t>(min(255.0, 120.0 + 135.0 * t))`. -/
def dragonColor (i N : ℕ) : Color :=
  let t : ℚ := (i : ℚ) / ((max 1 (N - 1) : ℕ) : ℚ)
  ⟨castUint8 (min 255 (120 + 135 * t)), 20, 20⟩

/-- The segments drawn by the loop `for (i = 1; i < points.size(); ++i)` of
`renderDragon`, entry `i - 1` being segment `i`: its two mapped end pixels and
its colour. -/
def dragonSegments (width height : ℤ) (realMin realMax imagMin imagMax : ℚ)
    (points : List (ℚ × ℚ)) : List ((ℤ × ℤ × ℤ × ℤ) × Color) :=
  (List.range (points.length - 1)).map (fun k =>
    ((realToPixel (points.getD k (0, 0)).1 width realMin realMax,
      imagToPixel (points.getD k (0, 0)).2 height imagMin imagMax,
      realToPixel (points.getD (k + 1) (0, 0)).1 width realMin realMax,
      imagToPixel (points.getD (k + 1) (0, 0)).2 height imagMin imagMax),
     dragonColor (k + 1) points.length))

/-- The function `renderDragon`: clear to black, then draw the segments. -/
def renderDragon (m : Libm) (_image : Image) (width height : ℤ)
    (realMin realMax imagMin imagMax : ℚ) : Option Image :=
  (dragonSegments width height realMin realMax imagMin imagMax
      (dragonPoints m width realMin realMax imagMin imagMax)).foldlM
    (fun img s => drawLine img s.1.1 s.1.2.1 s.1.2.2.1 s.1.2.2.2 s.2)
    (Image.create width height Color.Black)

/-! ## Sierpinski renderer: the triangle vertices -/

/-- The pixel-space vertices `V1`, `V2`, `V3` computed at the start of
`renderSierpinski` (exact embedding). -/
def sierpinskiVertices (width height : ℤ) (realMin realMax imagMin imagMax : ℚ) :
    (ℤ × ℤ) × (ℤ × ℤ) × (ℤ × ℤ) :=
  let v1x := realToPixel realMin width realMin realMax
  let v1y := imagToPixel imagMax height imagMin imagMax
  let v2x := realToPixel realMax width realMin realMax
  let v2y := imagToPixel imagMax height imagMin imagMax
  let v3x := realToPixel ((realMin + realMax) / 2) width realMin realMax
  let v3y := imagToPixel imagMin height imagMin imagMax
  ((v1x, v1y), (v2x, v2y), (v3x, v3y))

/-- The vertices of `renderSierpinski` in binary64. -/
def sierpinskiVerticesD (width height : ℤ) (realMin realMax imagMin imagMax : ℚ) :
    Option ((ℤ × ℤ) × (ℤ × ℤ) × (ℤ × ℤ)) := do
  let v1x ← realToPixelD realMin width realMin realMax
  let v1y ← imagToPixelD imagMax height imagMin imagMax
  let v2x ← realToPixelD realMax width realMin realMax
  let v2y ← imagToPixelD imagMax height imagMin imagMax
  let sum ← fadd realMin realMax
  let mid ← fdiv sum 2
  let v3x ← realToPixelD mid width realMin realMax
  let v3y ← imagToPixelD imagMin height imagMin imagMax
  pure ((v1x, v1y), (v2x, v2y), (v3x, v3y))

/-- The loop invariant of `drawLine` at a pass standing at `(x, y)` with error
`err`, when `p` columns and `q` rows are still to go. -/
def LineInv (x1 y1 dx dy sx sy x y err p q : ℤ) : Prop :=
  0 ≤ dx ∧ 0 ≤ dy ∧ (sx = 1 ∨ sx = -1) ∧ (sy = 1 ∨ sy = -1) ∧
    0 ≤ p ∧ p ≤ dx ∧ 0 ≤ q ∧ q ≤ dy ∧ x1 - x = sx * p ∧ y1 - y = sy * q ∧
    err = dx - dy + p * dy - q * dx ∧
    (dy ≤ dx → 0 < dx → -dy < 2 * err) ∧ (dx < dy → 2 * err < dx) ∧ (dx = dy → err = 0)

/-! ## Saving the view and loading it again -/

/-- The arguments of the call of `saveSettings` in the debounced save and in the
save on close (exact embedding; `savedSettingsD` is the binary64 embedding):
centre and width of the current window, and the fractal. -/
def savedSettings (s : State) : Settings :=
  { centerReal := (s.realMin + s.realMax) / 2
    centerImag := (s.imagMin + s.imagMax) / 2
    width := s.realMax - s.realMin
    fractal := s.currentFractal }

/-! ## Sierpinski renderer: the chaos game -/

/-- The variables carried by the loop of `renderSierpinski`: the image and the
current point `(prx, pry)`. -/
structure ChaosState where
  image : Image
  prx : ℚ
  pry : ℚ

/-- One pass of the loop of `renderSierpinski`: move halfway to the vertex chosen
by `rand() % 3`, round with `lround`, and plot in gold if the pixel passes the
bounds test.  The argument `rnd i` is the value `rand()` returns in pass `i`. -/
def chaosStep (width height : ℤ) (v : (ℤ × ℤ) × (ℤ × ℤ) × (ℤ × ℤ)) (rnd : ℤ → ℤ) (i : ℤ)
    (s : ChaosState) : ChaosState :=
  let c := (rnd i).tmod 3
  let p : ℚ × ℚ :=
    if c = 0 then ((s.prx + (v.1.1 : ℚ)) / 2, (s.pry + (v.1.2 : ℚ)) / 2)
    else if c = 1 then ((s.prx + (v.2.1.1 : ℚ)) / 2, (s.pry + (v.2.1.2 : ℚ)) / 2)
    else ((s.prx + (v.2.2.1 : ℚ)) / 2, (s.pry + (v.2.2.2 : ℚ)) / 2)
  let px := lround p.1
  let py := lround p.2
  if px ≥ 0 ∧ px < width ∧ py ≥ 0 ∧ py < height then
    { image := s.image.setPixel px py ⟨255, 215, 0⟩, prx := p.1, pry := p.2 }
  else { image := s.image, prx := p.1, pry := p.2 }

/-- The state of `renderSierpinski` before the loop: a black image and the
centroid of the three vertices. -/
def chaosStart (width height : ℤ) (v : (ℤ × ℤ) × (ℤ × ℤ) × (ℤ × ℤ)) : ChaosState :=
  { image := Image.create width height Color.Black
    prx := ((v.1.1 : ℚ) + (v.2.1.1 : ℚ) + (v.2.2.1 : ℚ)) / 3
    pry := ((v.1.2 : ℚ) + (v.2.1.2 : ℚ) + (v.2.2.2 : ℚ)) / 3 }

/-- The state of `renderSierpinski` after the first `n` passes of its loop. -/
def chaosRun (rnd : ℤ → ℤ) (width height : ℤ) (realMin realMax imagMin imagMax : ℚ)
    (n : ℕ) : ChaosState :=
  forLoopAux
    (chaosStep width height (sierpinskiVertices width height realMin realMax imagMin imagMax) rnd)
    n (chaosStart width height (sierpinskiVertices width height realMin realMax imagMin imagMax))

/-- The function `renderSierpinski`: 120000 passes from the centroid. -/
def renderSierpinski (rnd : ℤ → ℤ) (_image : Image) (width height : ℤ)
    (realMin realMax imagMin imagMax : ℚ) : Image :=
  (forLoop 120000
    (chaosStep width height (sierpinskiVertices width height realMin realMax imagMin imagMax) rnd)
    (chaosStart width height
      (sierpinskiVertices width height realMin realMax imagMin imagMax))).image

/-! ## Dispatcher -/

/-- The function `renderCurrent`: the `switch` on the fractal code; the `default`
label draws the Mandelbrot set.  The result is that of the renderer called. -/
def renderCurrent (m : Libm) (rnd : ℤ → ℤ) (fractal : ℤ) (image : Image) (width height : ℤ)
    (realMin realMax imagMin imagMax : ℚ) (maxIter : ℤ) : Option Image :=
  if fractal = FractalType.MADELBROT.code then
    some (renderMandelbrot image width height realMin realMax imagMin imagMax maxIter)
  else if fractal = FractalType.SIERPINSKI.code then
    some (renderSierpinski rnd image width height realMin realMax imagMin imagMax)
  else if fractal = FractalType.KOCH.code then
    renderKoch m image width height realMin realMax imagMin imagMax
  else if fractal = FractalType.MENGER.code then
    some (renderMenger image width height realMin realMax imagMin imagMax)
  else if fractal = FractalType.DRAGON.code then
    renderDragon m image width height realMin realMax imagMin imagMax
  else
    some (renderMandelbrot image width height realMin realMax imagMin imagMax maxIter)

/-! ## Controller transitions and startup (binary64 embedding) -/

/-- Start of `main` in binary64, on the doubles returned by `loadSettings`: every
operation of the settings branch is rounded to the nearest double. -/
def startupD (haveSaved : Bool) (savedCenterReal savedCenterImag savedWidth : ℚ)
    (savedFractal : ℤ) : Option State :=
  if haveSaved = true ∧ savedWidth > 0 then do
    let halfW ← fdiv savedWidth 2
    let h ← toDouble (HEIGHT : ℚ)
    let w ← toDouble (WIDTH : ℚ)
    let ratio ← fdiv h w
    let heightSpan ← fmul savedWidth ratio
    let halfH ← fdiv heightSpan 2
    let realMin ← fsub savedCenterReal halfW
    let realMax ← fadd savedCenterReal halfW
    let imagMin ← fsub savedCenterImag halfH
    let imagMax ← fadd savedCenterImag halfH
    some { realMin := realMin, realMax := realMax, imagMin := imagMin, imagMax := imagMax,
           currentFractal := savedFractal }
  else
    some { realMin := INIT_REAL_MIN, realMax := INIT_REAL_MAX, imagMin := INIT_IMAG_MIN,
           imagMax := INIT_IMAG_MAX, currentFractal := savedFractal }

/-- One axis of the continuous-zoom tick in binary64: the centre `(lo + hi) / 2.0`,
the half span `(hi - lo) / 2.0 * zoomFactor`, and the two new bounds. -/
def zoomAxisD (lo hi zoomFactor : ℚ) : Option (ℚ × ℚ) := do
  let sum ← fadd lo hi
  let center ← fdiv sum 2
  let d ← fsub hi lo
  let h ← fdiv d 2
  let half ← fmul h zoomFactor
  let newLo ← fsub center half
  let newHi ← fadd center half
  some (newLo, newHi)

/-- One continuous-zoom tick in binary64, the two axes one after the other; the
literals `0.98`, `1.02`, `1.0` are the doubles nearest to these decimals. -/
def zoomTickD (s : State) (zoomInPressed zoomOutPressed : Bool) : Option State :=
  if zoomInPressed = true ∨ zoomOutPressed = true then do
    let zoomFactor ← toDouble (zoomTickFactor zoomInPressed zoomOutPressed)
    let re ← zoomAxisD s.realMin s.realMax zoomFactor
    let im ← zoomAxisD s.imagMin s.imagMax zoomFactor
    some { s with realMin := re.1, realMax := re.2, imagMin := im.1, imagMax := im.2 }
  else some s

/-! ## Writing the settings file -/

/-- Power of ten with an integer exponent, as a rational. -/
def pow10 (e : ℤ) : ℚ :=
  if 0 ≤ e then ((10 ^ e.toNat : ℕ) : ℚ) else 1 / ((10 ^ (-e).toNat : ℕ) : ℚ)

/-- Bisection for the decimal exponent: given `10^lo ≤ a < 10^hi` it returns the
`e` with `10^e ≤ a < 10^(e+1)`. -/
def decimalExponentSearch (a : ℚ) : ℕ → ℤ → ℤ → ℤ
  | 0, lo, _ => lo
  | fuel + 1, lo, hi =>
    if hi ≤ lo + 1 then lo
    else
      let mid := (lo + hi) / 2
      if a < pow10 mid then decimalExponentSearch a fuel lo mid
      else decimalExponentSearch a fuel mid hi

/-- Decimal exponent of a non-zero double: the `e` with `10^e ≤ |q| < 10^(e+1)`.
Doubles lie between `10^(-324)` and `10^309`, an interval of 633 exponents, so
10 halvings suffice. -/
def decimalExponent (q : ℚ) : ℤ :=
  decimalExponentSearch |q| 10 (-324) 309

/-- The `count` low decimal digits of `n`, most significant first. -/
def formatDigits (n : ℕ) : ℕ → List Char
  | 0 => []
  | count + 1 => formatDigits (n / 10) count ++ [Char.ofNat (48 + n % 10)]

/-- Removal of trailing zeros. -/
def stripZeros (ds : List Char) : List Char :=
  (ds.reverse.dropWhile (fun c => c = '0')).reverse

/-- The text `operator<<` writes for a finite `double` in the default float
format with `std::setprecision(precision)`, which is the conversion `%g`: the
value is rounded to `precision` significant decimal digits (ties to even); with
`X` the decimal exponent of the rounded value, fixed notation is used when
`-4 ≤ X < precision` and scientific notation otherwise; trailing zeros of the
fraction are dropped, and so is a decimal point with nothing after it. -/
def formatDouble (precision : ℕ) (v : ℚ) : List Char :=
  if v = 0 then ['0']
  else
    let e0 := decimalExponent v
    let d0 := (roundHalfEven (|v| / pow10 (e0 - ((precision : ℤ) - 1)))).toNat
    let X : ℤ := if 10 ^ precision ≤ d0 then e0 + 1 else e0
    let D : ℕ := if 10 ^ precision ≤ d0 then 10 ^ (precision - 1) else d0
    let ds := formatDigits D precision
    let sign : List Char := if v < 0 then ['-'] else []
    if -4 ≤ X ∧ X < (precision : ℤ) then
      if 0 ≤ X then
        let fraction := stripZeros (ds.drop (X.toNat + 1))
        sign ++ ds.take (X.toNat + 1) ++ (if fraction = [] then [] else '.' :: fraction)
      else
        sign ++ ['0', '.'] ++ List.replicate ((-X).toNat - 1) '0' ++ stripZeros ds
    else
      let fraction := stripZeros (ds.drop 1)
      sign ++ ds.take 1 ++ (if fraction = [] then [] else '.' :: fraction)
        ++ ['e', if X < 0 then '-' else '+']
        ++ formatDigits X.natAbs (if X.natAbs < 100 then 2 else 3)

/-- The text `operator<<` writes for an `int`. -/
def formatInt (n : ℤ) : List Char :=
  (if n < 0 then ['-'] else []) ++ Nat.toDigits 10 n.natAbs

/-- The function `saveSettings` when the file opens: the four lines written. -/
def saveSettings (centerReal centerImag width : ℚ) (fractal : ℤ) : List (List Char) :=
  ["centerReal=".toList ++ formatDouble 15 centerReal,
   "centerImag=".toList ++ formatDouble 15 centerImag,
   "width=".toList ++ formatDouble 15 width,
   "fractal=".toList ++ formatInt fractal]

/-- The value of a string of decimal digits. -/
def digitsValue (ds : List Char) : ℕ :=
  ds.foldl (fun acc c => 10 * acc + (c.toNat - 48)) 0

/-- The function `std::stod` on decimal text: optional white space and sign,
digits with an optional point, an optional exponent; the longest such prefix is
converted to the nearest double.  The result is `none` where the function
throws: no digit (`invalid_argument`) or a value too large for a double
(`out_of_range`).  Hexadecimal text, infinities and NaN are not represented. -/
def stodDecimal (s : List Char) : Option ℚ :=
  let t := s.dropWhile isSpace
  let negative : Bool := t.head? = some '-'
  let u := match t with
    | '-' :: r => r
    | '+' :: r => r
    | _ => t
  let ip := u.takeWhile Char.isDigit
  let r1 := u.dropWhile Char.isDigit
  let fp := match r1 with
    | '.' :: r => r.takeWhile Char.isDigit
    | _ => []
  let r2 := match r1 with
    | '.' :: r => r.dropWhile Char.isDigit
    | _ => r1
  if ip = [] ∧ fp = [] then none
  else
    let ex : ℤ := match r2 with
      | 'e' :: '-' :: r => -(digitsValue (r.takeWhile Char.isDigit) : ℤ)
      | 'e' :: '+' :: r => (digitsValue (r.takeWhile Char.isDigit) : ℤ)
      | 'e' :: r => (digitsValue (r.takeWhile Char.isDigit) : ℤ)
      | 'E' :: '-' :: r => -(digitsValue (r.takeWhile Char.isDigit) : ℤ)
      | 'E' :: '+' :: r => (digitsValue (r.takeWhile Char.isDigit) : ℤ)
      | 'E' :: r => (digitsValue (r.takeWhile Char.isDigit) : ℤ)
      | _ => 0
    let a : ℚ := (digitsValue (ip ++ fp) : ℚ) * pow10 (ex - (fp.length : ℤ))
    toDouble (if negative then -a else a)

/-- The values `saveSettings` receives in the debounced save and in the save on
close, in binary64. -/
def savedSettingsD (s : State) : Option Settings := do
  let sumR ← fadd s.realMin s.realMax
  let centerReal ← fdiv sumR 2
  let sumI ← fadd s.imagMin s.imagMax
  let centerImag ← fdiv sumI 2
  let width ← fsub s.realMax s.realMin
  some { centerReal := centerReal, centerImag := centerImag, width := width,
         fractal := s.currentFractal }

/-- The view variables at the start of `main` in binary64, from the settings file. -/
def mainStartupD (stod : List Char → Option ℚ) (file : Option (List (List Char))) :
    Option State :=
  let loaded := loadSettings stod file defaultSaved
  startupD loaded.1 loaded.2.centerReal loaded.2.centerImag loaded.2.width loaded.2.fractal

/-- The view variables at the start of the next run, when the last save was made
in state `s` (exact embedding): the saved centre, width and fractal are written
by `saveSettings`, read by `loadSettings` and turned into bounds by the start of
`main`. -/
def nextRun (stod : List Char → Option ℚ) (s : State) : State :=
  (mainStartup stod (some (saveSettings (savedSettings s).centerReal
    (savedSettings s).centerImag (savedSettings s).width (savedSettings s).fractal))).1

/-! ## Coordinate mapper: theorems -/

theorem castInt_intCast (n : ℤ) : castInt (n : ℚ) = n := by
  unfold castInt
  split_ifs <;> simp

/-- The rounding model on known doubles: `0.1` is `3602879701896397 / 2^55`, a
representable value is returned as it is, and the largest finite double is
`2^1024 - 2^971` with its successor overflowing. -/
theorem roundDouble_known_values :
    roundDouble (1 / 10) = 3602879701896397 / 36028797018963968 ∧
      roundDouble (-5 / 2) = -5 / 2 ∧
      toDouble (pow2 1024 - pow2 971) = some (pow2 1024 - pow2 971) ∧
      toDouble (pow2 1024 - pow2 970) = none := by
  decide!

/-- Evaluation of `mapD` from the values of its six rounded operations. -/
theorem mapD_eval (value inMin inMax outMin outMax t1 t2 t3 t4 t5 r : ℚ)
    (h1 : fsub value inMin = some t1) (h2 : fsub outMax outMin = some t2)
    (h3 : fmul t1 t2 = some t3) (h4 : fsub inMax inMin = some t4)
    (h5 : fdiv t3 t4 = some t5) (h6 : fadd outMin t5 = some r) :
    mapD value inMin inMax outMin outMax = some r := by
  simp [mapD, h1, h2, h3, h4, h5, h6]

/-- C1 (as amended): in exact arithmetic the mapper round trip holds.  For every
raster width `W > 1`, window `rMin < rMax` and integer `px` (in particular
`0 ≤ px ≤ W - 1`), `realToPixel (pixelToReal px) = px`; likewise for every
`H > 1`, `iMin < iMax` and integer `py`, `imagToPixel (pixelToImag py) = py`. -/
theorem mapper_round_trip_exact (W H px py : ℤ) (rMin rMax iMin iMax : ℚ)
    (hW : 1 < W) (hr : rMin < rMax) (hH : 1 < H) (hi : iMin < iMax) :
    realToPixel (pixelToReal px W rMin rMax) W rMin rMax = px ∧
      imagToPixel (pixelToImag py H iMin iMax) H iMin iMax = py := by
  have hW0 : (W : ℚ) - 1 ≠ 0 := by
    have : (1 : ℚ) < (W : ℚ) := by exact_mod_cast hW
    linarith
  have hH0 : (H : ℚ) - 1 ≠ 0 := by
    have : (1 : ℚ) < (H : ℚ) := by exact_mod_cast hH
    linarith
  have hr0 : rMax - rMin ≠ 0 := sub_ne_zero.mpr hr.ne.symm
  have hi0 : iMin - iMax ≠ 0 := sub_ne_zero.mpr hi.ne
  constructor
  · have hx : map (pixelToReal px W rMin rMax) rMin rMax 0 ((W - 1 : ℤ) : ℚ) = (px : ℚ) := by
      unfold pixelToReal map
      push_cast
      field_simp
      ring
    rw [realToPixel, hx, castInt_intCast]
  · have hy : map (pixelToImag py H iMin iMax) iMax iMin 0 ((H - 1 : ℤ) : ℚ) = (py : ℚ) := by
      unfold pixelToImag map
      push_cast
      field_simp
      ring
    rw [imagToPixel, hy, castInt_intCast]

/-- Witness for C1 (as amended): the 640 by 480 raster on the initial window, at
pixel `(1, 1)`. -/
theorem mapper_round_trip_exact_witness :
    realToPixel (pixelToReal 1 640 (-5 / 2) 1) 640 (-5 / 2) 1 = 1 ∧
      imagToPixel (pixelToImag 1 480 (-1) 1) 480 (-1) 1 = 1 :=
  mapper_round_trip_exact 640 480 1 1 (-5 / 2) 1 (-1) 1 (by decide) (by norm_num)
    (by decide) (by norm_num)

/-- C1 (counterexample): evaluated in binary64 as the program does, on the
640-pixel raster and the initial window `[-2.5, 1.0]`, pixel column 1 maps to a
real coordinate that `realToPixel` truncates to column 0, not 1. -/
theorem mapper_round_trip_double_fails :
    pixelToRealD 1 640 (-5 / 2) 1 = some (-2808582866208361 / 1125899906842624) ∧
      realToPixelD (-2808582866208361 / 1125899906842624) 640 (-5 / 2) 1 = some 0 ∧
      (0 : ℤ) ≠ 1 := by
  have c1 : toDouble ((1 : ℤ) : ℚ) = some 1 := by decide!
  have c639 : toDouble (((640 : ℤ) - 1 : ℤ) : ℚ) = some 639 := by decide!
  have m1 : mapD 1 0 639 (-5 / 2) 1 = some (-2808582866208361 / 1125899906842624) :=
    mapD_eval 1 0 639 (-5 / 2) 1 1 (7 / 2) (7 / 2) 639
      (6314906519755813 / 1152921504606846976) (-2808582866208361 / 1125899906842624)
      (by decide!) (by decide!) (by decide!) (by decide!) (by decide!) (by decide!)
  have m2 : mapD (-2808582866208361 / 1125899906842624) (-5 / 2) 1 0 639
      = some (9007199254740939 / 9007199254740992) :=
    mapD_eval (-2808582866208361 / 1125899906842624) (-5 / 2) 1 0 639
      (6166900898199 / 1125899906842624) 639 (3940649673949161 / 1125899906842624) (7 / 2)
      (9007199254740939 / 9007199254740992) (9007199254740939 / 9007199254740992)
      (by decide!) (by decide!) (by decide!) (by decide!) (by decide!) (by decide!)
  have c0 : castIntD (9007199254740939 / 9007199254740992) = some 0 := by decide!
  refine ⟨?_, ?_, by decide⟩
  · simp only [pixelToRealD, c1, c639, Option.bind_eq_bind, Option.some_bind, m1]
  · simp only [realToPixelD, c639, Option.bind_eq_bind, Option.some_bind, m2, c0]

/-! ## View controller: auxiliary lemmas -/

theorem click_spans (s : State) (mx my : ℤ) :
    (click s mx my).realMax - (click s mx my).realMin = s.realMax - s.realMin ∧
      (click s mx my).imagMax - (click s mx my).imagMin = s.imagMax - s.imagMin := by
  simp only [click]
  constructor <;> ring

theorem wheel_spans (s : State) (zoomFactor : ℚ) (mx my : ℤ) :
    (wheel s zoomFactor mx my).realMax - (wheel s zoomFactor mx my).realMin
        = (s.realMax - s.realMin) * zoomFactor ∧
      (wheel s zoomFactor mx my).imagMax - (wheel s zoomFactor mx my).imagMin
        = (s.imagMax - s.imagMin) * zoomFactor := by
  simp only [wheel]
  constructor <;> ring

theorem zoomTickFactor_pos (a b : Bool) : 0 < zoomTickFactor a b := by
  unfold zoomTickFactor
  split_ifs <;> norm_num

theorem zoomTick_spans (s : State) (a b : Bool) (h : a = true ∨ b = true) :
    (zoomTick s a b).realMax - (zoomTick s a b).realMin
        = (s.realMax - s.realMin) * zoomTickFactor a b ∧
      (zoomTick s a b).imagMax - (zoomTick s a b).imagMin
        = (s.imagMax - s.imagMin) * zoomTickFactor a b := by
  simp only [zoomTick, if_pos h]
  constructor <;> ring

theorem valid_iff_spans (s : State) :
    s.valid ↔ 0 < s.realMax - s.realMin ∧ 0 < s.imagMax - s.imagMin := by
  unfold State.valid
  constructor
  · rintro ⟨h1, h2⟩
    exact ⟨sub_pos.mpr h1, sub_pos.mpr h2⟩
  · rintro ⟨h1, h2⟩
    exact ⟨sub_pos.mp h1, sub_pos.mp h2⟩

theorem startup_valid (haveSaved : Bool) (cR cI w : ℚ) (f : ℤ) :
    (startup haveSaved cR cI w f).valid := by
  unfold startup
  split_ifs with h
  · obtain ⟨_, hw⟩ := h
    have hw0 : 0 < w := hw
    simp only [State.valid, HEIGHT, WIDTH]
    constructor
    · linarith
    · push_cast
      linarith
  · simp only [State.valid, INIT_REAL_MIN, INIT_REAL_MAX, INIT_IMAG_MIN, INIT_IMAG_MAX]
    norm_num

theorem step_valid (s : State) (e : Event) (hs : s.valid) (he : e.factorPositive) :
    (step s e).valid := by
  rw [valid_iff_spans] at hs ⊢
  obtain ⟨h1, h2⟩ := hs
  cases e with
  | leftClick mx my =>
    simp only [step]
    rw [(click_spans s mx my).1, (click_spans s mx my).2]
    exact ⟨h1, h2⟩
  | wheelScrolled zoomFactor mx my =>
    have hz : 0 < zoomFactor := he
    simp only [step]
    rw [(wheel_spans s zoomFactor mx my).1, (wheel_spans s zoomFactor mx my).2]
    exact ⟨mul_pos h1 hz, mul_pos h2 hz⟩
  | keyR =>
    simp only [step, reset]
    norm_num
  | keyNum f =>
    simp only [step, selectFractal]
    exact ⟨h1, h2⟩
  | zoomTick a b =>
    simp only [step]
    by_cases h : a = true ∨ b = true
    · rw [(zoomTick_spans s a b h).1, (zoomTick_spans s a b h).2]
      exact ⟨mul_pos h1 (zoomTickFactor_pos a b), mul_pos h2 (zoomTickFactor_pos a b)⟩
    · simp only [zoomTick, if_neg h]
      exact ⟨h1, h2⟩

theorem step_aspect (s : State) (e : Event) (he : e.factorPositive) (hR : e ≠ Event.keyR) :
    (step s e).aspect = s.aspect := by
  unfold State.aspect
  cases e with
  | leftClick mx my =>
    simp only [step]
    rw [(click_spans s mx my).1, (click_spans s mx my).2]
  | wheelScrolled zoomFactor mx my =>
    have hz : 0 < zoomFactor := he
    simp only [step]
    rw [(wheel_spans s zoomFactor mx my).1, (wheel_spans s zoomFactor mx my).2]
    exact mul_div_mul_right _ _ hz.ne.symm
  | keyR => exact absurd rfl hR
  | keyNum f => simp only [step, selectFractal]
  | zoomTick a b =>
    simp only [step]
    by_cases h : a = true ∨ b = true
    · rw [(zoomTick_spans s a b h).1, (zoomTick_spans s a b h).2]
      exact mul_div_mul_right _ _ (zoomTickFactor_pos a b).ne.symm
    · simp only [zoomTick, if_neg h]

theorem run_cons (s : State) (e : Event) (es : List Event) :
    run s (e :: es) = run (step s e) es := rfl

theorem run_valid (es : List Event) :
    ∀ s : State, s.valid → (∀ e ∈ es, e.factorPositive) → (run s es).valid := by
  induction es with
  | nil => intro s hs _; exact hs
  | cons e es ih =>
    intro s hs hes
    rw [run_cons]
    exact ih (step s e) (step_valid s e hs (hes e (List.mem_cons_self e es)))
      (fun x hx => hes x (List.mem_cons_of_mem e hx))

theorem run_aspect_of_no_reset (es : List Event) :
    ∀ s : State, (∀ e ∈ es, e.factorPositive) → Event.keyR ∉ es →
      (run s es).aspect = s.aspect := by
  induction es with
  | nil => intro s _ _; rfl
  | cons e es ih =>
    intro s hes hR
    rw [run_cons]
    have hne : e ≠ Event.keyR := fun h => hR (h ▸ List.mem_cons_self e es)
    have hR2 : Event.keyR ∉ es := fun h => hR (List.mem_cons_of_mem e h)
    rw [ih (step s e) (fun x hx => hes x (List.mem_cons_of_mem e hx)) hR2]
    exact step_aspect s e (hes e (List.mem_cons_self e es)) hne

theorem reset_aspect (s : State) : (reset s).aspect = 4 / 7 := by
  simp only [reset, State.aspect]
  norm_num

theorem run_aspect_of_reset (es : List Event) :
    ∀ s : State, (∀ e ∈ es, e.factorPositive) → Event.keyR ∈ es →
      (run s es).aspect = 4 / 7 := by
  induction es with
  | nil => intro s _ h; exact absurd h (List.not_mem_nil _)
  | cons e es ih =>
    intro s hes hR
    rw [run_cons]
    have hes2 : ∀ x ∈ es, x.factorPositive := fun x hx => hes x (List.mem_cons_of_mem e hx)
    by_cases h : Event.keyR ∈ es
    · exact ih (step s e) hes2 h
    · have he : e = Event.keyR := by
        rcases List.mem_cons.mp hR with h1 | h1
        · exact h1.symm
        · exact absurd h1 h
      rw [run_aspect_of_no_reset es (step s e) hes2 h, he]
      exact reset_aspect s

theorem startup_aspect (haveSaved : Bool) (cR cI w : ℚ) (f : ℤ) :
    (startup haveSaved cR cI w f).aspect
      = if haveSaved = true ∧ 0 < w then (HEIGHT : ℚ) / (WIDTH : ℚ) else 4 / 7 := by
  unfold startup
  by_cases h : haveSaved = true ∧ w > 0
  · have h2 : haveSaved = true ∧ 0 < w := h
    rw [if_pos h, if_pos h2]
    have hw : w ≠ 0 := h.2.ne.symm
    simp only [State.aspect, HEIGHT, WIDTH]
    push_cast
    field_simp
    ring
  · have h2 : ¬ (haveSaved = true ∧ 0 < w) := h
    rw [if_neg h, if_neg h2]
    simp only [State.aspect, INIT_REAL_MIN, INIT_REAL_MAX, INIT_IMAG_MIN, INIT_IMAG_MAX]
    norm_num

theorem factorPositive_of_not_wheel (e : Event) (h : e.isWheel = false) : e.factorPositive := by
  cases e <;> simp_all [Event.isWheel, Event.factorPositive]

/-! ## View controller: theorems -/

/-- C2: the wheel zoom fixes the cursor point.  For every window, pixel
`(mx, my)` and zoom factor, the complex coordinate under the pixel computed with
the bounds after the wheel transition equals the one computed with the bounds
before it (the anchor). -/
theorem wheel_fixes_cursor_point (s : State) (zoomFactor : ℚ) (mx my : ℤ) :
    pixelToReal mx WIDTH (wheel s zoomFactor mx my).realMin (wheel s zoomFactor mx my).realMax
        = pixelToReal mx WIDTH s.realMin s.realMax ∧
      pixelToImag my HEIGHT (wheel s zoomFactor mx my).imagMin
          (wheel s zoomFactor mx my).imagMax
        = pixelToImag my HEIGHT s.imagMin s.imagMax := by
  constructor
  · simp only [wheel, pixelToReal, map, WIDTH]
    norm_num
    ring
  · simp only [wheel, pixelToImag, map, HEIGHT]
    norm_num
    ring

/-- C3 (counterexample): on the initial window a left click at the centre pixel
`(320, 240)` changes all four bounds. -/
theorem click_center_pixel_moves_window :
    (click (startup false 0 0 0 1) 320 240).realMin ≠ (startup false 0 0 0 1).realMin ∧
      (click (startup false 0 0 0 1) 320 240).realMax ≠ (startup false 0 0 0 1).realMax ∧
      (click (startup false 0 0 0 1) 320 240).imagMin ≠ (startup false 0 0 0 1).imagMin ∧
      (click (startup false 0 0 0 1) 320 240).imagMax ≠ (startup false 0 0 0 1).imagMax := by
  decide!

/-- C3 (as amended): a left click at the centre pixel `(320, 240)` of the
640 by 480 raster moves both real bounds by `(realMax - realMin) / 1278` and
both imaginary bounds by `-(imagMax - imagMin) / 958`, half a pixel step each
way, because the mapper divides by `W - 1 = 639` and `H - 1 = 479`; the width
and the height span stay as they were. -/
theorem click_center_pixel_shift (s : State) :
    (click s 320 240).realMin = s.realMin + (s.realMax - s.realMin) / 1278 ∧
      (click s 320 240).realMax = s.realMax + (s.realMax - s.realMin) / 1278 ∧
      (click s 320 240).imagMin = s.imagMin - (s.imagMax - s.imagMin) / 958 ∧
      (click s 320 240).imagMax = s.imagMax - (s.imagMax - s.imagMin) / 958 ∧
      (click s 320 240).width = s.width ∧ (click s 320 240).heightSpan = s.heightSpan := by
  refine ⟨?_, ?_, ?_, ?_, (click_spans s 320 240).1, (click_spans s 320 240).2⟩
  all_goals
    simp only [click, pixelToReal, pixelToImag, map, WIDTH, HEIGHT]
    norm_num
    ring

/-- C4 (counterexample): with `W = 640`, `H = 480` and the window
`[-2, 2] × [-1, 1]`, neither coordinate of pixel `(320, 240)` is within `2e-3`
of zero. -/
theorem scenario_S2_outside_tolerance :
    ¬ (|pixelToReal 320 640 (-2) 2| ≤ 2 / 1000) ∧ ¬ (|pixelToImag 240 480 (-1) 1| ≤ 2 / 1000) := by
  decide!

/-- C4 (as amended): with `W = 640`, `H = 480` and the window `[-2, 2] × [-1, 1]`,
pixel `(320, 240)` maps to `(2/639, -1/479)`, which is within `3.2e-3` of zero in
each coordinate. -/
theorem scenario_S2_values :
    pixelToReal 320 640 (-2) 2 = 2 / 639 ∧ pixelToImag 240 480 (-1) 1 = -1 / 479 ∧
      |pixelToReal 320 640 (-2) 2| ≤ 32 / 10000 ∧ |pixelToImag 240 480 (-1) 1| ≤ 32 / 10000 := by
  decide!

/-- C5 (counterexample): started without a settings file, the window after a
left click at pixel `(0, 0)` has aspect `4/7`, not `H/W = 480/640`. -/
theorem click_aspect_default_startup :
    (click (run (startup false 0 0 0 1) []) 0 0).aspect = 4 / 7 ∧
      (click (run (startup false 0 0 0 1) []) 0 0).aspect ≠ 480 / 640 := by
  decide!

/-- C5 (as amended): in every state reached from startup by left clicks, held-key
zoom ticks, fractal keys and resets (no wheel event), a left click leaves the
aspect `(imagMax - imagMin) / (realMax - realMin)` unchanged, and the aspect after
the click is `H/W = 480/640` when the startup window was derived from settings
with positive width and key `R` was never pressed, and `4/7` (the aspect of the
initial and reset window) otherwise. -/
theorem click_aspect_reachable (haveSaved : Bool) (cR cI w : ℚ) (f : ℤ) (es : List Event)
    (hes : ∀ e ∈ es, e.isWheel = false) (mx my : ℤ) :
    (click (run (startup haveSaved cR cI w f) es) mx my).aspect
        = (run (startup haveSaved cR cI w f) es).aspect ∧
      (click (run (startup haveSaved cR cI w f) es) mx my).aspect
        = if haveSaved = true ∧ 0 < w ∧ Event.keyR ∉ es then (HEIGHT : ℚ) / (WIDTH : ℚ)
          else 4 / 7 := by
  have hpos : ∀ e ∈ es, e.factorPositive := fun e he =>
    factorPositive_of_not_wheel e (hes e he)
  have hclick : (click (run (startup haveSaved cR cI w f) es) mx my).aspect
      = (run (startup haveSaved cR cI w f) es).aspect :=
    step_aspect _ (Event.leftClick mx my) trivial (fun h => Event.noConfusion h)
  refine ⟨hclick, ?_⟩
  rw [hclick]
  by_cases hR : Event.keyR ∈ es
  · rw [run_aspect_of_reset es _ hpos hR, if_neg (fun h => h.2.2 hR)]
  · rw [run_aspect_of_no_reset es _ hpos hR, startup_aspect]
    by_cases hs : haveSaved = true ∧ 0 < w
    · rw [if_pos hs, if_pos ⟨hs.1, hs.2, hR⟩]
    · rw [if_neg hs, if_neg (fun h => hs ⟨h.1, h.2.1⟩)]

/-- Witness for C5 (as amended): settings with width 2, then a zoom tick, a
fractal key and a click, then the click at `(10, 20)`. -/
theorem click_aspect_reachable_witness :
    (click (run (startup true 0 0 2 1)
        [Event.zoomTick true false, Event.keyNum FractalType.KOCH, Event.leftClick 5 7])
        10 20).aspect
        = (run (startup true 0 0 2 1)
            [Event.zoomTick true false, Event.keyNum FractalType.KOCH,
              Event.leftClick 5 7]).aspect ∧
      (click (run (startup true 0 0 2 1)
        [Event.zoomTick true false, Event.keyNum FractalType.KOCH, Event.leftClick 5 7])
        10 20).aspect
        = if true = true ∧ (0 : ℚ) < 2 ∧ Event.keyR ∉
              [Event.zoomTick true false, Event.keyNum FractalType.KOCH, Event.leftClick 5 7]
          then (HEIGHT : ℚ) / (WIDTH : ℚ) else 4 / 7 :=
  click_aspect_reachable true 0 0 2 1
    [Event.zoomTick true false, Event.keyNum FractalType.KOCH, Event.leftClick 5 7]
    (by decide) 10 20

/-- C6: a left click at any pixel leaves the width `realMax - realMin` and the
height span `imagMax - imagMin` unchanged. -/
theorem click_preserves_spans (s : State) (mx my : ℤ) :
    (click s mx my).width = s.width ∧ (click s mx my).heightSpan = s.heightSpan := by
  unfold State.width State.heightSpan
  exact click_spans s mx my

/-- C7: a held-key zoom tick keeps the centre of the window, and when a zoom key
is held it multiplies the width and the height span by the chosen factor, which
is `0.98` for zoom in, `1.02` for zoom out and `1` when both are held. -/
theorem zoomTick_preserves_center (s : State) (zoomInPressed zoomOutPressed : Bool) :
    (zoomTick s zoomInPressed zoomOutPressed).centerReal = s.centerReal ∧
      (zoomTick s zoomInPressed zoomOutPressed).centerImag = s.centerImag ∧
      (zoomInPressed = true ∨ zoomOutPressed = true →
        (zoomTick s zoomInPressed zoomOutPressed).width
            = s.width * zoomTickFactor zoomInPressed zoomOutPressed ∧
          (zoomTick s zoomInPressed zoomOutPressed).heightSpan
            = s.heightSpan * zoomTickFactor zoomInPressed zoomOutPressed) ∧
      zoomTickFactor true false = 98 / 100 ∧ zoomTickFactor false true = 102 / 100 ∧
      zoomTickFactor true true = 1 := by
  refine ⟨?_, ?_, ?_, by decide!, by decide!, by decide!⟩
  · by_cases h : zoomInPressed = true ∨ zoomOutPressed = true
    · simp only [zoomTick, if_pos h, State.centerReal]
      ring
    · simp only [zoomTick, if_neg h]
  · by_cases h : zoomInPressed = true ∨ zoomOutPressed = true
    · simp only [zoomTick, if_pos h, State.centerImag]
      ring
    · simp only [zoomTick, if_neg h]
  · intro h
    unfold State.width State.heightSpan
    exact zoomTick_spans s zoomInPressed zoomOutPressed h

/-- Witness for C7: zoom in held on the initial window scales the width `3.5` by
`0.98`. -/
theorem zoomTick_preserves_center_witness :
    (zoomTick (startup false 0 0 0 1) true false).width
      = (startup false 0 0 0 1).width * zoomTickFactor true false :=
  ((zoomTick_preserves_center (startup false 0 0 0 1) true false).2.2.1 (Or.inl rfl)).1

/-- C9 (as amended): in exact arithmetic the view-window invariant
`realMin < realMax ∧ imagMin < imagMax` holds in every startup state (initial
bounds or bounds derived from settings) and is preserved by every controller
transition: left click, wheel zoom with a positive factor, held-key zoom tick,
reset key and fractal selection keys.  In binary64 the startup state that takes
the initial bounds is the same state and satisfies the invariant. -/
theorem view_window_invariant :
    (∀ (haveSaved : Bool) (cR cI w : ℚ) (f : ℤ), (startup haveSaved cR cI w f).valid) ∧
      (∀ (s : State) (e : Event), s.valid → e.factorPositive → (step s e).valid) ∧
      (∀ (haveSaved : Bool) (cR cI w : ℚ) (f : ℤ), ¬ (haveSaved = true ∧ w > 0) →
        startupD haveSaved cR cI w f = some (startup haveSaved cR cI w f) ∧
          startup haveSaved cR cI w f = ⟨-5 / 2, 1, -1, 1, f⟩) := by
  refine ⟨startup_valid, step_valid, ?_⟩
  intro haveSaved cR cI w f hn
  unfold startupD startup
  rw [if_neg hn, if_neg hn]
  exact ⟨rfl, rfl⟩

/-- Witness for C9 (as amended): a wheel zoom with factor `0.98` from the startup
state derived from settings of width 2. -/
theorem view_window_invariant_witness :
    (step (startup true 0 0 2 1) (Event.wheelScrolled (49 / 50) 100 100)).valid :=
  view_window_invariant.2.1 (startup true 0 0 2 1) (Event.wheelScrolled (49 / 50) 100 100)
    (view_window_invariant.1 true 0 0 2 1) (by norm_num [Event.factorPositive])

/-! ## Escape count: theorems -/

/-- The loop returns either `maxIter` or a counter value it has passed through. -/
theorem mandelLoop_range (x y : ℚ) (maxIter : ℤ) :
    ∀ (n : ℕ) (i : ℤ) (z : ℚ × ℚ),
      mandelLoop x y maxIter n i z = maxIter ∨
        (i ≤ mandelLoop x y maxIter n i z ∧ mandelLoop x y maxIter n i z < i + n) := by
  intro n
  induction n with
  | zero => intro i z; exact Or.inl rfl
  | succ n ih =>
    intro i z
    by_cases h0 : escaped (mandelStep x y z)
    · right
      simp only [mandelLoop, if_pos h0]
      constructor
      · exact le_refl i
      · push_cast
        omega
    · simp only [mandelLoop, if_neg h0]
      rcases ih (i + 1) (mandelStep x y z) with h | ⟨h1, h2⟩
      · exact Or.inl h
      · right
        constructor
        · omega
        · push_cast
          omega

theorem setPixel_pixel (image : Image) (x y : ℤ) (color : Color) (u v : ℤ) :
    (image.setPixel x y color).pixel u v
      = if u = x ∧ v = y then color else image.pixel u v := rfl

/-- One guarded write: which pixel it changes, and that it keeps the size. -/
theorem guarded_write (image : Image) (x y : ℤ) (q : Prop) [Decidable q] (color : Color) :
    (if q then image.setPixel x y color else image).sizeX = image.sizeX ∧
      (if q then image.setPixel x y color else image).sizeY = image.sizeY ∧
      ∀ u v : ℤ, (if q then image.setPixel x y color else image).pixel u v
        = if u = x ∧ v = y ∧ q then color else image.pixel u v := by
  by_cases hq : q
  · rw [if_pos hq]
    refine ⟨rfl, rfl, ?_⟩
    intro u v
    rw [setPixel_pixel]
    by_cases h : u = x ∧ v = y
    · rw [if_pos h, if_pos ⟨h.1, h.2, hq⟩]
    · rw [if_neg h, if_neg (fun a => h ⟨a.1, a.2.1⟩)]
  · rw [if_neg hq]
    refine ⟨rfl, rfl, ?_⟩
    intro u v
    rw [if_neg (fun a => hq a.2.2)]

/-- A row loop whose pass `y` either writes pixel `(x, y)` or leaves the image
alone changes exactly the written pixels of the passes it ran. -/
theorem forLoopAux_row (x : ℤ) (p : ℤ → Prop) [DecidablePred p] (c : ℤ → Color) (image : Image) :
    ∀ n : ℕ,
      (forLoopAux (fun y (img : Image) => if p y then img.setPixel x y (c y) else img) n
          image).sizeX = image.sizeX ∧
      (forLoopAux (fun y (img : Image) => if p y then img.setPixel x y (c y) else img) n
          image).sizeY = image.sizeY ∧
      ∀ u v : ℤ,
        (forLoopAux (fun y (img : Image) => if p y then img.setPixel x y (c y) else img) n
            image).pixel u v
          = if u = x ∧ 0 ≤ v ∧ v < (n : ℤ) ∧ p v then c v else image.pixel u v := by
  intro n
  induction n with
  | zero =>
    refine ⟨rfl, rfl, ?_⟩
    intro u v
    have h : ¬ (u = x ∧ 0 ≤ v ∧ v < ((0 : ℕ) : ℤ) ∧ p v) := by
      rintro ⟨_, h1, h2, _⟩
      simp at h2
      omega
    rw [if_neg h]
    rfl
  | succ n ih =>
    obtain ⟨ih1, ih2, ih3⟩ := ih
    simp only [forLoopAux]
    obtain ⟨g1, g2, g3⟩ := guarded_write
      (forLoopAux (fun y (img : Image) => if p y then img.setPixel x y (c y) else img) n image)
      x (n : ℤ) (p (n : ℤ)) (c (n : ℤ))
    refine ⟨g1.trans ih1, g2.trans ih2, ?_⟩
    intro u v
    rw [g3 u v, ih3 u v]
    by_cases hv : v = (n : ℤ)
    · subst hv
      by_cases hq : u = x ∧ p (n : ℤ)
      · have a1 : u = x ∧ (n : ℤ) = (n : ℤ) ∧ p (n : ℤ) := ⟨hq.1, rfl, hq.2⟩
        have a2 : u = x ∧ (0 : ℤ) ≤ (n : ℤ) ∧ (n : ℤ) < ((n + 1 : ℕ) : ℤ) ∧ p (n : ℤ) :=
          ⟨hq.1, by omega, by push_cast; omega, hq.2⟩
        rw [if_pos a1, if_pos a2]
      · have a1 : ¬ (u = x ∧ (n : ℤ) = (n : ℤ) ∧ p (n : ℤ)) := fun a => hq ⟨a.1, a.2.2⟩
        have a2 : ¬ (u = x ∧ (0 : ℤ) ≤ (n : ℤ) ∧ (n : ℤ) < ((n + 1 : ℕ) : ℤ) ∧ p (n : ℤ)) :=
          fun a => hq ⟨a.1, a.2.2.2⟩
        have a3 : ¬ (u = x ∧ (0 : ℤ) ≤ (n : ℤ) ∧ (n : ℤ) < (n : ℤ) ∧ p (n : ℤ)) :=
          fun a => lt_irrefl _ a.2.2.1
        rw [if_neg a1, if_neg a2, if_neg a3]
    · have a1 : ¬ (u = x ∧ v = (n : ℤ) ∧ p (n : ℤ)) := fun a => hv a.2.1
      rw [if_neg a1]
      by_cases hq : u = x ∧ 0 ≤ v ∧ v < (n : ℤ) ∧ p v
      · have a2 : u = x ∧ 0 ≤ v ∧ v < ((n + 1 : ℕ) : ℤ) ∧ p v :=
          ⟨hq.1, hq.2.1, by push_cast; omega, hq.2.2.2⟩
        rw [if_pos hq, if_pos a2]
      · have a2 : ¬ (u = x ∧ 0 ≤ v ∧ v < ((n + 1 : ℕ) : ℤ) ∧ p v) := by
          rintro ⟨b1, b2, b3, b4⟩
          push_cast at b3
          exact hq ⟨b1, b2, by omega, b4⟩
        rw [if_neg hq, if_neg a2]

/-- A column-by-column raster loop whose pass `(x, y)` either writes pixel
`(x, y)` or leaves the image alone changes exactly the written pixels. -/
theorem forLoopAux_raster (p : ℤ → ℤ → Prop) [∀ x, DecidablePred (p x)] (c : ℤ → ℤ → Color)
    (h : ℕ) (image : Image) :
    ∀ n : ℕ,
      (forLoopAux (fun x (img : Image) =>
          forLoopAux (fun y (img : Image) => if p x y then img.setPixel x y (c x y) else img)
            h img) n image).sizeX = image.sizeX ∧
      (forLoopAux (fun x (img : Image) =>
          forLoopAux (fun y (img : Image) => if p x y then img.setPixel x y (c x y) else img)
            h img) n image).sizeY = image.sizeY ∧
      ∀ u v : ℤ,
        (forLoopAux (fun x (img : Image) =>
            forLoopAux (fun y (img : Image) => if p x y then img.setPixel x y (c x y) else img)
              h img) n image).pixel u v
          = if 0 ≤ u ∧ u < (n : ℤ) ∧ 0 ≤ v ∧ v < (h : ℤ) ∧ p u v then c u v
            else image.pixel u v := by
  intro n
  induction n with
  | zero =>
    refine ⟨rfl, rfl, ?_⟩
    intro u v
    have h0 : ¬ (0 ≤ u ∧ u < ((0 : ℕ) : ℤ) ∧ 0 ≤ v ∧ v < (h : ℤ) ∧ p u v) := by
      rintro ⟨h1, h2, _⟩
      simp at h2
      omega
    rw [if_neg h0]
    rfl
  | succ n ih =>
    obtain ⟨ih1, ih2, ih3⟩ := ih
    simp only [forLoopAux]
    obtain ⟨r1, r2, r3⟩ := forLoopAux_row (n : ℤ) (p (n : ℤ)) (c (n : ℤ))
      (forLoopAux (fun x (img : Image) =>
          forLoopAux (fun y (img : Image) => if p x y then img.setPixel x y (c x y) else img)
            h img) n image) h
    refine ⟨r1.trans ih1, r2.trans ih2, ?_⟩
    intro u v
    rw [r3 u v, ih3 u v]
    by_cases hu : u = (n : ℤ)
    · subst hu
      by_cases hq : 0 ≤ v ∧ v < (h : ℤ) ∧ p (n : ℤ) v
      · have a1 : (n : ℤ) = (n : ℤ) ∧ 0 ≤ v ∧ v < (h : ℤ) ∧ p (n : ℤ) v := ⟨rfl, hq⟩
        have a2 : (0 : ℤ) ≤ (n : ℤ) ∧ (n : ℤ) < ((n + 1 : ℕ) : ℤ) ∧ 0 ≤ v ∧ v < (h : ℤ) ∧
            p (n : ℤ) v := ⟨by omega, by push_cast; omega, hq⟩
        rw [if_pos a1, if_pos a2]
      · have a1 : ¬ ((n : ℤ) = (n : ℤ) ∧ 0 ≤ v ∧ v < (h : ℤ) ∧ p (n : ℤ) v) := fun a => hq a.2
        have a2 : ¬ ((0 : ℤ) ≤ (n : ℤ) ∧ (n : ℤ) < ((n + 1 : ℕ) : ℤ) ∧ 0 ≤ v ∧ v < (h : ℤ) ∧
            p (n : ℤ) v) := fun a => hq a.2.2
        have a3 : ¬ ((0 : ℤ) ≤ (n : ℤ) ∧ (n : ℤ) < (n : ℤ) ∧ 0 ≤ v ∧ v < (h : ℤ) ∧
            p (n : ℤ) v) := fun a => lt_irrefl _ a.2.1
        rw [if_neg a1, if_neg a2, if_neg a3]
    · have a1 : ¬ (u = (n : ℤ) ∧ 0 ≤ v ∧ v < (h : ℤ) ∧ p (n : ℤ) v) := fun a => hu a.1
      rw [if_neg a1]
      by_cases hq : 0 ≤ u ∧ u < (n : ℤ) ∧ 0 ≤ v ∧ v < (h : ℤ) ∧ p u v
      · have a2 : 0 ≤ u ∧ u < ((n + 1 : ℕ) : ℤ) ∧ 0 ≤ v ∧ v < (h : ℤ) ∧ p u v :=
          ⟨hq.1, by push_cast; omega, hq.2.2⟩
        rw [if_pos hq, if_pos a2]
      · have a2 : ¬ (0 ≤ u ∧ u < ((n + 1 : ℕ) : ℤ) ∧ 0 ≤ v ∧ v < (h : ℤ) ∧ p u v) := by
          rintro ⟨b1, b2, b3⟩
          push_cast at b2
          exact hq ⟨b1, by omega, b3⟩
        rw [if_neg hq, if_neg a2]

/-! ## Mapper endpoints and orientation -/

/-- The escape count is `maxIter` or lies in `[0, maxIter)`. -/
theorem calculateMandelbrot_cases (x y : ℚ) (maxIter : ℤ) :
    calculateMandelbrot x y maxIter = maxIter ∨
      (0 ≤ calculateMandelbrot x y maxIter ∧ calculateMandelbrot x y maxIter < maxIter) := by
  unfold calculateMandelbrot
  rcases mandelLoop_range x y maxIter maxIter.toNat 0 (0, 0) with h | ⟨h1, h2⟩
  · exact Or.inl h
  · right
    refine ⟨h1, ?_⟩
    have h3 : ((maxIter.toNat : ℕ) : ℤ) ≤ max maxIter 0 := by
      rw [Int.toNat_eq_max]
    rcases le_total maxIter 0 with h0 | h0
    · rw [max_eq_right h0] at h3
      omega
    · rw [max_eq_left h0] at h3
      omega

/-- The blue channel of an escaping pixel: `255 * n / maxIter` truncated. -/
theorem castUint8_ramp (n maxIter : ℤ) (h0 : 0 ≤ n) (h1 : n < maxIter) :
    castUint8 (map (n : ℚ) 0 (maxIter : ℚ) 0 255) = (⌊(255 * (n : ℚ)) / (maxIter : ℚ)⌋).toNat ∧
      0 ≤ ⌊(255 * (n : ℚ)) / (maxIter : ℚ)⌋ ∧ ⌊(255 * (n : ℚ)) / (maxIter : ℚ)⌋ ≤ 254 := by
  have hM : (0 : ℚ) < (maxIter : ℚ) := by
    have : (0 : ℤ) < maxIter := by omega
    exact_mod_cast this
  have hn : (0 : ℚ) ≤ (n : ℚ) := by exact_mod_cast h0
  have hlt : (n : ℚ) < (maxIter : ℚ) := by exact_mod_cast h1
  have hmap : map (n : ℚ) 0 (maxIter : ℚ) 0 255 = (255 * (n : ℚ)) / (maxIter : ℚ) := by
    unfold map
    ring
  have hq0 : (0 : ℚ) ≤ (255 * (n : ℚ)) / (maxIter : ℚ) :=
    div_nonneg (by linarith) hM.le
  have hq1 : (255 * (n : ℚ)) / (maxIter : ℚ) < 255 := by
    rw [div_lt_iff₀ hM]
    linarith
  have hf0 : 0 ≤ ⌊(255 * (n : ℚ)) / (maxIter : ℚ)⌋ := Int.floor_nonneg.mpr hq0
  have hf1 : ⌊(255 * (n : ℚ)) / (maxIter : ℚ)⌋ ≤ 254 := by
    have : ⌊(255 * (n : ℚ)) / (maxIter : ℚ)⌋ < 255 := by
      rw [Int.floor_lt]
      exact_mod_cast hq1
    omega
  refine ⟨?_, hf0, hf1⟩
  unfold castUint8 castInt
  rw [hmap, if_pos hq0]
  congr 1
  omega

/-- C11 (counterexample): with `maxIter = 100` the pixel `(0, 0)` of a 2 by 2
raster on the window `[2, 3] × [-1, 0]` has `c = (2, 0)` and escape count `1`;
`renderMandelbrot` writes blue `2`, while `map(1, 0, 100, 0, 255) = 2.55` rounds
to `3`. -/
theorem renderMandelbrot_blue_truncated :
    calculateMandelbrot (pixelToReal 0 2 2 3) (pixelToImag 0 2 (-1) 0) 100 = 1 ∧
      (renderMandelbrot (Image.create 2 2 Color.Black) 2 2 2 3 (-1) 0 100).pixel 0 0
        = ⟨0, 0, 2⟩ ∧
      specRound (map 1 0 100 0 255) = 3 := by
  decide!

/-- C11 (as amended): for `maxIter > 0` on a raster with `W > 1`, `H > 1`,
`renderMandelbrot` writes every pixel
`(x, y)` of the raster: black when the escape count `n` of the pixel equals
`maxIter`, and otherwise `RGB(0, 0, ⌊255 * n / maxIter⌋)`, the blue channel being
`map(n, 0, maxIter, 0, 255)` truncated, which lies in `[0, 254]`. -/
theorem renderMandelbrot_colour (image : Image) (width height : ℤ)
    (realMin realMax imagMin imagMax : ℚ) (maxIter x y : ℤ) (_hM : 0 < maxIter)
    (_hW : 1 < width) (_hH : 1 < height)
    (hx : 0 ≤ x ∧ x < width) (hy : 0 ≤ y ∧ y < height) :
    (renderMandelbrot image width height realMin realMax imagMin imagMax maxIter).pixel x y
        = (if calculateMandelbrot (pixelToReal x width realMin realMax)
              (pixelToImag y height imagMin imagMax) maxIter = maxIter
            then Color.Black
            else ⟨0, 0, (⌊(255 * ((calculateMandelbrot (pixelToReal x width realMin realMax)
              (pixelToImag y height imagMin imagMax) maxIter : ℤ) : ℚ)) / (maxIter : ℚ)⌋).toNat⟩) ∧
      (calculateMandelbrot (pixelToReal x width realMin realMax)
          (pixelToImag y height imagMin imagMax) maxIter ≠ maxIter →
        0 ≤ ⌊(255 * ((calculateMandelbrot (pixelToReal x width realMin realMax)
              (pixelToImag y height imagMin imagMax) maxIter : ℤ) : ℚ)) / (maxIter : ℚ)⌋ ∧
          ⌊(255 * ((calculateMandelbrot (pixelToReal x width realMin realMax)
              (pixelToImag y height imagMin imagMax) maxIter : ℤ) : ℚ)) / (maxIter : ℚ)⌋ ≤ 254) := by
  have key := (forLoopAux_raster (fun _ _ => True)
    (fun u v => mandelbrotColor (calculateMandelbrot (pixelToReal u width realMin realMax)
      (pixelToImag v height imagMin imagMax) maxIter) maxIter)
    height.toNat image width.toNat).2.2 x y
  simp only [if_true] at key
  have hin : 0 ≤ x ∧ x < (width.toNat : ℤ) ∧ 0 ≤ y ∧ y < (height.toNat : ℤ) ∧ True := by
    refine ⟨hx.1, ?_, hy.1, ?_, trivial⟩
    · rw [Int.toNat_of_nonneg (by omega)]
      exact hx.2
    · rw [Int.toNat_of_nonneg (by omega)]
      exact hy.2
  rw [if_pos hin] at key
  have hpix : (renderMandelbrot image width height realMin realMax imagMin imagMax
      maxIter).pixel x y
      = mandelbrotColor (calculateMandelbrot (pixelToReal x width realMin realMax)
          (pixelToImag y height imagMin imagMax) maxIter) maxIter := key
  rcases calculateMandelbrot_cases (pixelToReal x width realMin realMax)
      (pixelToImag y height imagMin imagMax) maxIter with h | ⟨h0, h1⟩
  · refine ⟨?_, fun hne => absurd h hne⟩
    rw [hpix, if_pos h]
    unfold mandelbrotColor
    rw [if_pos h]
  · obtain ⟨c1, c2, c3⟩ := castUint8_ramp _ maxIter h0 h1
    refine ⟨?_, fun _ => ⟨c2, c3⟩⟩
    rw [hpix, if_neg h1.ne]
    unfold mandelbrotColor
    rw [if_neg h1.ne, c1]

/-- Witness for C11 (as amended): pixel `(0, 0)` of the 2 by 2 raster on the window
`[2, 3] × [-1, 0]` with `maxIter = 100`. -/
theorem renderMandelbrot_colour_witness :
    (renderMandelbrot (Image.create 2 2 Color.Black) 2 2 2 3 (-1) 0 100).pixel 0 0
        = (if calculateMandelbrot (pixelToReal 0 2 2 3) (pixelToImag 0 2 (-1) 0) 100 = 100
            then Color.Black
            else ⟨0, 0, (⌊(255 * ((calculateMandelbrot (pixelToReal 0 2 2 3)
              (pixelToImag 0 2 (-1) 0) 100 : ℤ) : ℚ)) / ((100 : ℤ) : ℚ)⌋).toNat⟩) :=
  (renderMandelbrot_colour (Image.create 2 2 Color.Black) 2 2 2 3 (-1) 0 100 0 0
    (by decide) (by decide) (by decide) (by decide) (by decide)).1

/-! ## Line rasterizer: theorems -/

/-- The loop of `drawLine` reaches its break within `p + q + 1` passes, where `p`
and `q` are the numbers of columns and rows still to go. -/
theorem lineTraceLoop_terminates (x1 y1 dx dy sx sy : ℤ) (hdx : 0 ≤ dx) (hdy : 0 ≤ dy) :
    ∀ (fuel : ℕ) (x y err p q : ℤ), 0 ≤ p → p ≤ dx → 0 ≤ q → q ≤ dy →
      x1 - x = sx * p → y1 - y = sy * q → err = dx - dy + p * dy - q * dx →
      p + q < (fuel : ℤ) →
      ∃ pts, lineTraceLoop x1 y1 dx dy sx sy fuel x y err = some pts := by
  intro fuel
  induction fuel with
  | zero =>
    intro x y err p q hp _ hq _ _ _ _ hfuel
    simp at hfuel
    omega
  | succ fuel ih =>
    intro x y err p q hp hpd hq hqd hx hy herr hfuel
    push_cast at hfuel
    by_cases hfin : x = x1 ∧ y = y1
    · exact ⟨[(x, y)], by simp [lineTraceLoop, hfin]⟩
    · have hpq : 1 ≤ p + q := by
        by_contra hcon
        have hp0 : p = 0 := by omega
        have hq0 : q = 0 := by omega
        rw [hp0, mul_zero] at hx
        rw [hq0, mul_zero] at hy
        exact hfin ⟨by omega, by omega⟩
      have hpdy : 0 ≤ p * dy := mul_nonneg hp hdy
      have hqdx : 0 ≤ q * dx := mul_nonneg hq hdx
      -- an x step is taken only while columns remain
      have hxstep : 2 * err > -dy → 1 ≤ p := by
        intro h
        by_contra hcon
        have hp0 : p = 0 := by omega
        have hq1 : 1 ≤ q := by omega
        have : dx ≤ q * dx := by nlinarith
        rw [hp0] at herr
        omega
      -- a y step is taken only while rows remain
      have hystep : 2 * err < dx → 1 ≤ q := by
        intro h
        by_contra hcon
        have hq0 : q = 0 := by omega
        have hp1 : 1 ≤ p := by omega
        have : dy ≤ p * dy := by nlinarith
        rw [hq0] at herr
        omega
      -- every pass takes a step
      have hprog : 2 * err > -dy ∨ 2 * err < dx := by
        by_contra hcon
        push_neg at hcon
        obtain ⟨h1, h2⟩ := hcon
        have hdx0 : dx = 0 := by omega
        have hdy0 : dy = 0 := by omega
        omega
      have hrec : ∃ pts, lineTraceLoop x1 y1 dx dy sx sy fuel (lineStep dx dy sx sy x y err).1
          (lineStep dx dy sx sy x y err).2.1 (lineStep dx dy sx sy x y err).2.2 = some pts := by
        by_cases h1 : 2 * err > -dy
        · have hp1 := hxstep h1
          by_cases h2 : 2 * err < dx
          · have hq1 := hystep h2
            have hs : lineStep dx dy sx sy x y err = (x + sx, y + sy, err - dy + dx) := by
              simp [lineStep, h1, h2]
            rw [hs]
            refine ih (x + sx) (y + sy) (err - dy + dx) (p - 1) (q - 1) (by omega) (by omega)
              (by omega) (by omega) ?_ ?_ ?_ (by omega)
            · rw [mul_sub, mul_one]
              omega
            · rw [mul_sub, mul_one]
              omega
            · rw [herr]
              ring
          · have hs : lineStep dx dy sx sy x y err = (x + sx, y, err - dy) := by
              simp [lineStep, h1, h2]
            rw [hs]
            refine ih (x + sx) y (err - dy) (p - 1) q (by omega) (by omega) hq hqd ?_ hy ?_
              (by omega)
            · rw [mul_sub, mul_one]
              omega
            · rw [herr]
              ring
        · have h2 : 2 * err < dx := by
            rcases hprog with h | h
            · exact absurd h h1
            · exact h
          have hq1 := hystep h2
          have hs : lineStep dx dy sx sy x y err = (x, y + sy, err + dx) := by
            simp [lineStep, h1, h2]
          rw [hs]
          refine ih x (y + sy) (err + dx) p (q - 1) hp hpd (by omega) (by omega) hx ?_ ?_
            (by omega)
          · rw [mul_sub, mul_one]
            omega
          · rw [herr]
            ring
      obtain ⟨pts, hpts⟩ := hrec
      exact ⟨(x, y) :: pts, by simp [lineTraceLoop, hfin, hpts]⟩

/-- The points visited between two endpoints exist: the loop terminates. -/
theorem linePoints_isSome (x0 y0 x1 y1 : ℤ) : ∃ pts, linePoints x0 y0 x1 y1 = some pts := by
  unfold linePoints
  have hdx : (0 : ℤ) ≤ |x1 - x0| := abs_nonneg _
  have hdy : (0 : ℤ) ≤ |y1 - y0| := abs_nonneg _
  refine lineTraceLoop_terminates x1 y1 |x1 - x0| |y1 - y0| _ _ hdx hdy
    (|x1 - x0| + |y1 - y0| + 1).toNat x0 y0 (|x1 - x0| - |y1 - y0|) |x1 - x0| |y1 - y0|
    hdx (le_refl _) hdy (le_refl _) ?_ ?_ (by ring) ?_
  · split_ifs with h
    · rw [one_mul, abs_of_pos (by omega)]
    · rw [abs_of_nonpos (by omega)]
      ring
  · split_ifs with h
    · rw [one_mul, abs_of_pos (by omega)]
    · rw [abs_of_nonpos (by omega)]
      ring
  · rw [Int.toNat_of_nonneg (by omega)]
    omega

/-- The image loop writes, clipped, exactly the points of the trace. -/
theorem drawLineLoop_eq_plotAll (col : Color) (x1 y1 dx dy sx sy : ℤ) :
    ∀ (fuel : ℕ) (image : Image) (x y err : ℤ) (pts : List (ℤ × ℤ)),
      lineTraceLoop x1 y1 dx dy sx sy fuel x y err = some pts →
      drawLineLoop col x1 y1 dx dy sx sy fuel image x y err = some (plotAll col image pts) := by
  intro fuel
  induction fuel with
  | zero =>
    intro image x y err pts h
    simp [lineTraceLoop] at h
  | succ fuel ih =>
    intro image x y err pts h
    by_cases hfin : x = x1 ∧ y = y1
    · simp only [lineTraceLoop, if_pos hfin, Option.some.injEq] at h
      subst h
      simp only [drawLineLoop, if_pos hfin]
      rfl
    · simp only [lineTraceLoop, if_neg hfin, Option.map_eq_some'] at h
      obtain ⟨rest, hrest, hpts⟩ := h
      subst hpts
      simp only [drawLineLoop, if_neg hfin]
      rw [ih _ _ _ _ rest hrest]
      rfl

theorem inBounds_congr (a b : Image) (h1 : a.sizeX = b.sizeX) (h2 : a.sizeY = b.sizeY)
    (u v : ℤ) : a.inBounds u v ↔ b.inBounds u v := by
  unfold Image.inBounds
  rw [h1, h2]

/-- Clipped writes keep the size, give the colour to the listed points inside the
image and leave every other pixel as it was. -/
theorem plotAll_spec (col : Color) (pts : List (ℤ × ℤ)) :
    ∀ image : Image,
      (plotAll col image pts).sizeX = image.sizeX ∧
      (plotAll col image pts).sizeY = image.sizeY ∧
      ∀ u v : ℤ, (plotAll col image pts).pixel u v
        = if image.inBounds u v ∧ (u, v) ∈ pts then col else image.pixel u v := by
  induction pts with
  | nil =>
    intro image
    refine ⟨rfl, rfl, ?_⟩
    intro u v
    simp [plotAll]
  | cons p pts ih =>
    intro image
    obtain ⟨g1, g2, g3⟩ := guarded_write image p.1 p.2 (image.inBounds p.1 p.2) col
    obtain ⟨i1, i2, i3⟩ := ih (if image.inBounds p.1 p.2 then image.setPixel p.1 p.2 col else image)
    have hstep : plotAll col image (p :: pts)
        = plotAll col (if image.inBounds p.1 p.2 then image.setPixel p.1 p.2 col else image)
            pts := rfl
    rw [hstep]
    refine ⟨i1.trans g1, i2.trans g2, ?_⟩
    intro u v
    have hb : (if image.inBounds p.1 p.2 then image.setPixel p.1 p.2 col else image).inBounds u v
        ↔ image.inBounds u v := inBounds_congr _ _ g1 g2 u v
    rw [i3 u v, g3 u v]
    by_cases hin : image.inBounds u v
    · by_cases hmem : (u, v) ∈ pts
      · rw [if_pos ⟨hb.mpr hin, hmem⟩, if_pos ⟨hin, List.mem_cons_of_mem p hmem⟩]
      · rw [if_neg (fun a => hmem a.2)]
        by_cases hp : (u, v) = p
        · have hp1 : u = p.1 := by rw [← hp]
          have hp2 : v = p.2 := by rw [← hp]
          have hin2 : image.inBounds p.1 p.2 := by rw [← hp1, ← hp2]; exact hin
          rw [if_pos ⟨hp1, hp2, hin2⟩, if_pos ⟨hin, by rw [hp]; exact List.mem_cons_self p pts⟩]
        · have hne : ¬ (u = p.1 ∧ v = p.2 ∧ image.inBounds p.1 p.2) := by
            rintro ⟨a, b, _⟩
            exact hp (Prod.ext a b)
          have hmem2 : ¬ (image.inBounds u v ∧ (u, v) ∈ p :: pts) := by
            rintro ⟨_, hm⟩
            rcases List.mem_cons.mp hm with h | h
            · exact hp h
            · exact hmem h
          rw [if_neg hne, if_neg hmem2]
    · have hne : ¬ (u = p.1 ∧ v = p.2 ∧ image.inBounds p.1 p.2) := by
        rintro ⟨a, b, c⟩
        rw [← a, ← b] at c
        exact hin c
      rw [if_neg (fun a => hin (hb.mp a.1)), if_neg hne, if_neg (fun a => hin a.1)]

/-- C19: for every image and all integer endpoints, inside the image or not,
`drawLine` terminates and its result has the size of the image; a pixel `(x, y)`
of the result has the supplied colour when `0 ≤ x < W`, `0 ≤ y < H` and `(x, y)`
is one of the visited line points, and is unchanged otherwise; so nothing out of
bounds is written, a written pixel gets exactly the colour, and every pixel that
is not a visited in-bounds point is left as it was. -/
theorem drawLine_clips (image : Image) (x0 y0 x1 y1 : ℤ) (col : Color) :
    ∃ (out : Image) (pts : List (ℤ × ℤ)),
      drawLine image x0 y0 x1 y1 col = some out ∧ linePoints x0 y0 x1 y1 = some pts ∧
      out.sizeX = image.sizeX ∧ out.sizeY = image.sizeY ∧
      ∀ x y : ℤ, out.pixel x y
        = if (0 ≤ x ∧ x < image.sizeX ∧ 0 ≤ y ∧ y < image.sizeY) ∧ (x, y) ∈ pts then col
          else image.pixel x y := by
  obtain ⟨pts, hpts⟩ := linePoints_isSome x0 y0 x1 y1
  obtain ⟨s1, s2, s3⟩ := plotAll_spec col pts image
  refine ⟨plotAll col image pts, pts, ?_, hpts, s1, s2, s3⟩
  unfold drawLine
  exact drawLineLoop_eq_plotAll col x1 y1 _ _ _ _ _ image x0 y0 _ pts hpts

/-- The function `drawLine` always returns. -/
theorem drawLine_isSome (image : Image) (x0 y0 x1 y1 : ℤ) (col : Color) :
    ∃ out, drawLine image x0 y0 x1 y1 col = some out := by
  obtain ⟨pts, hpts⟩ := linePoints_isSome x0 y0 x1 y1
  refine ⟨plotAll col image pts, ?_⟩
  unfold drawLine
  exact drawLineLoop_eq_plotAll col x1 y1 _ _ _ _ _ image x0 y0 _ pts hpts

/-- Drawing a list of segments one after the other always returns. -/
theorem drawSegments_isSome (col : Color) (segs : List (ℤ × ℤ × ℤ × ℤ)) :
    ∀ image : Image, ∃ out,
      segs.foldlM (fun img s => drawLine img s.1 s.2.1 s.2.2.1 s.2.2.2 col) image = some out := by
  induction segs with
  | nil => intro image; exact ⟨image, rfl⟩
  | cons s segs ih =>
    intro image
    obtain ⟨mid, hmid⟩ := drawLine_isSome image s.1 s.2.1 s.2.2.1 s.2.2.2 col
    obtain ⟨out, hout⟩ := ih mid
    refine ⟨out, ?_⟩
    rw [List.foldlM_cons, hmid]
    exact hout

/-! ## Koch renderer: theorems -/

/-- The recursion appends `a` and then `4^d - 1` further points. -/
theorem kochRecurse_append (m : Libm) :
    ∀ (d : ℕ) (pts : List (ℚ × ℚ)) (a b : ℚ × ℚ),
      ∃ rest, kochRecurse m pts a b d = pts ++ a :: rest ∧ rest.length + 1 = 4 ^ d := by
  intro d
  induction d with
  | zero =>
    intro pts a b
    exact ⟨[], rfl, rfl⟩
  | succ d ih =>
    intro pts a b
    simp only [kochRecurse]
    obtain ⟨r1, h1, l1⟩ := ih pts a (a.1 + (b.1 - a.1) / 3, a.2 + (b.2 - a.2) / 3)
    rw [h1]
    obtain ⟨r2, h2, l2⟩ := ih (pts ++ a :: r1) (a.1 + (b.1 - a.1) / 3, a.2 + (b.2 - a.2) / 3)
      (a.1 + (b.1 - a.1) / 3
          + m.cos (m.atan2 (b.2 - a.2) (b.1 - a.1) - PI / 3) * (m.hypot (b.1 - a.1) (b.2 - a.2) / 3),
        a.2 + (b.2 - a.2) / 3
          + m.sin (m.atan2 (b.2 - a.2) (b.1 - a.1) - PI / 3) * (m.hypot (b.1 - a.1) (b.2 - a.2) / 3))
    rw [h2]
    obtain ⟨r3, h3, l3⟩ := ih
      ((pts ++ a :: r1) ++ (a.1 + (b.1 - a.1) / 3, a.2 + (b.2 - a.2) / 3) :: r2)
      (a.1 + (b.1 - a.1) / 3
          + m.cos (m.atan2 (b.2 - a.2) (b.1 - a.1) - PI / 3) * (m.hypot (b.1 - a.1) (b.2 - a.2) / 3),
        a.2 + (b.2 - a.2) / 3
          + m.sin (m.atan2 (b.2 - a.2) (b.1 - a.1) - PI / 3) * (m.hypot (b.1 - a.1) (b.2 - a.2) / 3))
      (a.1 + (b.1 - a.1) * (2 / 3), a.2 + (b.2 - a.2) * (2 / 3))
    rw [h3]
    obtain ⟨r4, h4, l4⟩ := ih
      (((pts ++ a :: r1) ++ (a.1 + (b.1 - a.1) / 3, a.2 + (b.2 - a.2) / 3) :: r2)
        ++ (a.1 + (b.1 - a.1) / 3
          + m.cos (m.atan2 (b.2 - a.2) (b.1 - a.1) - PI / 3) * (m.hypot (b.1 - a.1) (b.2 - a.2) / 3),
        a.2 + (b.2 - a.2) / 3
          + m.sin (m.atan2 (b.2 - a.2) (b.1 - a.1) - PI / 3)
            * (m.hypot (b.1 - a.1) (b.2 - a.2) / 3)) :: r3)
      (a.1 + (b.1 - a.1) * (2 / 3), a.2 + (b.2 - a.2) * (2 / 3)) b
    rw [h4]
    refine ⟨r1 ++ (a.1 + (b.1 - a.1) / 3, a.2 + (b.2 - a.2) / 3) :: (r2
      ++ (a.1 + (b.1 - a.1) / 3
          + m.cos (m.atan2 (b.2 - a.2) (b.1 - a.1) - PI / 3) * (m.hypot (b.1 - a.1) (b.2 - a.2) / 3),
        a.2 + (b.2 - a.2) / 3
          + m.sin (m.atan2 (b.2 - a.2) (b.1 - a.1) - PI / 3)
            * (m.hypot (b.1 - a.1) (b.2 - a.2) / 3)) :: (r3
      ++ (a.1 + (b.1 - a.1) * (2 / 3), a.2 + (b.2 - a.2) * (2 / 3)) :: r4)), ?_, ?_⟩
    · simp only [List.append_assoc, List.cons_append]
    · simp only [List.length_append, List.length_cons]
      rw [pow_succ]
      omega

theorem roundedSegments_length (pts : List (ℚ × ℚ)) :
    (roundedSegments pts).length = pts.length - 1 := by
  unfold roundedSegments
  rw [List.length_zipWith, List.length_tail]
  omega

/-- C12: for every depth `d` and endpoints `a`, `b`, `kochRecurse` appends exactly
`4^d` points to the list, the first of them `a`; the list followed by `b` has
`4^d + 1` entries; the point list of `renderKoch` (depth 6) has 4097 points,
4096 segments are drawn, and the drawing returns. -/
theorem koch_point_count (m : Libm) (d : ℕ) (pts : List (ℚ × ℚ)) (a b : ℚ × ℚ)
    (image : Image) (width height : ℤ) (realMin realMax imagMin imagMax : ℚ) :
    (kochRecurse m pts a b d).length = pts.length + 4 ^ d ∧
      (∃ rest, kochRecurse m pts a b d = pts ++ a :: rest) ∧
      (kochRecurse m [] a b d ++ [b]).length = 4 ^ d + 1 ∧
      (kochPoints m width height realMin realMax imagMin imagMax).length = 4097 ∧
      (roundedSegments (kochPoints m width height realMin realMax imagMin imagMax)).length
        = 4096 ∧
      ∃ out, renderKoch m image width height realMin realMax imagMin imagMax = some out := by
  obtain ⟨rest, h, l⟩ := kochRecurse_append m d pts a b
  obtain ⟨rest0, h0, l0⟩ := kochRecurse_append m d [] a b
  have hk : (kochPoints m width height realMin realMax imagMin imagMax).length = 4097 := by
    unfold kochPoints
    obtain ⟨r6, h6, l6⟩ := kochRecurse_append m 6 []
      ((realToPixel realMin width realMin realMax : ℚ),
        (imagToPixel ((imagMin + imagMax) / 2) height imagMin imagMax : ℚ))
      ((realToPixel realMax width realMin realMax : ℚ),
        (imagToPixel ((imagMin + imagMax) / 2) height imagMin imagMax : ℚ))
    simp only [h6, List.nil_append, List.length_append, List.length_cons, List.length_nil]
    norm_num at l6
    omega
  refine ⟨?_, ⟨rest, h⟩, ?_, hk, ?_, ?_⟩
  · rw [h, List.length_append, List.length_cons]
    omega
  · rw [h0, List.nil_append, List.length_append, List.length_cons, List.length_cons,
      List.length_nil]
    omega
  · rw [roundedSegments_length, hk]
  · unfold renderKoch
    exact drawSegments_isSome _ _ _

/-! ## Menger renderer: theorems -/

/-- C13: for `W > 1` and `H > 1` the image produced by `renderMenger` is the same
for every pair of view windows and every prior content of the buffer; it has the
size of the raster,
and each of its pixels is `RGB(0,0,0)` when `(x, y, W, H)` is a hole and
`RGB(192,192,192)` otherwise. -/
theorem renderMenger_view_invariant (image image2 : Image) (W H : ℤ)
    (rMin rMax iMin iMax rMin2 rMax2 iMin2 iMax2 : ℚ) (_hW : 1 < W) (_hH : 1 < H) :
    renderMenger image W H rMin rMax iMin iMax = renderMenger image2 W H rMin2 rMax2 iMin2 iMax2 ∧
      (renderMenger image W H rMin rMax iMin iMax).sizeX = W ∧
      (renderMenger image W H rMin rMax iMin iMax).sizeY = H ∧
      ∀ x y : ℤ, 0 ≤ x ∧ x < W → 0 ≤ y ∧ y < H →
        (renderMenger image W H rMin rMax iMin iMax).pixel x y
          = if mengerHole x y W H = true then ⟨0, 0, 0⟩ else ⟨192, 192, 192⟩ := by
  obtain ⟨k1, k2, k3⟩ := forLoopAux_raster (fun x y => mengerHole x y W H = false)
    (fun _ _ => ⟨192, 192, 192⟩) H.toNat (Image.create W H Color.Black) W.toNat
  refine ⟨rfl, k1, k2, ?_⟩
  intro x y hx hy
  have hpix : (renderMenger image W H rMin rMax iMin iMax).pixel x y
      = if 0 ≤ x ∧ x < (W.toNat : ℤ) ∧ 0 ≤ y ∧ y < (H.toNat : ℤ) ∧ mengerHole x y W H = false
          then ⟨192, 192, 192⟩ else (Image.create W H Color.Black).pixel x y := k3 x y
  rw [hpix]
  have hW : ((W.toNat : ℕ) : ℤ) = W := Int.toNat_of_nonneg (by omega)
  have hH : ((H.toNat : ℕ) : ℤ) = H := Int.toNat_of_nonneg (by omega)
  rw [hW, hH]
  by_cases hh : mengerHole x y W H = true
  · rw [if_pos hh, if_neg (fun a => by simp [hh] at a)]
    rfl
  · have hf : mengerHole x y W H = false := by simpa using hh
    rw [if_neg hh, if_pos ⟨hx.1, hx.2, hy.1, hy.2, hf⟩]

/-- Witness for C13: on a 4 by 4 raster, pixel `(1, 2)` is a hole (black) and
pixel `(0, 0)` is silver, whatever the buffer and the window were. -/
theorem renderMenger_view_invariant_witness :
    (renderMenger (Image.create 4 4 ⟨9, 9, 9⟩) 4 4 (-5 / 2) 1 (-1) 1).pixel 1 2
        = (if mengerHole 1 2 4 4 = true then ⟨0, 0, 0⟩ else ⟨192, 192, 192⟩) ∧
      mengerHole 1 2 4 4 = true ∧ mengerHole 0 0 4 4 = false :=
  ⟨(renderMenger_view_invariant (Image.create 4 4 ⟨9, 9, 9⟩) (Image.create 4 4 ⟨9, 9, 9⟩) 4 4
      (-5 / 2) 1 (-1) 1 0 1 0 1 (by decide) (by decide)).2.2.2 1 2 (by decide) (by decide),
    by decide!, by decide!⟩

/-! ## Settings file and startup: theorems -/

theorem applyLine_of_appliedKey_none (stod : List Char → Option ℚ) (v : Settings)
    (line : List Char) (h : appliedKey stod line = none) : applyLine stod v line = v := by
  unfold appliedKey at h
  unfold applyLine
  cases hs : splitLine line with
  | none => rfl
  | some kv =>
    obtain ⟨key, value⟩ := kv
    rw [hs] at h
    simp only at h ⊢
    by_cases h1 : key = "centerReal".toList
    · rw [if_pos (Or.inl h1)] at h
      rw [if_pos h1]
      cases hv : stod value with
      | none => rfl
      | some x => simp [hv] at h
    · rw [if_neg h1]
      by_cases h2 : key = "centerImag".toList
      · rw [if_pos (Or.inr (Or.inl h2))] at h
        rw [if_pos h2]
        cases hv : stod value with
        | none => rfl
        | some x => simp [hv] at h
      · rw [if_neg h2]
        by_cases h3 : key = "width".toList
        · rw [if_pos (Or.inr (Or.inr h3))] at h
          rw [if_pos h3]
          cases hv : stod value with
          | none => rfl
          | some x => simp [hv] at h
        · rw [if_neg h3]
          have hn : ¬ (key = "centerReal".toList ∨ key = "centerImag".toList
              ∨ key = "width".toList) := by
            rintro (a | a | a)
            · exact h1 a
            · exact h2 a
            · exact h3 a
          rw [if_neg hn] at h
          by_cases h4 : key = "fractal".toList
          · rw [if_pos h4] at h
            rw [if_pos h4]
            cases hv : stoi value with
            | none => rfl
            | some x => simp [hv] at h
          · rw [if_neg h4]

/-- A line changes a variable only when it assigns to the key of that variable. -/
theorem applyLine_frame (stod : List Char → Option ℚ) (v : Settings) (line : List Char) :
    (appliedKey stod line ≠ some "centerReal".toList →
        (applyLine stod v line).centerReal = v.centerReal) ∧
      (appliedKey stod line ≠ some "centerImag".toList →
        (applyLine stod v line).centerImag = v.centerImag) ∧
      (appliedKey stod line ≠ some "width".toList →
        (applyLine stod v line).width = v.width) ∧
      (appliedKey stod line ≠ some "fractal".toList →
        (applyLine stod v line).fractal = v.fractal) := by
  unfold appliedKey applyLine
  cases hs : splitLine line with
  | none => exact ⟨fun _ => rfl, fun _ => rfl, fun _ => rfl, fun _ => rfl⟩
  | some kv =>
    obtain ⟨key, value⟩ := kv
    simp only
    by_cases h1 : key = "centerReal".toList
    · rw [if_pos (Or.inl h1), if_pos h1]
      cases hv : stod value with
      | none => exact ⟨fun _ => rfl, fun _ => rfl, fun _ => rfl, fun _ => rfl⟩
      | some x =>
        refine ⟨fun h => ?_, fun _ => rfl, fun _ => rfl, fun _ => rfl⟩
        simp [h1] at h
    · rw [if_neg h1]
      by_cases h2 : key = "centerImag".toList
      · rw [if_pos (Or.inr (Or.inl h2)), if_pos h2]
        cases hv : stod value with
        | none => exact ⟨fun _ => rfl, fun _ => rfl, fun _ => rfl, fun _ => rfl⟩
        | some x =>
          refine ⟨fun _ => rfl, fun h => ?_, fun _ => rfl, fun _ => rfl⟩
          simp [h2] at h
      · rw [if_neg h2]
        by_cases h3 : key = "width".toList
        · rw [if_pos (Or.inr (Or.inr h3)), if_pos h3]
          cases hv : stod value with
          | none => exact ⟨fun _ => rfl, fun _ => rfl, fun _ => rfl, fun _ => rfl⟩
          | some x =>
            refine ⟨fun _ => rfl, fun _ => rfl, fun h => ?_, fun _ => rfl⟩
            simp [h3] at h
        · rw [if_neg h3]
          have hn : ¬ (key = "centerReal".toList ∨ key = "centerImag".toList
              ∨ key = "width".toList) := by
            rintro (a | a | a)
            · exact h1 a
            · exact h2 a
            · exact h3 a
          rw [if_neg hn]
          by_cases h4 : key = "fractal".toList
          · rw [if_pos h4, if_pos h4]
            cases hv : stoi value with
            | none => exact ⟨fun _ => rfl, fun _ => rfl, fun _ => rfl, fun _ => rfl⟩
            | some x =>
              refine ⟨fun _ => rfl, fun _ => rfl, fun _ => rfl, fun h => ?_⟩
              simp [h4] at h
          · rw [if_neg h4, if_neg h4]
            exact ⟨fun _ => rfl, fun _ => rfl, fun _ => rfl, fun _ => rfl⟩

/-- A variable whose key no line assigns to keeps the caller's value. -/
theorem foldl_applyLine_frame (stod : List Char → Option ℚ) (lines : List (List Char)) :
    ∀ v : Settings,
      ((∀ line ∈ lines, appliedKey stod line ≠ some "centerReal".toList) →
        (lines.foldl (applyLine stod) v).centerReal = v.centerReal) ∧
      ((∀ line ∈ lines, appliedKey stod line ≠ some "centerImag".toList) →
        (lines.foldl (applyLine stod) v).centerImag = v.centerImag) ∧
      ((∀ line ∈ lines, appliedKey stod line ≠ some "width".toList) →
        (lines.foldl (applyLine stod) v).width = v.width) ∧
      ((∀ line ∈ lines, appliedKey stod line ≠ some "fractal".toList) →
        (lines.foldl (applyLine stod) v).fractal = v.fractal) := by
  induction lines with
  | nil => intro v; exact ⟨fun _ => rfl, fun _ => rfl, fun _ => rfl, fun _ => rfl⟩
  | cons line lines ih =>
    intro v
    obtain ⟨a1, a2, a3, a4⟩ := applyLine_frame stod v line
    obtain ⟨b1, b2, b3, b4⟩ := ih (applyLine stod v line)
    simp only [List.foldl_cons]
    refine ⟨fun h => ?_, fun h => ?_, fun h => ?_, fun h => ?_⟩
    · rw [b1 (fun l hl => h l (List.mem_cons_of_mem line hl)), a1 (h line (List.mem_cons_self _ _))]
    · rw [b2 (fun l hl => h l (List.mem_cons_of_mem line hl)), a2 (h line (List.mem_cons_self _ _))]
    · rw [b3 (fun l hl => h l (List.mem_cons_of_mem line hl)), a3 (h line (List.mem_cons_self _ _))]
    · rw [b4 (fun l hl => h l (List.mem_cons_of_mem line hl)), a4 (h line (List.mem_cons_self _ _))]

theorem splitLine_no_equals (line : List Char) (h : '=' ∉ line) : splitLine line = none := by
  unfold splitLine
  split_ifs with h0
  · rfl
  · have hd : line.dropWhile (fun c => c ≠ '=') = [] := by
      rw [List.dropWhile_eq_nil_iff]
      intro c hc
      have : c ≠ '=' := fun e => h (e ▸ hc)
      simpa using this
    rw [hd]

theorem takeWhile_key (key rest : List Char) (h : '=' ∉ key) :
    (key ++ '=' :: rest).takeWhile (fun c => c ≠ '=') = key ∧
      (key ++ '=' :: rest).dropWhile (fun c => c ≠ '=') = '=' :: rest := by
  induction key with
  | nil => simp
  | cons c key ih =>
    have hc : c ≠ '=' := fun e => h (e ▸ List.mem_cons_self _ _)
    have hk : '=' ∉ key := fun e => h (List.mem_cons_of_mem c e)
    obtain ⟨i1, i2⟩ := ih hk
    constructor
    · simp only [List.cons_append, List.takeWhile_cons, hc, ne_eq, not_false_eq_true,
        decide_True, ite_true]
      rw [i1]
    · simp only [List.cons_append, List.dropWhile_cons, hc, ne_eq, not_false_eq_true,
        decide_True, ite_true]
      exact i2

theorem splitLine_key_value (key value : List Char) (h : '=' ∉ key) :
    splitLine (key ++ '=' :: value) = if value = [] then none else some (key, value) := by
  obtain ⟨t1, t2⟩ := takeWhile_key key value h
  unfold splitLine
  have hne : key ++ '=' :: value ≠ [] := by simp
  rw [if_neg hne, t2]
  simp only
  rw [t1]

theorem applyLine_key_value (stod : List Char → Option ℚ) (v : Settings)
    (key value : List Char) (hk : '=' ∉ key) (hv : value ≠ []) :
    applyLine stod v (key ++ '=' :: value)
      = if key = "centerReal".toList then
          (match stod value with
            | some x => { v with centerReal := x }
            | none => v)
        else if key = "centerImag".toList then
          (match stod value with
            | some x => { v with centerImag := x }
            | none => v)
        else if key = "width".toList then
          (match stod value with
            | some x => { v with width := x }
            | none => v)
        else if key = "fractal".toList then
          (match stoi value with
            | some n => { v with fractal := n }
            | none => v)
        else v := by
  unfold applyLine
  rw [splitLine_key_value key value hk, if_neg hv]

/-- A rounded result, when there is one, is the nearest double of the exact value. -/
theorem toDouble_eq_some (q r : ℚ) (h : toDouble q = some r) : r = roundDouble q := by
  unfold toDouble at h
  simp only at h
  split_ifs at h
  exact (Option.some.inj h).symm

/-- The bounds computed by the settings branch of `startupD`: each is the centre
minus or plus the rounded half span, rounded to the nearest double. -/
theorem startupD_bounds (cR cI w : ℚ) (f : ℤ) (s : State) (hw : 0 < w)
    (h : startupD true cR cI w f = some s) :
    s.realMin = roundDouble (cR - roundDouble (w / 2)) ∧
      s.realMax = roundDouble (cR + roundDouble (w / 2)) ∧
      s.imagMin = roundDouble (cI - roundDouble (roundDouble (w * (3 / 4)) / 2)) ∧
      s.imagMax = roundDouble (cI + roundDouble (roundDouble (w * (3 / 4)) / 2)) ∧
      s.currentFractal = f := by
  have c1 : toDouble (HEIGHT : ℚ) = some 480 := by decide!
  have c2 : toDouble (WIDTH : ℚ) = some 640 := by decide!
  have c3 : fdiv 480 640 = some (3 / 4) := by decide!
  have hc : true = true ∧ w > 0 := ⟨rfl, hw⟩
  have two : ¬ ((2 : ℚ) = 0) := by norm_num
  unfold startupD at h
  rw [if_pos hc] at h
  simp only [c1, c2, c3, Option.bind_eq_bind, Option.some_bind] at h
  obtain ⟨halfW, e1, h⟩ := Option.bind_eq_some.mp h
  obtain ⟨hs, e2, h⟩ := Option.bind_eq_some.mp h
  obtain ⟨halfH, e3, h⟩ := Option.bind_eq_some.mp h
  obtain ⟨a, e4, h⟩ := Option.bind_eq_some.mp h
  obtain ⟨b, e5, h⟩ := Option.bind_eq_some.mp h
  obtain ⟨lo, e6, h⟩ := Option.bind_eq_some.mp h
  obtain ⟨hi, e7, h⟩ := Option.bind_eq_some.mp h
  unfold fdiv at e1 e3
  rw [if_neg two] at e1 e3
  have g1 := toDouble_eq_some _ _ e1
  have g2 := toDouble_eq_some _ _ e2
  have g3 := toDouble_eq_some _ _ e3
  have g4 := toDouble_eq_some _ _ e4
  have g5 := toDouble_eq_some _ _ e5
  have g6 := toDouble_eq_some _ _ e6
  have g7 := toDouble_eq_some _ _ e7
  have hs2 := (Option.some.inj h).symm
  subst hs2
  subst g1
  subst g2
  subst g3
  exact ⟨g4, g5, g6, g7, rfl⟩

/-- C14 (as amended): if the settings file opens and the loaded width is positive,
then in exact arithmetic the startup window has centre `(centerReal, centerImag)`,
`rMax - rMin = width` and `iMax - iMin = width * H / W`, and nothing is saved; in
binary64 each bound is the centre minus or plus the rounded half span, rounded
to the nearest double.  Otherwise (file missing or loaded width not positive,
for instance because no line assigns `width`) the startup window is
`(-2.5, 1.0, -1.0, 1.0)`, in exact arithmetic and in binary64, and
`saveSettings` is called with `centerReal = -0.75`, `centerImag = 0`,
`width = 3.5`; with no file the fractal is 1. -/
theorem startup_bounds (stod : List Char → Option ℚ) (haveSaved : Bool) (cR cI w : ℚ) (f : ℤ)
    (lines : List (List Char)) :
    (haveSaved = true → 0 < w →
        (startup haveSaved cR cI w f).centerReal = cR ∧
        (startup haveSaved cR cI w f).centerImag = cI ∧
        (startup haveSaved cR cI w f).width = w ∧
        (startup haveSaved cR cI w f).heightSpan = w * (HEIGHT : ℚ) / (WIDTH : ℚ) ∧
        (startup haveSaved cR cI w f).currentFractal = f ∧
        startupSave haveSaved w f = none) ∧
      (haveSaved = true → 0 < w → ∀ s : State, startupD haveSaved cR cI w f = some s →
        s.realMin = roundDouble (cR - roundDouble (w / 2)) ∧
        s.realMax = roundDouble (cR + roundDouble (w / 2)) ∧
        s.imagMin = roundDouble (cI - roundDouble (roundDouble (w * (3 / 4)) / 2)) ∧
        s.imagMax = roundDouble (cI + roundDouble (roundDouble (w * (3 / 4)) / 2)) ∧
        s.currentFractal = f) ∧
      (¬ (haveSaved = true ∧ 0 < w) →
        startup haveSaved cR cI w f = ⟨-5 / 2, 1, -1, 1, f⟩ ∧
        startupD haveSaved cR cI w f = some ⟨-5 / 2, 1, -1, 1, f⟩ ∧
        startupSave haveSaved w f = some ⟨-3 / 4, 0, 7 / 2, f⟩) ∧
      mainStartup stod none = (⟨-5 / 2, 1, -1, 1, 1⟩, some ⟨-3 / 4, 0, 7 / 2, 1⟩) ∧
      ((∀ line ∈ lines, appliedKey stod line ≠ some "width".toList) →
        (mainStartup stod (some lines)).1.realMin = -5 / 2 ∧
        (mainStartup stod (some lines)).1.realMax = 1 ∧
        (mainStartup stod (some lines)).1.imagMin = -1 ∧
        (mainStartup stod (some lines)).1.imagMax = 1 ∧
        ∃ n, (mainStartup stod (some lines)).2 = some ⟨-3 / 4, 0, 7 / 2, n⟩) := by
  have hinit : ∀ (hs : Bool) (cR cI w : ℚ) (f : ℤ), ¬ (hs = true ∧ 0 < w) →
      startup hs cR cI w f = ⟨-5 / 2, 1, -1, 1, f⟩ ∧
        startupSave hs w f = some ⟨-3 / 4, 0, 7 / 2, f⟩ := by
    intro hs cR cI w f hn
    have hc : ¬ (hs = true ∧ w > 0) := hn
    constructor
    · simp only [startup, if_neg hc, INIT_REAL_MIN, INIT_REAL_MAX, INIT_IMAG_MIN, INIT_IMAG_MAX]
    · simp only [startupSave, if_neg hc, INIT_REAL_MIN, INIT_REAL_MAX, INIT_IMAG_MIN,
        INIT_IMAG_MAX]
      norm_num
  have hinitD : ¬ (haveSaved = true ∧ 0 < w) →
      startupD haveSaved cR cI w f = some ⟨-5 / 2, 1, -1, 1, f⟩ := by
    intro hn
    have hc : ¬ (haveSaved = true ∧ w > 0) := hn
    unfold startupD
    rw [if_neg hc]
    rfl
  have hD : haveSaved = true → 0 < w → ∀ s : State, startupD haveSaved cR cI w f = some s →
      s.realMin = roundDouble (cR - roundDouble (w / 2)) ∧
      s.realMax = roundDouble (cR + roundDouble (w / 2)) ∧
      s.imagMin = roundDouble (cI - roundDouble (roundDouble (w * (3 / 4)) / 2)) ∧
      s.imagMax = roundDouble (cI + roundDouble (roundDouble (w * (3 / 4)) / 2)) ∧
      s.currentFractal = f := by
    intro hs hw s h
    subst hs
    exact startupD_bounds cR cI w f s hw h
  refine ⟨?_, hD, fun hn => ⟨(hinit haveSaved cR cI w f hn).1, hinitD hn,
    (hinit haveSaved cR cI w f hn).2⟩, ?_, ?_⟩
  · intro hs hw
    have hc : haveSaved = true ∧ w > 0 := ⟨hs, hw⟩
    have hwidth : (startup haveSaved cR cI w f).width = w := by
      simp only [startup, if_pos hc, State.width]
      ring
    refine ⟨?_, ?_, hwidth, ?_, ?_, ?_⟩
    · simp only [startup, if_pos hc, State.centerReal]
      ring
    · simp only [startup, if_pos hc, State.centerImag]
      ring
    · simp only [startup, if_pos hc, State.heightSpan]
      ring
    · simp only [startup, if_pos hc]
    · simp only [startupSave, if_pos hc]
  · obtain ⟨a1, a2⟩ := hinit false 0 0 0 1 (by simp)
    have hm : mainStartup stod none = (startup false 0 0 0 1, startupSave false 0 1) := rfl
    rw [hm, a1, a2]
  · intro h
    have hw : (lines.foldl (applyLine stod) defaultSaved).width = 0 :=
      ((foldl_applyLine_frame stod lines defaultSaved).2.2.1 h).trans rfl
    have hm : mainStartup stod (some lines)
        = (startup true (lines.foldl (applyLine stod) defaultSaved).centerReal
            (lines.foldl (applyLine stod) defaultSaved).centerImag
            (lines.foldl (applyLine stod) defaultSaved).width
            (lines.foldl (applyLine stod) defaultSaved).fractal,
          startupSave true (lines.foldl (applyLine stod) defaultSaved).width
            (lines.foldl (applyLine stod) defaultSaved).fractal) := rfl
    obtain ⟨a1, a2⟩ := hinit true (lines.foldl (applyLine stod) defaultSaved).centerReal
      (lines.foldl (applyLine stod) defaultSaved).centerImag
      (lines.foldl (applyLine stod) defaultSaved).width
      (lines.foldl (applyLine stod) defaultSaved).fractal (by rw [hw]; simp)
    rw [hm, a1, a2]
    exact ⟨rfl, rfl, rfl, rfl, _, rfl⟩

/-- Witness for C14 (as amended): settings with centre `(1, 2)` and width 4. -/
theorem startup_bounds_witness :
    (startup true 1 2 4 3).centerReal = 1 ∧ (startup true 1 2 4 3).centerImag = 2 ∧
      (startup true 1 2 4 3).width = 4 ∧
      (startup true 1 2 4 3).heightSpan = 4 * (HEIGHT : ℚ) / (WIDTH : ℚ) ∧
      (startup true 1 2 4 3).currentFractal = 3 ∧ startupSave true 4 3 = none :=
  (startup_bounds (fun _ => none) true 1 2 4 3 []).1 rfl (by norm_num)

/-- C15: `loadSettings` treats the lines independently.  A line with no `=`, a
line with nothing after the `=`, a line whose key is none of the four, and a
line whose value fails to convert each leave all four variables unchanged, and
a line with a known key and a convertible value assigns that one variable;
removing a line of the first kind from anywhere in the file does not change the
result; a variable to whose key no line assigns keeps the caller's value; and
the function returns true whenever the file is open, also when nothing was
assigned. -/
theorem loadSettings_tolerant (stod : List Char → Option ℚ) :
    (∀ v line, '=' ∉ line → applyLine stod v line = v) ∧
      (∀ v key, '=' ∉ key → applyLine stod v (key ++ ['=']) = v) ∧
      (∀ v key value, '=' ∉ key → key ≠ "centerReal".toList → key ≠ "centerImag".toList →
        key ≠ "width".toList → key ≠ "fractal".toList →
        applyLine stod v (key ++ '=' :: value) = v) ∧
      (∀ v value, stod value = none →
        applyLine stod v ("centerReal".toList ++ '=' :: value) = v ∧
        applyLine stod v ("centerImag".toList ++ '=' :: value) = v ∧
        applyLine stod v ("width".toList ++ '=' :: value) = v) ∧
      (∀ v value, stoi value = none →
        applyLine stod v ("fractal".toList ++ '=' :: value) = v) ∧
      (∀ v value x, value ≠ [] → stod value = some x →
        applyLine stod v ("centerReal".toList ++ '=' :: value) = { v with centerReal := x } ∧
        applyLine stod v ("centerImag".toList ++ '=' :: value) = { v with centerImag := x } ∧
        applyLine stod v ("width".toList ++ '=' :: value) = { v with width := x }) ∧
      (∀ v value n, value ≠ [] → stoi value = some n →
        applyLine stod v ("fractal".toList ++ '=' :: value) = { v with fractal := n }) ∧
      (∀ l1 l2 line v, (∀ w, applyLine stod w line = w) →
        loadSettings stod (some (l1 ++ line :: l2)) v = loadSettings stod (some (l1 ++ l2)) v) ∧
      (∀ lines v,
        ((∀ line ∈ lines, appliedKey stod line ≠ some "centerReal".toList) →
          (loadSettings stod (some lines) v).2.centerReal = v.centerReal) ∧
        ((∀ line ∈ lines, appliedKey stod line ≠ some "centerImag".toList) →
          (loadSettings stod (some lines) v).2.centerImag = v.centerImag) ∧
        ((∀ line ∈ lines, appliedKey stod line ≠ some "width".toList) →
          (loadSettings stod (some lines) v).2.width = v.width) ∧
        ((∀ line ∈ lines, appliedKey stod line ≠ some "fractal".toList) →
          (loadSettings stod (some lines) v).2.fractal = v.fractal)) ∧
      (∀ lines v, (loadSettings stod (some lines) v).1 = true) ∧
      (∀ lines v, (∀ line ∈ lines, appliedKey stod line = none) →
        loadSettings stod (some lines) v = (true, v)) ∧
      (∀ v, loadSettings stod none v = (false, v)) := by
  have hkeys : '=' ∉ "centerReal".toList ∧ '=' ∉ "centerImag".toList ∧ '=' ∉ "width".toList ∧
      '=' ∉ "fractal".toList := by decide
  obtain ⟨k1, k2, k3, k4⟩ := hkeys
  have hne : "centerImag".toList ≠ "centerReal".toList ∧ "width".toList ≠ "centerReal".toList ∧
      "width".toList ≠ "centerImag".toList ∧ "fractal".toList ≠ "centerReal".toList ∧
      "fractal".toList ≠ "centerImag".toList ∧ "fractal".toList ≠ "width".toList := by decide
  obtain ⟨n1, n2, n3, n4, n5, n6⟩ := hne
  have hempty : ∀ (v : Settings) (key : List Char), '=' ∉ key →
      applyLine stod v (key ++ ['=']) = v := by
    intro v key hk
    unfold applyLine
    rw [splitLine_key_value key [] hk, if_pos rfl]
  refine ⟨?_, hempty, ?_, ?_, ?_, ?_, ?_, ?_, ?_, ?_, ?_, ?_⟩
  · intro v line h
    unfold applyLine
    rw [splitLine_no_equals line h]
  · intro v key value hk h1 h2 h3 h4
    by_cases hv : value = []
    · rw [hv]
      exact hempty v key hk
    · rw [applyLine_key_value stod v key value hk hv, if_neg h1, if_neg h2, if_neg h3, if_neg h4]
  · intro v value hs
    by_cases hv : value = []
    · rw [hv]
      exact ⟨hempty v _ k1, hempty v _ k2, hempty v _ k3⟩
    · refine ⟨?_, ?_, ?_⟩
      · rw [applyLine_key_value stod v _ value k1 hv, if_pos rfl, hs]
      · rw [applyLine_key_value stod v _ value k2 hv, if_neg n1, if_pos rfl, hs]
      · rw [applyLine_key_value stod v _ value k3 hv, if_neg n2, if_neg n3, if_pos rfl, hs]
  · intro v value hs
    by_cases hv : value = []
    · rw [hv]
      exact hempty v _ k4
    · rw [applyLine_key_value stod v _ value k4 hv, if_neg n4, if_neg n5, if_neg n6,
        if_pos rfl, hs]
  · intro v value x hv hs
    refine ⟨?_, ?_, ?_⟩
    · rw [applyLine_key_value stod v _ value k1 hv, if_pos rfl, hs]
    · rw [applyLine_key_value stod v _ value k2 hv, if_neg n1, if_pos rfl, hs]
    · rw [applyLine_key_value stod v _ value k3 hv, if_neg n2, if_neg n3, if_pos rfl, hs]
  · intro v value n hv hs
    rw [applyLine_key_value stod v _ value k4 hv, if_neg n4, if_neg n5, if_neg n6,
      if_pos rfl, hs]
  · intro l1 l2 line v h
    simp only [loadSettings, List.foldl_append, List.foldl_cons, h]
  · intro lines v
    exact foldl_applyLine_frame stod lines v
  · intro lines v
    rfl
  · intro lines v h
    simp only [loadSettings]
    congr 1
    induction lines generalizing v with
    | nil => rfl
    | cons line lines ih =>
      rw [List.foldl_cons,
        applyLine_of_appliedKey_none stod v line (h line (List.mem_cons_self _ _))]
      exact ih v (fun l hl => h l (List.mem_cons_of_mem line hl))
  · intro v
    rfl

/-- Witness for C15: a file whose second line has no `=` loads like the file
without that line, and an unknown key changes nothing. -/
theorem loadSettings_tolerant_witness :
    loadSettings (fun _ => none) (some (["fractal=3".toList] ++ "junk".toList :: []))
        defaultSaved
        = loadSettings (fun _ => none) (some (["fractal=3".toList] ++ [])) defaultSaved ∧
      applyLine (fun _ => none) defaultSaved ("colour".toList ++ '=' :: "3".toList)
        = defaultSaved :=
  ⟨(loadSettings_tolerant (fun _ => none)).2.2.2.2.2.2.2.1 ["fractal=3".toList] []
      "junk".toList defaultSaved
      (fun w => (loadSettings_tolerant (fun _ => none)).1 w "junk".toList (by decide)),
    (loadSettings_tolerant (fun _ => none)).2.2.1 defaultSaved "colour".toList "3".toList
      (by decide) (by decide) (by decide) (by decide) (by decide)⟩

/-! ## Fractal selector: theorems -/

/-- The fractal selector after a run: still the starting value when no number
key was pressed, and the code of a fractal otherwise. -/
theorem run_currentFractal (es : List Event) :
    ∀ s : State,
      ((∀ f, Event.keyNum f ∉ es) → (run s es).currentFractal = s.currentFractal) ∧
      ((∃ f, Event.keyNum f ∈ es) →
        1 ≤ (run s es).currentFractal ∧ (run s es).currentFractal ≤ 5) := by
  induction es with
  | nil =>
    intro s
    refine ⟨fun _ => rfl, ?_⟩
    rintro ⟨f, hf⟩
    exact absurd hf (List.not_mem_nil _)
  | cons e es ih =>
    intro s
    obtain ⟨i1, i2⟩ := ih (step s e)
    rw [run_cons]
    constructor
    · intro h
      rw [i1 (fun f hf => h f (List.mem_cons_of_mem e hf))]
      cases e with
      | leftClick mx my => rfl
      | wheelScrolled z mx my => rfl
      | keyR => rfl
      | keyNum f => exact absurd (List.mem_cons_self _ _) (h f)
      | zoomTick a b =>
        simp only [step, zoomTick]
        split_ifs <;> rfl
    · rintro ⟨f, hf⟩
      by_cases hes : ∃ g, Event.keyNum g ∈ es
      · exact i2 hes
      · have hno : ∀ g, Event.keyNum g ∉ es := fun g hg => hes ⟨g, hg⟩
        rw [i1 hno]
        rcases List.mem_cons.mp hf with h | h
        · rw [← h]
          simp only [step, selectFractal]
          cases f <;> simp [FractalType.code]
        · exact absurd h (hno f)

/-- C16 (counterexample): a settings file with the line `fractal=7` starts the
controller with the selected fractal 7, outside `{1, ..., 5}`. -/
theorem fractal_selector_out_of_range :
    stoi "7".toList = some 7 ∧
      (run (mainStartup (fun _ => none) (some ["fractal=7".toList])).1 []).currentFractal = 7 ∧
      ¬ (1 ≤ (run (mainStartup (fun _ => none) (some ["fractal=7".toList])).1 []).currentFractal ∧
        (run (mainStartup (fun _ => none) (some ["fractal=7".toList])).1 []).currentFractal ≤ 5) := by
  decide!

/-- A fractal code outside `{1, ..., 5}` takes the `default` label of
`renderCurrent`, which draws the Mandelbrot set. -/
theorem renderCurrent_default (m : Libm) (rnd : ℤ → ℤ) (fractal : ℤ) (image : Image)
    (width height : ℤ) (realMin realMax imagMin imagMax : ℚ) (maxIter : ℤ)
    (h : ¬ (1 ≤ fractal ∧ fractal ≤ 5)) :
    renderCurrent m rnd fractal image width height realMin realMax imagMin imagMax maxIter
      = some (renderMandelbrot image width height realMin realMax imagMin imagMax maxIter) := by
  have h1 : ¬ fractal = FractalType.MADELBROT.code := by
    simp only [FractalType.code]
    omega
  have h2 : ¬ fractal = FractalType.SIERPINSKI.code := by
    simp only [FractalType.code]
    omega
  have h3 : ¬ fractal = FractalType.KOCH.code := by
    simp only [FractalType.code]
    omega
  have h4 : ¬ fractal = FractalType.MENGER.code := by
    simp only [FractalType.code]
    omega
  have h5 : ¬ fractal = FractalType.DRAGON.code := by
    simp only [FractalType.code]
    omega
  unfold renderCurrent
  rw [if_neg h1, if_neg h2, if_neg h3, if_neg h4, if_neg h5]

/-- C16 (as amended): in every state reached from startup, for any settings file
and any inputs, the selected fractal is in `{1, ..., 5}` once a number key has
been pressed; until then it is the value loaded from the settings file, which
is 1 when the file is missing or no line assigns `fractal`, and is in
`{1, ..., 5}` only if the loaded value is.  A value outside the range is kept,
and `renderCurrent` called on the reached state draws the Mandelbrot set through
its `default` label. -/
theorem fractal_selector_range (stod : List Char → Option ℚ)
    (file : Option (List (List Char))) (es : List Event) (m : Libm) (rnd : ℤ → ℤ)
    (image : Image) :
    ((∃ f, Event.keyNum f ∈ es) →
        1 ≤ (run (mainStartup stod file).1 es).currentFractal ∧
          (run (mainStartup stod file).1 es).currentFractal ≤ 5) ∧
      ((∀ f, Event.keyNum f ∉ es) →
        (run (mainStartup stod file).1 es).currentFractal
          = (loadSettings stod file defaultSaved).2.fractal) ∧
      (1 ≤ (loadSettings stod file defaultSaved).2.fractal ∧
          (loadSettings stod file defaultSaved).2.fractal ≤ 5 →
        1 ≤ (run (mainStartup stod file).1 es).currentFractal ∧
          (run (mainStartup stod file).1 es).currentFractal ≤ 5) ∧
      (loadSettings stod none defaultSaved).2.fractal = 1 ∧
      (∀ lines, (∀ line ∈ lines, appliedKey stod line ≠ some "fractal".toList) →
        (loadSettings stod (some lines) defaultSaved).2.fractal = 1) ∧
      (¬ (1 ≤ (run (mainStartup stod file).1 es).currentFractal ∧
            (run (mainStartup stod file).1 es).currentFractal ≤ 5) →
        renderCurrent m rnd (run (mainStartup stod file).1 es).currentFractal image WIDTH HEIGHT
            (run (mainStartup stod file).1 es).realMin (run (mainStartup stod file).1 es).realMax
            (run (mainStartup stod file).1 es).imagMin (run (mainStartup stod file).1 es).imagMax
            MAX_ITER
          = some (renderMandelbrot image WIDTH HEIGHT
              (run (mainStartup stod file).1 es).realMin
              (run (mainStartup stod file).1 es).realMax
              (run (mainStartup stod file).1 es).imagMin
              (run (mainStartup stod file).1 es).imagMax MAX_ITER)) := by
  have hstart : (mainStartup stod file).1.currentFractal
      = (loadSettings stod file defaultSaved).2.fractal := by
    simp only [mainStartup, startup]
    split_ifs <;> rfl
  obtain ⟨r1, r2⟩ := run_currentFractal es (mainStartup stod file).1
  refine ⟨r2, fun h => (r1 h).trans hstart, ?_, rfl, ?_, ?_⟩
  · intro hl
    by_cases hes : ∃ g, Event.keyNum g ∈ es
    · exact r2 hes
    · rw [r1 (fun g hg => hes ⟨g, hg⟩), hstart]
      exact hl
  · intro lines h
    exact ((foldl_applyLine_frame stod lines defaultSaved).2.2.2 h).trans rfl
  · intro hout
    exact renderCurrent_default m rnd _ image WIDTH HEIGHT _ _ _ _ MAX_ITER hout

/-- Witness for C16 (as amended): settings `fractal=7`; after key `3` the selector
is in range, and with no key pressed the state is drawn as the Mandelbrot set. -/
theorem fractal_selector_range_witness :
    (1 ≤ (run (mainStartup (fun _ => none) (some ["fractal=7".toList])).1
        [Event.keyNum FractalType.KOCH]).currentFractal ∧
      (run (mainStartup (fun _ => none) (some ["fractal=7".toList])).1
        [Event.keyNum FractalType.KOCH]).currentFractal ≤ 5) ∧
      renderCurrent ⟨fun _ _ => 0, fun _ => 1, fun _ => 0, fun _ _ => 0⟩ (fun i => i)
          (run (mainStartup (fun _ => none) (some ["fractal=7".toList])).1 []).currentFractal
          (Image.create 640 480 Color.Black) WIDTH HEIGHT
          (run (mainStartup (fun _ => none) (some ["fractal=7".toList])).1 []).realMin
          (run (mainStartup (fun _ => none) (some ["fractal=7".toList])).1 []).realMax
          (run (mainStartup (fun _ => none) (some ["fractal=7".toList])).1 []).imagMin
          (run (mainStartup (fun _ => none) (some ["fractal=7".toList])).1 []).imagMax MAX_ITER
        = some (renderMandelbrot (Image.create 640 480 Color.Black) WIDTH HEIGHT
          (run (mainStartup (fun _ => none) (some ["fractal=7".toList])).1 []).realMin
          (run (mainStartup (fun _ => none) (some ["fractal=7".toList])).1 []).realMax
          (run (mainStartup (fun _ => none) (some ["fractal=7".toList])).1 []).imagMin
          (run (mainStartup (fun _ => none) (some ["fractal=7".toList])).1 []).imagMax
          MAX_ITER) :=
  ⟨(fractal_selector_range (fun _ => none) (some ["fractal=7".toList])
      [Event.keyNum FractalType.KOCH] ⟨fun _ _ => 0, fun _ => 1, fun _ => 0, fun _ _ => 0⟩
      (fun i => i) (Image.create 640 480 Color.Black)).1
      ⟨FractalType.KOCH, List.mem_cons_self _ _⟩,
    (fractal_selector_range (fun _ => none) (some ["fractal=7".toList]) []
      ⟨fun _ _ => 0, fun _ => 1, fun _ => 0, fun _ _ => 0⟩
      (fun i => i) (Image.create 640 480 Color.Black)).2.2.2.2.2 (by decide!)⟩

/-! ## Dragon renderer: theorems -/

/-- The red channel of segment `i` of `N` points: `120 + 135 * i / (N - 1)` truncated. -/
theorem dragonColor_truncated (i N : ℕ) (hi : 1 ≤ i ∧ i ≤ N - 1) :
    dragonColor i N
        = ⟨(⌊min (255 : ℚ) (120 + 135 * ((i : ℚ) / ((N - 1 : ℕ) : ℚ)))⌋).toNat, 20, 20⟩ ∧
      120 ≤ ⌊min (255 : ℚ) (120 + 135 * ((i : ℚ) / ((N - 1 : ℕ) : ℚ)))⌋ ∧
      ⌊min (255 : ℚ) (120 + 135 * ((i : ℚ) / ((N - 1 : ℕ) : ℚ)))⌋ ≤ 255 := by
  have hmax : max 1 (N - 1) = N - 1 := max_eq_right (by omega)
  have hN1 : (0 : ℚ) < ((N - 1 : ℕ) : ℚ) := by
    have : 0 < N - 1 := by omega
    exact_mod_cast this
  have ht0 : (0 : ℚ) ≤ (i : ℚ) / ((N - 1 : ℕ) : ℚ) := div_nonneg (by positivity) hN1.le
  have hq0 : (120 : ℚ) ≤ min (255 : ℚ) (120 + 135 * ((i : ℚ) / ((N - 1 : ℕ) : ℚ))) := by
    apply le_min
    · norm_num
    · linarith
  have hq1 : min (255 : ℚ) (120 + 135 * ((i : ℚ) / ((N - 1 : ℕ) : ℚ))) ≤ 255 := min_le_left _ _
  have hf0 : 120 ≤ ⌊min (255 : ℚ) (120 + 135 * ((i : ℚ) / ((N - 1 : ℕ) : ℚ)))⌋ := by
    rw [Int.le_floor]
    exact_mod_cast hq0
  have hf1 : ⌊min (255 : ℚ) (120 + 135 * ((i : ℚ) / ((N - 1 : ℕ) : ℚ)))⌋ ≤ 255 := by
    have : ⌊min (255 : ℚ) (120 + 135 * ((i : ℚ) / ((N - 1 : ℕ) : ℚ)))⌋ ≤ ⌊(255 : ℚ)⌋ :=
      Int.floor_le_floor hq1
    have h255 : ⌊(255 : ℚ)⌋ = 255 := by
      have : ((255 : ℤ) : ℚ) = 255 := by norm_num
      rw [← this, Int.floor_intCast]
    omega
  refine ⟨?_, hf0, hf1⟩
  unfold dragonColor
  simp only [hmax]
  unfold castUint8 castInt
  rw [if_pos (by linarith)]
  congr 2
  omega

/-- C17 (counterexample): with `N = 4096` points, the number `renderDragon`
emits, segment 16 is drawn with red 120, while `120 + 135 * 16 / 4095 = 120.527...`
rounds to 121. -/
theorem dragon_red_truncated :
    ((dragonSegments 640 480 (-5 / 2) 1 (-1) 1 (List.replicate 4096 (0, 0))).getD 15
        ((0, 0, 0, 0), Color.Black)).2 = ⟨120, 20, 20⟩ ∧
      dragonColor 16 4096 = ⟨120, 20, 20⟩ ∧
      min 255 (specRound (120 + 135 * ((16 : ℚ) / 4095))) = 121 := by
  decide!

/-- C17 (as amended): with `N ≥ 2` emitted points, `renderDragon` draws `N - 1`
segments, and for every segment index `i` in `[1, N - 1]` segment `i` joins the
mapped pixels of points `i - 1` and `i` with colour `(R, 20, 20)` where
`R = ⌊min(255, 120 + 135 * i / (N - 1))⌋`, truncated and not rounded to nearest;
`R` lies in `[120, 255]`. -/
theorem dragon_colour_gradient (width height : ℤ) (realMin realMax imagMin imagMax : ℚ)
    (points : List (ℚ × ℚ)) (i : ℕ) (_hN : 2 ≤ points.length)
    (hi : 1 ≤ i ∧ i ≤ points.length - 1) :
    (dragonSegments width height realMin realMax imagMin imagMax points).length
        = points.length - 1 ∧
      (dragonSegments width height realMin realMax imagMin imagMax points)[i - 1]?
        = some ((realToPixel (points.getD (i - 1) (0, 0)).1 width realMin realMax,
            imagToPixel (points.getD (i - 1) (0, 0)).2 height imagMin imagMax,
            realToPixel (points.getD i (0, 0)).1 width realMin realMax,
            imagToPixel (points.getD i (0, 0)).2 height imagMin imagMax),
          ⟨(⌊min (255 : ℚ) (120 + 135 * ((i : ℚ) / ((points.length - 1 : ℕ) : ℚ)))⌋).toNat,
            20, 20⟩) ∧
      120 ≤ ⌊min (255 : ℚ) (120 + 135 * ((i : ℚ) / ((points.length - 1 : ℕ) : ℚ)))⌋ ∧
      ⌊min (255 : ℚ) (120 + 135 * ((i : ℚ) / ((points.length - 1 : ℕ) : ℚ)))⌋ ≤ 255 := by
  obtain ⟨c1, c2, c3⟩ := dragonColor_truncated i points.length hi
  refine ⟨?_, ?_, c2, c3⟩
  · simp [dragonSegments]
  · have hlt : i - 1 < points.length - 1 := by omega
    have hi1 : i - 1 + 1 = i := by omega
    simp only [dragonSegments, List.getElem?_map, List.getElem?_range hlt, Option.map_some', hi1,
      c1]

/-- Witness for C17 (as amended): five points, segment 1, red `⌊153.75⌋ = 153`. -/
theorem dragon_colour_gradient_witness :
    (dragonSegments 640 480 (-5 / 2) 1 (-1) 1 (List.replicate 5 (0, 0)))[1 - 1]?
        = some ((realToPixel ((List.replicate 5 ((0 : ℚ), (0 : ℚ))).getD (1 - 1) (0, 0)).1 640
              (-5 / 2) 1,
            imagToPixel ((List.replicate 5 ((0 : ℚ), (0 : ℚ))).getD (1 - 1) (0, 0)).2 480 (-1) 1,
            realToPixel ((List.replicate 5 ((0 : ℚ), (0 : ℚ))).getD 1 (0, 0)).1 640 (-5 / 2) 1,
            imagToPixel ((List.replicate 5 ((0 : ℚ), (0 : ℚ))).getD 1 (0, 0)).2 480 (-1) 1),
          ⟨(⌊min (255 : ℚ) (120 + 135 * (((1 : ℕ) : ℚ)
            / (((List.replicate 5 ((0 : ℚ), (0 : ℚ))).length - 1 : ℕ) : ℚ)))⌋).toNat, 20, 20⟩) :=
  (dragon_colour_gradient 640 480 (-5 / 2) 1 (-1) 1 (List.replicate 5 (0, 0)) 1
    (by decide) (by decide)).2.1

/-! ## Sierpinski vertices: theorems -/

/-- In exact arithmetic the vertices are the two top corners of the raster and
the middle of its bottom row, for every valid window. -/
theorem sierpinskiVertices_exact (W H : ℤ) (rMin rMax iMin iMax : ℚ)
    (hr : rMin < rMax) (hi : iMin < iMax) :
    sierpinskiVertices W H rMin rMax iMin iMax
      = ((0, 0), (W - 1, 0), (castInt (((W - 1 : ℤ) : ℚ) / 2), H - 1)) := by
  have hr0 : rMax - rMin ≠ 0 := sub_ne_zero.mpr hr.ne.symm
  have hi0 : iMin - iMax ≠ 0 := sub_ne_zero.mpr hi.ne
  have e1 : map rMin rMin rMax 0 ((W - 1 : ℤ) : ℚ) = ((0 : ℤ) : ℚ) := by
    unfold map
    simp
  have e2 : map iMax iMax iMin 0 ((H - 1 : ℤ) : ℚ) = ((0 : ℤ) : ℚ) := by
    unfold map
    simp
  have e3 : map rMax rMin rMax 0 ((W - 1 : ℤ) : ℚ) = ((W - 1 : ℤ) : ℚ) := by
    unfold map
    field_simp
  have e4 : map ((rMin + rMax) / 2) rMin rMax 0 ((W - 1 : ℤ) : ℚ) = ((W - 1 : ℤ) : ℚ) / 2 := by
    unfold map
    field_simp
    ring
  have e5 : map iMin iMax iMin 0 ((H - 1 : ℤ) : ℚ) = ((H - 1 : ℤ) : ℚ) := by
    unfold map
    field_simp
  simp only [sierpinskiVertices, realToPixel, imagToPixel]
  rw [e1, e2, e3, e4, e5, castInt_intCast, castInt_intCast, castInt_intCast]

theorem realToPixelD_eval (r : ℚ) (width : ℤ) (realMin realMax w m : ℚ) (k : ℤ)
    (hw : toDouble ((width - 1 : ℤ) : ℚ) = some w) (hm : mapD r realMin realMax 0 w = some m)
    (hk : castIntD m = some k) : realToPixelD r width realMin realMax = some k := by
  simp only [realToPixelD, hw, Option.bind_eq_bind, Option.some_bind, hm, hk]

theorem imagToPixelD_eval (i : ℚ) (height : ℤ) (imagMin imagMax h m : ℚ) (k : ℤ)
    (hh : toDouble ((height - 1 : ℤ) : ℚ) = some h) (hm : mapD i imagMax imagMin 0 h = some m)
    (hk : castIntD m = some k) : imagToPixelD i height imagMin imagMax = some k := by
  simp only [imagToPixelD, hh, Option.bind_eq_bind, Option.some_bind, hm, hk]

/-- The vertices in binary64 on the 640 by 480 raster and the window
`[0, d] × [0, d]`, where `d` is the double nearest to `0.7`: the bottom vertex is
in row 478. -/
theorem sierpinskiVerticesD_small :
    sierpinskiVerticesD 640 480 0 (3152519739159347 / 4503599627370496) 0
        (3152519739159347 / 4503599627370496)
      = some ((0, 0), (639, 0), (319, 478)) := by
  have c639 : toDouble (((640 : ℤ) - 1 : ℤ) : ℚ) = some 639 := by decide!
  have c479 : toDouble (((480 : ℤ) - 1 : ℤ) : ℚ) = some 479 := by decide!
  have a1 : mapD 0 0 (3152519739159347 / 4503599627370496) 0 639 = some 0 :=
    mapD_eval 0 0 (3152519739159347 / 4503599627370496) 0 639 0 639 0
      (3152519739159347 / 4503599627370496) 0 0
      (by decide!) (by decide!) (by decide!) (by decide!) (by decide!) (by decide!)
  have a2 : mapD (3152519739159347 / 4503599627370496) (3152519739159347 / 4503599627370496)
      0 0 479 = some 0 :=
    mapD_eval (3152519739159347 / 4503599627370496) (3152519739159347 / 4503599627370496) 0 0
      479 0 479 0 (-3152519739159347 / 4503599627370496) 0 0
      (by decide!) (by decide!) (by decide!) (by decide!) (by decide!) (by decide!)
  have a3 : mapD (3152519739159347 / 4503599627370496) 0 (3152519739159347 / 4503599627370496)
      0 639 = some 639 :=
    mapD_eval (3152519739159347 / 4503599627370496) 0 (3152519739159347 / 4503599627370496) 0
      639 (3152519739159347 / 4503599627370496) 639 (1967246204416819 / 4398046511104)
      (3152519739159347 / 4503599627370496) 639 639
      (by decide!) (by decide!) (by decide!) (by decide!) (by decide!) (by decide!)
  have a4 : mapD (3152519739159347 / 9007199254740992) 0 (3152519739159347 / 4503599627370496)
      0 639 = some (639 / 2) :=
    mapD_eval (3152519739159347 / 9007199254740992) 0 (3152519739159347 / 4503599627370496) 0
      639 (3152519739159347 / 9007199254740992) 639 (1967246204416819 / 8796093022208)
      (3152519739159347 / 4503599627370496) (639 / 2) (639 / 2)
      (by decide!) (by decide!) (by decide!) (by decide!) (by decide!) (by decide!)
  have a5 : mapD 0 (3152519739159347 / 4503599627370496) 0 0 479
      = some (8426657115275263 / 17592186044416) :=
    mapD_eval 0 (3152519739159347 / 4503599627370496) 0 0 479
      (-3152519739159347 / 4503599627370496) 479 (-1474664995173171 / 4398046511104)
      (-3152519739159347 / 4503599627370496) (8426657115275263 / 17592186044416)
      (8426657115275263 / 17592186044416)
      (by decide!) (by decide!) (by decide!) (by decide!) (by decide!) (by decide!)
  have v1x := realToPixelD_eval 0 640 0 (3152519739159347 / 4503599627370496) 639 0 0 c639 a1
    (by decide!)
  have v1y := imagToPixelD_eval (3152519739159347 / 4503599627370496) 480 0
    (3152519739159347 / 4503599627370496) 479 0 0 c479 a2 (by decide!)
  have v2x := realToPixelD_eval (3152519739159347 / 4503599627370496) 640 0
    (3152519739159347 / 4503599627370496) 639 639 639 c639 a3 (by decide!)
  have v3x := realToPixelD_eval (3152519739159347 / 9007199254740992) 640 0
    (3152519739159347 / 4503599627370496) 639 (639 / 2) 319 c639 a4 (by decide!)
  have v3y := imagToPixelD_eval 0 480 0 (3152519739159347 / 4503599627370496) 479
    (8426657115275263 / 17592186044416) 478 c479 a5 (by decide!)
  have s1 : fadd 0 (3152519739159347 / 4503599627370496)
      = some (3152519739159347 / 4503599627370496) := by decide!
  have s2 : fdiv (3152519739159347 / 4503599627370496) 2
      = some (3152519739159347 / 9007199254740992) := by decide!
  simp only [sierpinskiVerticesD, v1x, v1y, v2x, s1, s2, v3x, v3y, Option.bind_eq_bind,
    Option.some_bind, Option.pure_def]

/-! ## Line rasterizer: the visited points -/

/-- One pass of the loop that does not break keeps the invariant, takes a step
along the longer axis and never steps past the end point. -/
theorem lineStep_inv (x1 y1 dx dy sx sy x y err p q : ℤ)
    (h : LineInv x1 y1 dx dy sx sy x y err p q) (hfin : ¬ (x = x1 ∧ y = y1)) :
    ∃ p2 q2 : ℤ,
      LineInv x1 y1 dx dy sx sy (lineStep dx dy sx sy x y err).1
        (lineStep dx dy sx sy x y err).2.1 (lineStep dx dy sx sy x y err).2.2 p2 q2 ∧
      p2 ≤ p ∧ q2 ≤ q ∧ p2 + q2 < p + q ∧ (dy ≤ dx → p2 = p - 1) ∧ (dx < dy → q2 = q - 1) := by
  obtain ⟨hdx, hdy, hsx, hsy, hp, hpd, hq, hqd, hx, hy, herr, hmx, hmy, heq⟩ := h
  have hpq : 1 ≤ p + q := by
    by_contra hcon
    have hp0 : p = 0 := by omega
    have hq0 : q = 0 := by omega
    rw [hp0, mul_zero] at hx
    rw [hq0, mul_zero] at hy
    exact hfin ⟨by omega, by omega⟩
  have hxstep : 2 * err > -dy → 1 ≤ p := by
    intro h1
    by_contra hcon
    have hp0 : p = 0 := by omega
    have hq1 : 1 ≤ q := by omega
    have : dx ≤ q * dx := by nlinarith
    rw [hp0] at herr
    omega
  have hystep : 2 * err < dx → 1 ≤ q := by
    intro h2
    by_contra hcon
    have hq0 : q = 0 := by omega
    have hp1 : 1 ≤ p := by omega
    have : dy ≤ p * dy := by nlinarith
    rw [hq0] at herr
    omega
  by_cases h1 : 2 * err > -dy
  · have hp1 := hxstep h1
    by_cases h2 : 2 * err < dx
    · have hq1 := hystep h2
      have hs : lineStep dx dy sx sy x y err = (x + sx, y + sy, err - dy + dx) := by
        simp [lineStep, h1, h2]
      rw [hs]
      refine ⟨p - 1, q - 1, ⟨hdx, hdy, hsx, hsy, by omega, by omega, by omega, by omega, ?_, ?_,
        ?_, ?_, ?_, ?_⟩, by omega, by omega, by omega, fun _ => rfl, fun _ => rfl⟩
      · show x1 - (x + sx) = sx * (p - 1)
        rw [mul_sub, mul_one]
        omega
      · show y1 - (y + sy) = sy * (q - 1)
        rw [mul_sub, mul_one]
        omega
      · show err - dy + dx = dx - dy + (p - 1) * dy - (q - 1) * dx
        rw [herr]
        ring
      · intro a b
        show -dy < 2 * (err - dy + dx)
        have := hmx a b
        omega
      · intro a
        show 2 * (err - dy + dx) < dx
        omega
      · intro a
        show err - dy + dx = 0
        have := heq a
        omega
    · have hs : lineStep dx dy sx sy x y err = (x + sx, y, err - dy) := by
        simp [lineStep, h1, h2]
      rw [hs]
      refine ⟨p - 1, q, ⟨hdx, hdy, hsx, hsy, by omega, by omega, hq, hqd, ?_, hy, ?_, ?_, ?_, ?_⟩,
        by omega, le_refl _, by omega, fun _ => rfl, ?_⟩
      · show x1 - (x + sx) = sx * (p - 1)
        rw [mul_sub, mul_one]
        omega
      · show err - dy = dx - dy + (p - 1) * dy - q * dx
        rw [herr]
        ring
      · intro a b
        show -dy < 2 * (err - dy)
        rcases lt_or_eq_of_le a with c | c
        · omega
        · have := heq c.symm
          omega
      · intro a
        have := hmy a
        omega
      · intro a
        show err - dy = 0
        have := heq a
        omega
      · intro a
        have := hmy a
        omega
  · have h2 : 2 * err < dx := by
      by_contra hcon
      have hdx0 : dx = 0 := by omega
      have hdy0 : dy = 0 := by omega
      omega
    have hq1 := hystep h2
    have hs : lineStep dx dy sx sy x y err = (x, y + sy, err + dx) := by
      simp [lineStep, h1, h2]
    rw [hs]
    have hmajor : dx < dy := by
      by_contra hcon
      have a : dy ≤ dx := by omega
      rcases lt_or_eq_of_le hdx with c | c
      · have := hmx a c
        omega
      · have hdy0 : dy = 0 := by omega
        have hp0 : p = 0 := by omega
        have hq0 : q = 0 := by omega
        omega
    refine ⟨p, q - 1, ⟨hdx, hdy, hsx, hsy, hp, hpd, by omega, by omega, hx, ?_, ?_, ?_, ?_, ?_⟩,
      le_refl _, by omega, by omega, ?_, fun _ => rfl⟩
    · show y1 - (y + sy) = sy * (q - 1)
      rw [mul_sub, mul_one]
      omega
    · show err + dx = dx - dy + p * dy - (q - 1) * dx
      rw [herr]
      ring
    · intro a
      omega
    · intro a
      show 2 * (err + dx) < dx
      omega
    · intro a
      omega
    · intro a
      omega

/-- The points visited from a state of the loop: the trace exists, starts at the
state, ends at the end point, has one point per step along the longer axis plus
one, and stays within the remaining columns and rows. -/
theorem lineTraceLoop_spec (x1 y1 dx dy sx sy : ℤ) :
    ∀ (fuel : ℕ) (x y err p q : ℤ), LineInv x1 y1 dx dy sx sy x y err p q →
      p + q < (fuel : ℤ) →
      ∃ pts, lineTraceLoop x1 y1 dx dy sx sy fuel x y err = some pts ∧
        pts.head? = some (x, y) ∧ pts.getLast? = some (x1, y1) ∧
        (pts.length : ℤ) = (if dy ≤ dx then p else q) + 1 ∧
        ∀ pt ∈ pts, ∃ p2 q2 : ℤ, 0 ≤ p2 ∧ p2 ≤ p ∧ 0 ≤ q2 ∧ q2 ≤ q ∧
          x1 - pt.1 = sx * p2 ∧ y1 - pt.2 = sy * q2 := by
  intro fuel
  induction fuel with
  | zero =>
    intro x y err p q h hfuel
    obtain ⟨_, _, _, _, hp, _, hq, _⟩ := h
    simp at hfuel
    omega
  | succ fuel ih =>
    intro x y err p q h hfuel
    push_cast at hfuel
    by_cases hfin : x = x1 ∧ y = y1
    · obtain ⟨hdx, hdy, hsx, hsy, hp, hpd, hq, hqd, hx, hy, herr, hmx, hmy, heq⟩ := h
      have hp0 : p = 0 := by
        have h0 : sx * p = 0 := by rw [← hx, hfin.1, sub_self]
        rcases hsx with c | c
        · rw [c, one_mul] at h0
          exact h0
        · rw [c] at h0
          omega
      have hq0 : q = 0 := by
        have h0 : sy * q = 0 := by rw [← hy, hfin.2, sub_self]
        rcases hsy with c | c
        · rw [c, one_mul] at h0
          exact h0
        · rw [c] at h0
          omega
      refine ⟨[(x, y)], by simp [lineTraceLoop, hfin], rfl, ?_, ?_, ?_⟩
      · rw [hfin.1, hfin.2]
        rfl
      · rw [hp0, hq0]
        simp
      · intro pt hpt
        rw [List.mem_singleton] at hpt
        rw [hpt]
        exact ⟨p, q, hp, le_refl _, hq, le_refl _, hx, hy⟩
    · obtain ⟨p2, q2, hinv, hp2, hq2, hlt, hmajx, hmajy⟩ :=
        lineStep_inv x1 y1 dx dy sx sy x y err p q h hfin
      obtain ⟨pts, hpts, hhead, hlast, hlen, hbox⟩ :=
        ih _ _ _ p2 q2 hinv (by omega)
      obtain ⟨hdx, hdy, hsx, hsy, hp, hpd, hq, hqd, hx, hy, herr, hmx, hmy, heq⟩ := h
      refine ⟨(x, y) :: pts, by simp [lineTraceLoop, hfin, hpts], rfl, ?_, ?_, ?_⟩
      · cases pts with
        | nil => simp at hhead
        | cons a as =>
          rw [List.getLast?_cons_cons]
          exact hlast
      · rw [List.length_cons]
        push_cast
        rw [hlen]
        by_cases hm : dy ≤ dx
        · rw [if_pos hm, if_pos hm, hmajx hm]
          ring
        · rw [if_neg hm, if_neg hm, hmajy (by omega)]
          ring
      · intro pt hpt
        rcases List.mem_cons.mp hpt with c | c
        · rw [c]
          exact ⟨p, q, hp, le_refl _, hq, le_refl _, hx, hy⟩
        · obtain ⟨a, b, b1, b2, b3, b4, b5, b6⟩ := hbox pt c
          exact ⟨a, b, b1, by omega, b3, by omega, b5, b6⟩

/-- The invariant holds when the loop of `drawLine` is entered. -/
theorem lineInv_start (x0 y0 x1 y1 : ℤ) :
    LineInv x1 y1 |x1 - x0| |y1 - y0| (if x0 < x1 then 1 else -1) (if y0 < y1 then 1 else -1)
      x0 y0 (|x1 - x0| - |y1 - y0|) |x1 - x0| |y1 - y0| := by
  have hdx : (0 : ℤ) ≤ |x1 - x0| := abs_nonneg _
  have hdy : (0 : ℤ) ≤ |y1 - y0| := abs_nonneg _
  refine ⟨hdx, hdy, ?_, ?_, hdx, le_refl _, hdy, le_refl _, ?_, ?_, by ring, ?_, ?_, ?_⟩
  · split_ifs
    · exact Or.inl rfl
    · exact Or.inr rfl
  · split_ifs
    · exact Or.inl rfl
    · exact Or.inr rfl
  · split_ifs with h
    · rw [one_mul, abs_of_pos (by omega)]
    · rw [abs_of_nonpos (by omega)]
      ring
  · split_ifs with h
    · rw [one_mul, abs_of_pos (by omega)]
    · rw [abs_of_nonpos (by omega)]
      ring
  · intro a b
    omega
  · intro a
    omega
  · intro a
    omega

/-- C21: for every pair of integer endpoints the loop of `drawLine` terminates;
the first point it visits is `(x0, y0)`, the last is `(x1, y1)`, it visits
exactly `max(|x1 - x0|, |y1 - y0|) + 1` points, and every visited point lies in
the bounding box of the two endpoints. -/
theorem drawLine_terminates (image : Image) (x0 y0 x1 y1 : ℤ) (col : Color) :
    ∃ (pts : List (ℤ × ℤ)) (out : Image),
      linePoints x0 y0 x1 y1 = some pts ∧ drawLine image x0 y0 x1 y1 col = some out ∧
      pts.head? = some (x0, y0) ∧ pts.getLast? = some (x1, y1) ∧
      (pts.length : ℤ) = max |x1 - x0| |y1 - y0| + 1 ∧
      ∀ pt ∈ pts, min x0 x1 ≤ pt.1 ∧ pt.1 ≤ max x0 x1 ∧ min y0 y1 ≤ pt.2 ∧ pt.2 ≤ max y0 y1 := by
  obtain ⟨pts, hpts, hhead, hlast, hlen, hbox⟩ :=
    lineTraceLoop_spec x1 y1 |x1 - x0| |y1 - y0| (if x0 < x1 then 1 else -1)
      (if y0 < y1 then 1 else -1) (|x1 - x0| + |y1 - y0| + 1).toNat x0 y0
      (|x1 - x0| - |y1 - y0|) |x1 - x0| |y1 - y0| (lineInv_start x0 y0 x1 y1)
      (by
        have hdx : (0 : ℤ) ≤ |x1 - x0| := abs_nonneg _
        have hdy : (0 : ℤ) ≤ |y1 - y0| := abs_nonneg _
        rw [Int.toNat_of_nonneg (by omega)]
        omega)
  have hdraw : drawLine image x0 y0 x1 y1 col = some (plotAll col image pts) := by
    unfold drawLine
    exact drawLineLoop_eq_plotAll col x1 y1 _ _ _ _ _ image x0 y0 _ pts hpts
  refine ⟨pts, plotAll col image pts, hpts, hdraw, hhead, hlast, ?_, ?_⟩
  · rw [hlen]
    by_cases hm : |y1 - y0| ≤ |x1 - x0|
    · rw [if_pos hm, max_eq_left hm]
    · rw [if_neg hm, max_eq_right (by omega)]
  · intro pt hpt
    obtain ⟨p2, q2, a1, a2, a3, a4, a5, a6⟩ := hbox pt hpt
    constructor
    · by_cases h : x0 < x1
      · rw [if_pos h, one_mul] at a5
        rw [abs_of_pos (by omega)] at a2
        rw [min_eq_left h.le]
        omega
      · rw [if_neg h] at a5
        rw [abs_of_nonpos (by omega)] at a2
        rw [min_eq_right (by omega)]
        omega
    constructor
    · by_cases h : x0 < x1
      · rw [if_pos h, one_mul] at a5
        rw [max_eq_right h.le]
        omega
      · rw [if_neg h] at a5
        rw [abs_of_nonpos (by omega)] at a2
        rw [max_eq_left (by omega)]
        omega
    constructor
    · by_cases h : y0 < y1
      · rw [if_pos h, one_mul] at a6
        rw [abs_of_pos (by omega)] at a4
        rw [min_eq_left h.le]
        omega
      · rw [if_neg h] at a6
        rw [abs_of_nonpos (by omega)] at a4
        rw [min_eq_right (by omega)]
        omega
    · by_cases h : y0 < y1
      · rw [if_pos h, one_mul] at a6
        rw [max_eq_right h.le]
        omega
      · rw [if_neg h] at a6
        rw [abs_of_nonpos (by omega)] at a4
        rw [max_eq_left (by omega)]
        omega

/-! ## Dragon renderer: string size and point count -/

/-- What one rewriting pass does to the numbers of `F`, `X`, `Y` and to the length. -/
theorem dragonRewrite_counts (s : List Char) :
    (dragonRewrite s).count 'F' = s.count 'F' + s.count 'X' + s.count 'Y' ∧
      (dragonRewrite s).count 'X' = s.count 'X' + s.count 'Y' ∧
      (dragonRewrite s).count 'Y' = s.count 'X' + s.count 'Y' ∧
      (dragonRewrite s).length = s.length + 4 * (s.count 'X' + s.count 'Y') := by
  induction s with
  | nil => exact ⟨rfl, rfl, rfl, rfl⟩
  | cons c s ih =>
    obtain ⟨i1, i2, i3, i4⟩ := ih
    have hcons : dragonRewrite (c :: s)
        = (if c = 'X' then "X+YF+".toList else if c = 'Y' then "-FX-Y".toList else [c])
          ++ dragonRewrite s := by
      simp [dragonRewrite]
    rw [hcons]
    by_cases hX : c = 'X'
    · subst hX
      simp only [if_true, List.count_append, List.length_append, i1, i2, i3, i4]
      have e1 : "X+YF+".toList.count 'F' = 1 := by decide
      have e2 : "X+YF+".toList.count 'X' = 1 := by decide
      have e3 : "X+YF+".toList.count 'Y' = 1 := by decide
      have e4 : "X+YF+".toList.length = 5 := by decide
      have f1 : ('X' :: s).count 'F' = s.count 'F' := by simp
      have f2 : ('X' :: s).count 'X' = s.count 'X' + 1 := by simp
      have f3 : ('X' :: s).count 'Y' = s.count 'Y' := by simp
      rw [e1, e2, e3, e4, f1, f2, f3, List.length_cons]
      refine ⟨?_, ?_, ?_, ?_⟩ <;> omega
    · by_cases hY : c = 'Y'
      · subst hY
        have hne : ¬ ('Y' = 'X') := by decide
        simp only [if_neg hne, if_true, List.count_append, List.length_append, i1, i2, i3, i4]
        have e1 : "-FX-Y".toList.count 'F' = 1 := by decide
        have e2 : "-FX-Y".toList.count 'X' = 1 := by decide
        have e3 : "-FX-Y".toList.count 'Y' = 1 := by decide
        have e4 : "-FX-Y".toList.length = 5 := by decide
        have f1 : ('Y' :: s).count 'F' = s.count 'F' := by simp
        have f2 : ('Y' :: s).count 'X' = s.count 'X' := by simp
        have f3 : ('Y' :: s).count 'Y' = s.count 'Y' + 1 := by simp
        rw [e1, e2, e3, e4, f1, f2, f3, List.length_cons]
        refine ⟨?_, ?_, ?_, ?_⟩ <;> omega
      · simp only [if_neg hX, if_neg hY, List.count_append, List.length_append, i1, i2, i3, i4]
        have f2 : (c :: s).count 'X' = s.count 'X' := by
          rw [List.count_cons_of_ne (fun h => hX h.symm)]
        have f3 : (c :: s).count 'Y' = s.count 'Y' := by
          rw [List.count_cons_of_ne (fun h => hY h.symm)]
        have g2 : [c].count 'X' = 0 := by
          rw [List.count_cons_of_ne (fun h => hX h.symm)]
          rfl
        have g3 : [c].count 'Y' = 0 := by
          rw [List.count_cons_of_ne (fun h => hY h.symm)]
          rfl
        have g1 : [c].count 'F' + s.count 'F' = (c :: s).count 'F' := by
          simp [List.count_cons]
          omega
        rw [f2, f3, g2, g3]
        simp only [List.length_cons, List.length_nil]
        refine ⟨?_, ?_, ?_, ?_⟩ <;> omega

/-- After `n` rewriting passes from `FX`: `2^n` letters `F`, `2^n` letters `X` or
`Y`, and length `2^(n+2) - 2`. -/
theorem dragonRewrite_iterate (n : ℕ) :
    (dragonRewrite^[n] "FX".toList).count 'F' = 2 ^ n ∧
      (dragonRewrite^[n] "FX".toList).count 'X' + (dragonRewrite^[n] "FX".toList).count 'Y'
        = 2 ^ n ∧
      (dragonRewrite^[n] "FX".toList).length + 2 = 2 ^ (n + 2) := by
  induction n with
  | zero => decide
  | succ n ih =>
    obtain ⟨i1, i2, i3⟩ := ih
    obtain ⟨c1, c2, c3, c4⟩ := dragonRewrite_counts (dragonRewrite^[n] "FX".toList)
    rw [Function.iterate_succ_apply', c1, c2, c3, c4]
    have p1 : 2 ^ (n + 1) = 2 * 2 ^ n := by ring
    have p2 : 2 ^ (n + 1 + 2) = 2 * 2 ^ (n + 2) := by ring
    have p3 : 2 ^ (n + 2) = 4 * 2 ^ n := by ring
    refine ⟨?_, ?_, ?_⟩ <;> omega

/-- The turtle emits one point for every `F` of the program. -/
theorem turtle_points_length (m : Libm) (step : ℚ) (prog : List Char) :
    ∀ t : Turtle, (prog.foldl (turtleStep m step) t).points.length
      = t.points.length + prog.count 'F' := by
  induction prog with
  | nil => intro t; rfl
  | cons c prog ih =>
    intro t
    rw [List.foldl_cons, ih]
    by_cases hF : c = 'F'
    · subst hF
      simp [turtleStep]
      omega
    · have hc : (c :: prog).count 'F' = prog.count 'F' := by
        rw [List.count_cons_of_ne (fun h => hF h.symm)]
      rw [hc]
      congr 1
      unfold turtleStep
      rw [if_neg hF]
      split_ifs <;> rfl

/-- Drawing a list of coloured segments one after the other always returns. -/
theorem drawColouredSegments_isSome (segs : List ((ℤ × ℤ × ℤ × ℤ) × Color)) :
    ∀ image : Image, ∃ out,
      segs.foldlM (fun img s => drawLine img s.1.1 s.1.2.1 s.1.2.2.1 s.1.2.2.2 s.2) image
        = some out := by
  induction segs with
  | nil => intro image; exact ⟨image, rfl⟩
  | cons s segs ih =>
    intro image
    obtain ⟨mid, hmid⟩ := drawLine_isSome image s.1.1 s.1.2.1 s.1.2.2.1 s.1.2.2.2 s.2
    obtain ⟨out, hout⟩ := ih mid
    refine ⟨out, ?_⟩
    rw [List.foldlM_cons, hmid]
    exact hout

/-- C22: for every `n ≥ 0`, `dragonLSystem n` contains exactly `2^n` characters
`F` and has length `2^(n+2) - 2`; at the depth 12 of `renderDragon` the turtle
emits exactly 4096 points, one for each `F`, and 4095 segments are drawn. -/
theorem dragon_string_size (n : ℕ) (m : Libm) (image : Image) (width height : ℤ)
    (realMin realMax imagMin imagMax : ℚ) :
    (dragonLSystem (n : ℤ)).count 'F' = 2 ^ n ∧
      (dragonLSystem (n : ℤ)).length = 2 ^ (n + 2) - 2 ∧
      (dragonPoints m width realMin realMax imagMin imagMax).length
        = (dragonLSystem 12).count 'F' ∧
      (dragonPoints m width realMin realMax imagMin imagMax).length = 4096 ∧
      (dragonSegments width height realMin realMax imagMin imagMax
        (dragonPoints m width realMin realMax imagMin imagMax)).length = 4095 ∧
      ∃ out, renderDragon m image width height realMin realMax imagMin imagMax = some out := by
  obtain ⟨a1, _, a3⟩ := dragonRewrite_iterate n
  obtain ⟨b1, _, _⟩ := dragonRewrite_iterate 12
  have hn : dragonLSystem (n : ℤ) = dragonRewrite^[n] "FX".toList := by
    simp [dragonLSystem]
  have h12 : dragonLSystem 12 = dragonRewrite^[12] "FX".toList := rfl
  have hlen : (dragonPoints m width realMin realMax imagMin imagMax).length
      = (dragonLSystem 12).count 'F' := by
    unfold dragonPoints
    simp only [turtle_points_length, List.length_nil, Nat.zero_add]
  have h4096 : (dragonPoints m width realMin realMax imagMin imagMax).length = 4096 := by
    rw [hlen, h12, b1]
    norm_num
  refine ⟨by rw [hn, a1], by rw [hn]; omega, hlen, h4096, ?_, ?_⟩
  · simp [dragonSegments, h4096]
  · unfold renderDragon
    exact drawColouredSegments_isSome _ _

/-! ## Koch renderer: the endpoints -/

/-- In exact arithmetic the two ends of the window map to the first and the last
column. -/
theorem realToPixel_window_ends (W : ℤ) (rMin rMax : ℚ) (hr : rMin < rMax) :
    realToPixel rMin W rMin rMax = 0 ∧ realToPixel rMax W rMin rMax = W - 1 := by
  have hr0 : rMax - rMin ≠ 0 := sub_ne_zero.mpr hr.ne.symm
  have e1 : map rMin rMin rMax 0 ((W - 1 : ℤ) : ℚ) = ((0 : ℤ) : ℚ) := by
    unfold map
    simp
  have e3 : map rMax rMin rMax 0 ((W - 1 : ℤ) : ℚ) = ((W - 1 : ℤ) : ℚ) := by
    unfold map
    field_simp
  unfold realToPixel
  rw [e1, e3, castInt_intCast, castInt_intCast]
  exact ⟨rfl, rfl⟩

/-- In exact arithmetic the centre of the imaginary range maps to the truncated
middle row. -/
theorem imagToPixel_window_center (H : ℤ) (iMin iMax : ℚ) (hi : iMin < iMax) :
    imagToPixel ((iMin + iMax) / 2) H iMin iMax = castInt (((H - 1 : ℤ) : ℚ) / 2) := by
  have hi0 : iMin - iMax ≠ 0 := sub_ne_zero.mpr hi.ne
  have e : map ((iMin + iMax) / 2) iMax iMin 0 ((H - 1 : ℤ) : ℚ) = ((H - 1 : ℤ) : ℚ) / 2 := by
    unfold map
    field_simp
    ring
  unfold imagToPixel
  rw [e]

/-- C23: in exact arithmetic, for `W > 1`, `H > 1` and valid windows, the two
pixel-space endpoints computed by `renderKoch` are `A = (0, trunc((H-1)/2))` and
`B = (W-1, trunc((H-1)/2))`, which is `(0, 239)` and `(639, 239)` on a 640 by 480
raster; the point list and the image drawn by `renderKoch`, which returns, are
the same for any two valid windows. -/
theorem koch_endpoints_view_independent (m : Libm) (image : Image) (W H : ℤ)
    (rMin rMax iMin iMax rMin2 rMax2 iMin2 iMax2 : ℚ) (_hW : 1 < W) (_hH : 1 < H)
    (hr : rMin < rMax) (hi : iMin < iMax) (hr2 : rMin2 < rMax2) (hi2 : iMin2 < iMax2) :
    (realToPixel rMin W rMin rMax, imagToPixel ((iMin + iMax) / 2) H iMin iMax)
        = (0, castInt (((H - 1 : ℤ) : ℚ) / 2)) ∧
      (realToPixel rMax W rMin rMax, imagToPixel ((iMin + iMax) / 2) H iMin iMax)
        = (W - 1, castInt (((H - 1 : ℤ) : ℚ) / 2)) ∧
      (W = 640 → H = 480 →
        (realToPixel rMin W rMin rMax, imagToPixel ((iMin + iMax) / 2) H iMin iMax) = (0, 239) ∧
        (realToPixel rMax W rMin rMax, imagToPixel ((iMin + iMax) / 2) H iMin iMax)
          = (639, 239)) ∧
      kochPoints m W H rMin rMax iMin iMax
        = kochRecurse m [] ((0 : ℚ), ((castInt (((H - 1 : ℤ) : ℚ) / 2) : ℤ) : ℚ))
            (((W - 1 : ℤ) : ℚ), ((castInt (((H - 1 : ℤ) : ℚ) / 2) : ℤ) : ℚ)) 6
          ++ [(((W - 1 : ℤ) : ℚ), ((castInt (((H - 1 : ℤ) : ℚ) / 2) : ℤ) : ℚ))] ∧
      kochPoints m W H rMin rMax iMin iMax = kochPoints m W H rMin2 rMax2 iMin2 iMax2 ∧
      renderKoch m image W H rMin rMax iMin iMax
        = renderKoch m image W H rMin2 rMax2 iMin2 iMax2 ∧
      ∃ out, renderKoch m image W H rMin rMax iMin iMax = some out := by
  obtain ⟨a1, a2⟩ := realToPixel_window_ends W rMin rMax hr
  obtain ⟨b1, b2⟩ := realToPixel_window_ends W rMin2 rMax2 hr2
  have c1 := imagToPixel_window_center H iMin iMax hi
  have c2 := imagToPixel_window_center H iMin2 iMax2 hi2
  have hk : ∀ (r0 r1 i0 i1 : ℚ), r0 < r1 → i0 < i1 →
      kochPoints m W H r0 r1 i0 i1
        = kochRecurse m [] ((0 : ℚ), ((castInt (((H - 1 : ℤ) : ℚ) / 2) : ℤ) : ℚ))
            (((W - 1 : ℤ) : ℚ), ((castInt (((H - 1 : ℤ) : ℚ) / 2) : ℤ) : ℚ)) 6
          ++ [(((W - 1 : ℤ) : ℚ), ((castInt (((H - 1 : ℤ) : ℚ) / 2) : ℤ) : ℚ))] := by
    intro r0 r1 i0 i1 h0 h1
    obtain ⟨d1, d2⟩ := realToPixel_window_ends W r0 r1 h0
    have d3 := imagToPixel_window_center H i0 i1 h1
    simp only [kochPoints, d1, d2, d3, Int.cast_zero]
  have hpts : kochPoints m W H rMin rMax iMin iMax = kochPoints m W H rMin2 rMax2 iMin2 iMax2 := by
    rw [hk rMin rMax iMin iMax hr hi, hk rMin2 rMax2 iMin2 iMax2 hr2 hi2]
  have hmid : castInt (((480 - 1 : ℤ) : ℚ) / 2) = 239 := by decide!
  refine ⟨by rw [a1, c1], by rw [a2, c1], ?_, hk rMin rMax iMin iMax hr hi, hpts, ?_, ?_⟩
  · intro hW hH
    subst hW
    subst hH
    rw [a1, a2, c1, hmid]
    exact ⟨rfl, rfl⟩
  · unfold renderKoch
    rw [hpts]
  · unfold renderKoch
    exact drawSegments_isSome _ _ _

/-- Witness for C23: the initial window and the unit window on a 640 by 480
raster give the endpoints `(0, 239)` and `(639, 239)`. -/
theorem koch_endpoints_view_independent_witness :
    (realToPixel (-5 / 2) 640 (-5 / 2) 1, imagToPixel ((-1 + 1) / 2) 480 (-1) 1) = (0, 239) ∧
      (realToPixel 1 640 (-5 / 2) 1, imagToPixel ((-1 + 1) / 2) 480 (-1) 1) = (639, 239) :=
  (koch_endpoints_view_independent ⟨fun _ _ => 0, fun _ => 1, fun _ => 0, fun _ _ => 0⟩
    (Image.create 1 1 Color.Black) 640 480 (-5 / 2) 1 (-1) 1 0 1 0 1
    (by decide) (by decide) (by decide!) (by decide!) (by decide!) (by decide!)).2.2.1 rfl rfl

/-! ## Mandelbrot renderer: which pixels are black -/

/-- A value in `[0, n]` rounds with `lround` to an integer in `[0, n]`. -/
theorem lround_range (q : ℚ) (n : ℤ) (h0 : 0 ≤ q) (h1 : q ≤ (n : ℚ)) :
    0 ≤ lround q ∧ lround q ≤ n := by
  unfold lround
  rw [if_pos h0]
  constructor
  · exact Int.floor_nonneg.mpr (by linarith)
  · have hlt : ⌊q + 1 / 2⌋ < n + 1 := by
      rw [Int.floor_lt]
      push_cast
      linarith
    omega

/-- The midpoint of a value in `[0, n]` and an integer in `[0, n]` is in `[0, n]`. -/
theorem midpoint_range (q : ℚ) (a n : ℤ) (h0 : 0 ≤ q) (h1 : q ≤ (n : ℚ)) (ha0 : 0 ≤ a)
    (ha1 : a ≤ n) : 0 ≤ (q + (a : ℚ)) / 2 ∧ (q + (a : ℚ)) / 2 ≤ (n : ℚ) := by
  have c0 : (0 : ℚ) ≤ (a : ℚ) := by exact_mod_cast ha0
  have c1 : (a : ℚ) ≤ (n : ℚ) := by exact_mod_cast ha1
  constructor
  · linarith
  · linarith

/-- The truncated middle column lies on the raster. -/
theorem castInt_half_range (W : ℤ) (hW : 1 < W) :
    0 ≤ castInt (((W - 1 : ℤ) : ℚ) / 2) ∧ castInt (((W - 1 : ℤ) : ℚ) / 2) ≤ W - 1 := by
  have h0 : (0 : ℚ) ≤ ((W - 1 : ℤ) : ℚ) := by
    have : (0 : ℤ) ≤ W - 1 := by omega
    exact_mod_cast this
  have hq : (0 : ℚ) ≤ ((W - 1 : ℤ) : ℚ) / 2 := by linarith
  unfold castInt
  rw [if_pos hq]
  constructor
  · exact Int.floor_nonneg.mpr hq
  · have hlt : ⌊((W - 1 : ℤ) : ℚ) / 2⌋ < W - 1 + 1 := by
      rw [Int.floor_lt]
      push_cast
      push_cast at h0
      linarith
    omega

/-- One pass of the chaos game between vertices on the raster keeps the point in
`[0, W-1] × [0, H-1]`, its rounded pixel passes the bounds test, and the pixel is
gold afterwards. -/
theorem chaosStep_range (W H : ℤ) (v : (ℤ × ℤ) × (ℤ × ℤ) × (ℤ × ℤ)) (rnd : ℤ → ℤ) (i : ℤ)
    (s : ChaosState)
    (hv : (0 ≤ v.1.1 ∧ v.1.1 ≤ W - 1 ∧ 0 ≤ v.1.2 ∧ v.1.2 ≤ H - 1) ∧
      (0 ≤ v.2.1.1 ∧ v.2.1.1 ≤ W - 1 ∧ 0 ≤ v.2.1.2 ∧ v.2.1.2 ≤ H - 1) ∧
      (0 ≤ v.2.2.1 ∧ v.2.2.1 ≤ W - 1 ∧ 0 ≤ v.2.2.2 ∧ v.2.2.2 ≤ H - 1))
    (hs : 0 ≤ s.prx ∧ s.prx ≤ ((W - 1 : ℤ) : ℚ) ∧ 0 ≤ s.pry ∧ s.pry ≤ ((H - 1 : ℤ) : ℚ)) :
    (0 ≤ (chaosStep W H v rnd i s).prx ∧ (chaosStep W H v rnd i s).prx ≤ ((W - 1 : ℤ) : ℚ) ∧
        0 ≤ (chaosStep W H v rnd i s).pry ∧ (chaosStep W H v rnd i s).pry ≤ ((H - 1 : ℤ) : ℚ)) ∧
      (chaosStep W H v rnd i s).image.pixel (lround (chaosStep W H v rnd i s).prx)
        (lround (chaosStep W H v rnd i s).pry) = ⟨255, 215, 0⟩ := by
  obtain ⟨⟨a1, a2, a3, a4⟩, ⟨b1, b2, b3, b4⟩, ⟨c1, c2, c3, c4⟩⟩ := hv
  obtain ⟨s1, s2, s3, s4⟩ := hs
  have key : ∀ (ax ay : ℤ), 0 ≤ ax → ax ≤ W - 1 → 0 ≤ ay → ay ≤ H - 1 →
      ∀ t : ChaosState,
        t = (if lround ((s.prx + (ax : ℚ)) / 2) ≥ 0 ∧ lround ((s.prx + (ax : ℚ)) / 2) < W ∧
              lround ((s.pry + (ay : ℚ)) / 2) ≥ 0 ∧ lround ((s.pry + (ay : ℚ)) / 2) < H then
            { image := s.image.setPixel (lround ((s.prx + (ax : ℚ)) / 2))
                (lround ((s.pry + (ay : ℚ)) / 2)) ⟨255, 215, 0⟩,
              prx := (s.prx + (ax : ℚ)) / 2, pry := (s.pry + (ay : ℚ)) / 2 }
          else { image := s.image, prx := (s.prx + (ax : ℚ)) / 2,
                 pry := (s.pry + (ay : ℚ)) / 2 }) →
        (0 ≤ t.prx ∧ t.prx ≤ ((W - 1 : ℤ) : ℚ) ∧ 0 ≤ t.pry ∧ t.pry ≤ ((H - 1 : ℤ) : ℚ)) ∧
          t.image.pixel (lround t.prx) (lround t.pry) = ⟨255, 215, 0⟩ := by
    intro ax ay hx0 hx1 hy0 hy1 t ht
    obtain ⟨mx0, mx1⟩ := midpoint_range s.prx ax (W - 1) s1 s2 hx0 hx1
    obtain ⟨my0, my1⟩ := midpoint_range s.pry ay (H - 1) s3 s4 hy0 hy1
    obtain ⟨rx0, rx1⟩ := lround_range _ (W - 1) mx0 mx1
    obtain ⟨ry0, ry1⟩ := lround_range _ (H - 1) my0 my1
    have htest : lround ((s.prx + (ax : ℚ)) / 2) ≥ 0 ∧ lround ((s.prx + (ax : ℚ)) / 2) < W ∧
        lround ((s.pry + (ay : ℚ)) / 2) ≥ 0 ∧ lround ((s.pry + (ay : ℚ)) / 2) < H :=
      ⟨rx0, by omega, ry0, by omega⟩
    rw [if_pos htest] at ht
    subst ht
    refine ⟨⟨mx0, mx1, my0, my1⟩, ?_⟩
    show (s.image.setPixel (lround ((s.prx + (ax : ℚ)) / 2))
      (lround ((s.pry + (ay : ℚ)) / 2)) ⟨255, 215, 0⟩).pixel
        (lround ((s.prx + (ax : ℚ)) / 2)) (lround ((s.pry + (ay : ℚ)) / 2)) = ⟨255, 215, 0⟩
    rw [setPixel_pixel, if_pos ⟨rfl, rfl⟩]
  by_cases h0 : (rnd i).tmod 3 = 0
  · exact key v.1.1 v.1.2 a1 a2 a3 a4 _ (by simp only [chaosStep, if_pos h0])
  · by_cases h1 : (rnd i).tmod 3 = 1
    · exact key v.2.1.1 v.2.1.2 b1 b2 b3 b4 _ (by simp only [chaosStep, if_neg h0, if_pos h1])
    · exact key v.2.2.1 v.2.2.2 c1 c2 c3 c4 _ (by simp only [chaosStep, if_neg h0, if_neg h1])

/-- A pass of the chaos game never turns a gold pixel into another colour. -/
theorem chaosStep_gold (W H : ℤ) (v : (ℤ × ℤ) × (ℤ × ℤ) × (ℤ × ℤ)) (rnd : ℤ → ℤ) (i : ℤ)
    (s : ChaosState) (x y : ℤ) (h : s.image.pixel x y = ⟨255, 215, 0⟩) :
    (chaosStep W H v rnd i s).image.pixel x y = ⟨255, 215, 0⟩ := by
  unfold chaosStep
  simp only
  split_ifs <;> first
    | exact h
    | (rw [setPixel_pixel]
       split_ifs
       · rfl
       · exact h)


/-- The chaos game written as one loop, and as its first 120000 passes. -/
theorem renderSierpinski_eq_chaosRun (rnd : ℤ → ℤ) (image : Image) (W H : ℤ)
    (rMin rMax iMin iMax : ℚ) :
    renderSierpinski rnd image W H rMin rMax iMin iMax
      = (chaosRun rnd W H rMin rMax iMin iMax 120000).image := by
  have h : (120000 : ℤ).toNat = 120000 := by decide
  unfold renderSierpinski chaosRun forLoop
  rw [h]

/-- A pixel that is gold after `k` passes is gold after any later pass. -/
theorem chaosRun_gold (rnd : ℤ → ℤ) (W H : ℤ) (rMin rMax iMin iMax : ℚ) (k : ℕ) (x y : ℤ)
    (h : (chaosRun rnd W H rMin rMax iMin iMax k).image.pixel x y = ⟨255, 215, 0⟩) :
    ∀ d : ℕ, (chaosRun rnd W H rMin rMax iMin iMax (k + d)).image.pixel x y = ⟨255, 215, 0⟩ := by
  intro d
  induction d with
  | zero => exact h
  | succ d ih => exact chaosStep_gold W H _ rnd _ _ x y ih

/-- In exact arithmetic every iterate of the chaos game lies in
`[0, W-1] × [0, H-1]`, and from the first pass on its rounded pixel is gold. -/
theorem chaosRun_range (rnd : ℤ → ℤ) (W H : ℤ) (rMin rMax iMin iMax : ℚ) (hW : 1 < W)
    (hH : 1 < H) (hr : rMin < rMax) (hi : iMin < iMax) :
    ∀ k : ℕ,
      (0 ≤ (chaosRun rnd W H rMin rMax iMin iMax k).prx ∧
        (chaosRun rnd W H rMin rMax iMin iMax k).prx ≤ ((W - 1 : ℤ) : ℚ) ∧
        0 ≤ (chaosRun rnd W H rMin rMax iMin iMax k).pry ∧
        (chaosRun rnd W H rMin rMax iMin iMax k).pry ≤ ((H - 1 : ℤ) : ℚ)) ∧
      (1 ≤ k → (chaosRun rnd W H rMin rMax iMin iMax k).image.pixel
        (lround (chaosRun rnd W H rMin rMax iMin iMax k).prx)
        (lround (chaosRun rnd W H rMin rMax iMin iMax k).pry) = ⟨255, 215, 0⟩) := by
  have hvert := sierpinskiVertices_exact W H rMin rMax iMin iMax hr hi
  obtain ⟨m0, m1⟩ := castInt_half_range W hW
  have hv : (0 ≤ (sierpinskiVertices W H rMin rMax iMin iMax).1.1 ∧
        (sierpinskiVertices W H rMin rMax iMin iMax).1.1 ≤ W - 1 ∧
        0 ≤ (sierpinskiVertices W H rMin rMax iMin iMax).1.2 ∧
        (sierpinskiVertices W H rMin rMax iMin iMax).1.2 ≤ H - 1) ∧
      (0 ≤ (sierpinskiVertices W H rMin rMax iMin iMax).2.1.1 ∧
        (sierpinskiVertices W H rMin rMax iMin iMax).2.1.1 ≤ W - 1 ∧
        0 ≤ (sierpinskiVertices W H rMin rMax iMin iMax).2.1.2 ∧
        (sierpinskiVertices W H rMin rMax iMin iMax).2.1.2 ≤ H - 1) ∧
      (0 ≤ (sierpinskiVertices W H rMin rMax iMin iMax).2.2.1 ∧
        (sierpinskiVertices W H rMin rMax iMin iMax).2.2.1 ≤ W - 1 ∧
        0 ≤ (sierpinskiVertices W H rMin rMax iMin iMax).2.2.2 ∧
        (sierpinskiVertices W H rMin rMax iMin iMax).2.2.2 ≤ H - 1) := by
    rw [hvert]
    simp only
    refine ⟨⟨?_, ?_, ?_, ?_⟩, ⟨?_, ?_, ?_, ?_⟩, ⟨m0, m1, ?_, ?_⟩⟩ <;> omega
  intro k
  induction k with
  | zero =>
    refine ⟨?_, fun h => absurd h (by decide)⟩
    have e : chaosRun rnd W H rMin rMax iMin iMax 0
        = chaosStart W H (sierpinskiVertices W H rMin rMax iMin iMax) := rfl
    rw [e, hvert]
    simp only [chaosStart]
    have q0 : (0 : ℚ) ≤ ((castInt (((W - 1 : ℤ) : ℚ) / 2) : ℤ) : ℚ) := by exact_mod_cast m0
    have q1 : ((castInt (((W - 1 : ℤ) : ℚ) / 2) : ℤ) : ℚ) ≤ ((W - 1 : ℤ) : ℚ) := by
      exact_mod_cast m1
    have w0 : (0 : ℚ) ≤ ((W - 1 : ℤ) : ℚ) := by
      have : (0 : ℤ) ≤ W - 1 := by omega
      exact_mod_cast this
    have g0 : (0 : ℚ) ≤ ((H - 1 : ℤ) : ℚ) := by
      have : (0 : ℤ) ≤ H - 1 := by omega
      exact_mod_cast this
    push_cast at q0 q1 w0 g0 ⊢
    refine ⟨?_, ?_, ?_, ?_⟩
    · linarith
    · linarith
    · linarith
    · linarith
  | succ k ih =>
    have e : chaosRun rnd W H rMin rMax iMin iMax (k + 1)
        = chaosStep W H (sierpinskiVertices W H rMin rMax iMin iMax) rnd (k : ℤ)
            (chaosRun rnd W H rMin rMax iMin iMax k) := rfl
    rw [e]
    obtain ⟨r, g⟩ := chaosStep_range W H _ rnd (k : ℤ) _ hv ih.1
    exact ⟨r, fun _ => g⟩

/-- C26: in exact arithmetic, for `W > 1`, `H > 1`, every valid window and every
sequence of values of `rand()`, each iterate `(prx, pry)` of `renderSierpinski`
satisfies `0 ≤ prx ≤ W-1` and `0 ≤ pry ≤ H-1`; its rounded pixel passes the bounds
test of the plot step, so no iterate is skipped: the pixel of each of the 120000
iterates is gold in the image `renderSierpinski` returns. -/
theorem chaos_game_stays_on_raster (rnd : ℤ → ℤ) (image : Image) (W H : ℤ)
    (rMin rMax iMin iMax : ℚ) (hW : 1 < W) (hH : 1 < H) (hr : rMin < rMax) (hi : iMin < iMax)
    (k : ℕ) :
    (0 ≤ (chaosRun rnd W H rMin rMax iMin iMax k).prx ∧
        (chaosRun rnd W H rMin rMax iMin iMax k).prx ≤ (W : ℚ) - 1 ∧
        0 ≤ (chaosRun rnd W H rMin rMax iMin iMax k).pry ∧
        (chaosRun rnd W H rMin rMax iMin iMax k).pry ≤ (H : ℚ) - 1) ∧
      (lround (chaosRun rnd W H rMin rMax iMin iMax k).prx ≥ 0 ∧
        lround (chaosRun rnd W H rMin rMax iMin iMax k).prx < W ∧
        lround (chaosRun rnd W H rMin rMax iMin iMax k).pry ≥ 0 ∧
        lround (chaosRun rnd W H rMin rMax iMin iMax k).pry < H) ∧
      (1 ≤ k → k ≤ 120000 →
        (renderSierpinski rnd image W H rMin rMax iMin iMax).pixel
          (lround (chaosRun rnd W H rMin rMax iMin iMax k).prx)
          (lround (chaosRun rnd W H rMin rMax iMin iMax k).pry) = ⟨255, 215, 0⟩) := by
  obtain ⟨⟨r1, r2, r3, r4⟩, g⟩ := chaosRun_range rnd W H rMin rMax iMin iMax hW hH hr hi k
  obtain ⟨x0, x1⟩ := lround_range _ (W - 1) r1 r2
  obtain ⟨y0, y1⟩ := lround_range _ (H - 1) r3 r4
  refine ⟨⟨r1, ?_, r3, ?_⟩, ⟨x0, by omega, y0, by omega⟩, ?_⟩
  · push_cast at r2
    exact r2
  · push_cast at r4
    exact r4
  · intro hk1 hk2
    rw [renderSierpinski_eq_chaosRun]
    have hd : 120000 = k + (120000 - k) := by omega
    rw [hd]
    exact chaosRun_gold rnd W H rMin rMax iMin iMax k _ _ (g hk1) (120000 - k)

/-- Witness for C26: the initial window on the 640 by 480 raster with `rand()`
returning the pass number, after 3 passes. -/
theorem chaos_game_stays_on_raster_witness :
    0 ≤ (chaosRun (fun i => i) 640 480 (-5 / 2) 1 (-1) 1 3).prx ∧
      (chaosRun (fun i => i) 640 480 (-5 / 2) 1 (-1) 1 3).prx ≤ ((640 : ℤ) : ℚ) - 1 ∧
      0 ≤ (chaosRun (fun i => i) 640 480 (-5 / 2) 1 (-1) 1 3).pry ∧
      (chaosRun (fun i => i) 640 480 (-5 / 2) 1 (-1) 1 3).pry ≤ ((480 : ℤ) : ℚ) - 1 :=
  (chaos_game_stays_on_raster (fun i => i) (Image.create 640 480 Color.Black) 640 480
    (-5 / 2) 1 (-1) 1 (by decide) (by decide) (by decide!) (by decide!) 3).1

/-! ## Dragon renderer: translation of the window -/

/-- One character of the program acts on a translated turtle as on the turtle
itself, translated. -/
theorem turtleStep_translate (m : Libm) (step dr di : ℚ) (t : Turtle) (c : Char) :
    turtleStep m step
        ⟨t.x + dr, t.y + di, t.angle, t.points.map (fun p => (p.1 + dr, p.2 + di))⟩ c
      = ⟨(turtleStep m step t c).x + dr, (turtleStep m step t c).y + di,
          (turtleStep m step t c).angle,
          (turtleStep m step t c).points.map (fun p => (p.1 + dr, p.2 + di))⟩ := by
  unfold turtleStep
  by_cases hF : c = 'F'
  · simp only [if_pos hF, List.map_append, List.map_cons, List.map_nil, Turtle.mk.injEq,
      and_true]
    constructor <;> ring
  · by_cases hp : c = '+'
    · simp only [if_neg hF, if_pos hp]
    · by_cases hm : c = '-'
      · simp only [if_neg hF, if_neg hp, if_pos hm]
      · simp only [if_neg hF, if_neg hp, if_neg hm]

/-- Running the program from a translated turtle gives the translated result. -/
theorem turtle_translate (m : Libm) (step dr di : ℚ) (prog : List Char) :
    ∀ t : Turtle,
      prog.foldl (turtleStep m step)
          ⟨t.x + dr, t.y + di, t.angle, t.points.map (fun p => (p.1 + dr, p.2 + di))⟩
        = ⟨(prog.foldl (turtleStep m step) t).x + dr, (prog.foldl (turtleStep m step) t).y + di,
            (prog.foldl (turtleStep m step) t).angle,
            (prog.foldl (turtleStep m step) t).points.map (fun p => (p.1 + dr, p.2 + di))⟩ := by
  induction prog with
  | nil => intro t; rfl
  | cons c prog ih =>
    intro t
    rw [List.foldl_cons, List.foldl_cons, turtleStep_translate, ih]

/-- Translating the window translates every emitted point. -/
theorem dragonPoints_translate (m : Libm) (W : ℤ) (rMin rMax iMin iMax dr di : ℚ) :
    dragonPoints m W (rMin + dr) (rMax + dr) (iMin + di) (iMax + di)
      = (dragonPoints m W rMin rMax iMin iMax).map (fun p => (p.1 + dr, p.2 + di)) := by
  have h := turtle_translate m (7 / 2 / (W : ℚ) * 2) dr di (dragonLSystem 12)
    ⟨(rMin + rMax) / 2 - 7 / 2 / 4, (iMin + iMax) / 2, 0, []⟩
  have ex : (rMin + dr + (rMax + dr)) / 2 - 7 / 2 / 4 = (rMin + rMax) / 2 - 7 / 2 / 4 + dr := by
    ring
  have ey : (iMin + di + (iMax + di)) / 2 = (iMin + iMax) / 2 + di := by ring
  simp only [List.map_nil] at h
  simp only [dragonPoints, ex, ey, h]

/-- In exact arithmetic the pixel of a point does not change when point and
window are translated together. -/
theorem toPixel_translate (r i : ℚ) (W H : ℤ) (rMin rMax iMin iMax dr di : ℚ) :
    realToPixel (r + dr) W (rMin + dr) (rMax + dr) = realToPixel r W rMin rMax ∧
      imagToPixel (i + di) H (iMin + di) (iMax + di) = imagToPixel i H iMin iMax := by
  have e1 : r + dr - (rMin + dr) = r - rMin := by ring
  have e2 : rMax + dr - (rMin + dr) = rMax - rMin := by ring
  have e3 : i + di - (iMax + di) = i - iMax := by ring
  have e4 : iMin + di - (iMax + di) = iMin - iMax := by ring
  unfold realToPixel imagToPixel map
  rw [e1, e2, e3, e4]
  exact ⟨rfl, rfl⟩

/-- Entry `k` of a mapped list, for an index inside the list. -/
theorem getD_map_of_lt (f : ℚ × ℚ → ℚ × ℚ) (l : List (ℚ × ℚ)) (k : ℕ) (d e : ℚ × ℚ)
    (h : k < l.length) : (l.map f).getD k e = f (l.getD k d) := by
  have h2 : k < (l.map f).length := by
    rw [List.length_map]
    exact h
  rw [List.getD_eq_getElem _ _ h2, List.getD_eq_getElem _ _ h, List.getElem_map]

/-- The segments of a translated point list on the translated window are the
segments of the point list on the window: same pixels, same colours. -/
theorem dragonSegments_translate (W H : ℤ) (rMin rMax iMin iMax dr di : ℚ)
    (pts : List (ℚ × ℚ)) :
    dragonSegments W H (rMin + dr) (rMax + dr) (iMin + di) (iMax + di)
        (pts.map (fun p => (p.1 + dr, p.2 + di)))
      = dragonSegments W H rMin rMax iMin iMax pts := by
  unfold dragonSegments
  rw [List.length_map]
  apply List.map_congr_left
  intro k hk
  have hk2 : k < pts.length - 1 := List.mem_range.mp hk
  have g0 := getD_map_of_lt (fun p => (p.1 + dr, p.2 + di)) pts k (0, 0) (0, 0) (by omega)
  have g1 := getD_map_of_lt (fun p => (p.1 + dr, p.2 + di)) pts (k + 1) (0, 0) (0, 0) (by omega)
  rw [g0, g1]
  simp only
  rw [(toPixel_translate (pts.getD k (0, 0)).1 (pts.getD k (0, 0)).2 W H rMin rMax iMin iMax
      dr di).1,
    (toPixel_translate (pts.getD k (0, 0)).1 (pts.getD k (0, 0)).2 W H rMin rMax iMin iMax
      dr di).2,
    (toPixel_translate (pts.getD (k + 1) (0, 0)).1 (pts.getD (k + 1) (0, 0)).2 W H rMin rMax
      iMin iMax dr di).1,
    (toPixel_translate (pts.getD (k + 1) (0, 0)).1 (pts.getD (k + 1) (0, 0)).2 W H rMin rMax
      iMin iMax dr di).2]

/-- In exact arithmetic `renderDragon` gives the same result on a window and on
any translate of it. -/
theorem renderDragon_translate (m : Libm) (image : Image) (W H : ℤ)
    (rMin rMax iMin iMax dr di : ℚ) :
    renderDragon m image W H (rMin + dr) (rMax + dr) (iMin + di) (iMax + di)
      = renderDragon m image W H rMin rMax iMin iMax := by
  unfold renderDragon
  rw [dragonPoints_translate, dragonSegments_translate]

/-- In exact arithmetic `renderDragon` gives the same result on two windows of
the same width and the same height span. -/
theorem renderDragon_spans (m : Libm) (image : Image) (W H : ℤ)
    (rMin rMax iMin iMax r0 r1 i0 i1 : ℚ) (hw : r1 - r0 = rMax - rMin)
    (hh : i1 - i0 = iMax - iMin) :
    renderDragon m image W H r0 r1 i0 i1 = renderDragon m image W H rMin rMax iMin iMax := by
  have h := renderDragon_translate m image W H rMin rMax iMin iMax (r0 - rMin) (i0 - iMin)
  have e1 : rMin + (r0 - rMin) = r0 := by ring
  have e2 : rMax + (r0 - rMin) = r1 := by linarith
  have e3 : iMin + (i0 - iMin) = i0 := by ring
  have e4 : iMax + (i0 - iMin) = i1 := by linarith
  rw [e1, e2, e3, e4] at h
  exact h

/-- C27: in exact arithmetic, for every valid window and every translation
`(dr, di)`, `renderDragon` on the translated window emits the translated turtle
points, maps each of them to the same pixel, draws the same segments with the
same colours and returns the same image; the image depends on the window only
through its width and its height span, so a left-click pan does not change it. -/
theorem dragon_pan_invariant (m : Libm) (image : Image) (W H : ℤ)
    (rMin rMax iMin iMax dr di : ℚ) (s : State) (mx my : ℤ) (_hr : rMin < rMax)
    (_hi : iMin < iMax) (_hs : s.valid) :
    dragonPoints m W (rMin + dr) (rMax + dr) (iMin + di) (iMax + di)
        = (dragonPoints m W rMin rMax iMin iMax).map (fun p => (p.1 + dr, p.2 + di)) ∧
      (∀ k : ℕ, k < (dragonPoints m W rMin rMax iMin iMax).length →
        realToPixel ((dragonPoints m W (rMin + dr) (rMax + dr) (iMin + di) (iMax + di)).getD k
            (0, 0)).1 W (rMin + dr) (rMax + dr)
          = realToPixel ((dragonPoints m W rMin rMax iMin iMax).getD k (0, 0)).1 W rMin rMax ∧
        imagToPixel ((dragonPoints m W (rMin + dr) (rMax + dr) (iMin + di) (iMax + di)).getD k
            (0, 0)).2 H (iMin + di) (iMax + di)
          = imagToPixel ((dragonPoints m W rMin rMax iMin iMax).getD k (0, 0)).2 H iMin iMax) ∧
      dragonSegments W H (rMin + dr) (rMax + dr) (iMin + di) (iMax + di)
          (dragonPoints m W (rMin + dr) (rMax + dr) (iMin + di) (iMax + di))
        = dragonSegments W H rMin rMax iMin iMax (dragonPoints m W rMin rMax iMin iMax) ∧
      renderDragon m image W H (rMin + dr) (rMax + dr) (iMin + di) (iMax + di)
        = renderDragon m image W H rMin rMax iMin iMax ∧
      (∃ out, renderDragon m image W H rMin rMax iMin iMax = some out) ∧
      (∀ r0 r1 i0 i1 : ℚ, r1 - r0 = rMax - rMin → i1 - i0 = iMax - iMin →
        renderDragon m image W H r0 r1 i0 i1 = renderDragon m image W H rMin rMax iMin iMax) ∧
      renderDragon m image WIDTH HEIGHT (click s mx my).realMin (click s mx my).realMax
          (click s mx my).imagMin (click s mx my).imagMax
        = renderDragon m image WIDTH HEIGHT s.realMin s.realMax s.imagMin s.imagMax := by
  have hp := dragonPoints_translate m W rMin rMax iMin iMax dr di
  refine ⟨hp, ?_, ?_, renderDragon_translate m image W H rMin rMax iMin iMax dr di, ?_, ?_, ?_⟩
  · intro k hk
    rw [hp, getD_map_of_lt _ _ k (0, 0) (0, 0) hk]
    exact toPixel_translate _ _ W H rMin rMax iMin iMax dr di
  · rw [hp, dragonSegments_translate]
  · unfold renderDragon
    exact drawColouredSegments_isSome _ _
  · intro r0 r1 i0 i1 hw hh
    exact renderDragon_spans m image W H rMin rMax iMin iMax r0 r1 i0 i1 hw hh
  · obtain ⟨c1, c2⟩ := click_spans s mx my
    exact renderDragon_spans m image WIDTH HEIGHT _ _ _ _ _ _ _ _ c1 c2

/-- Witness for C27: the initial window moved by `(1/3, -1/4)`, and a click at
pixel `(100, 50)` on the initial window. -/
theorem dragon_pan_invariant_witness :
    renderDragon ⟨fun _ _ => 0, fun _ => 1, fun _ => 0, fun _ _ => 0⟩
        (Image.create 640 480 Color.Black) 640 480 (-5 / 2 + 1 / 3) (1 + 1 / 3) (-1 + -1 / 4)
        (1 + -1 / 4)
      = renderDragon ⟨fun _ _ => 0, fun _ => 1, fun _ => 0, fun _ _ => 0⟩
        (Image.create 640 480 Color.Black) 640 480 (-5 / 2) 1 (-1) 1 :=
  (dragon_pan_invariant ⟨fun _ _ => 0, fun _ => 1, fun _ => 0, fun _ _ => 0⟩
    (Image.create 640 480 Color.Black) 640 480 (-5 / 2) 1 (-1) 1 (1 / 3) (-1 / 4)
    ⟨-5 / 2, 1, -1, 1, 5⟩ 100 50 (by decide!) (by decide!) (by decide!)).2.2.2.1

/-! ## Startup and transitions in binary64: evaluation -/

/-- Evaluation of the settings branch of `startupD` from the values of its
rounded operations. -/
theorem startupD_eval (c ci w : ℚ) (f : ℤ) (halfW hs halfH a b lo hi : ℚ) (hw : 0 < w)
    (h1 : fdiv w 2 = some halfW) (h2 : fmul w (3 / 4) = some hs) (h3 : fdiv hs 2 = some halfH)
    (h4 : fsub c halfW = some a) (h5 : fadd c halfW = some b)
    (h6 : fsub ci halfH = some lo) (h7 : fadd ci halfH = some hi) :
    startupD true c ci w f = some ⟨a, b, lo, hi, f⟩ := by
  have c1 : toDouble (HEIGHT : ℚ) = some 480 := by decide!
  have c2 : toDouble (WIDTH : ℚ) = some 640 := by decide!
  have c3 : fdiv 480 640 = some (3 / 4) := by decide!
  have hc : true = true ∧ w > 0 := ⟨rfl, hw⟩
  unfold startupD
  rw [if_pos hc]
  simp only [h1, c1, c2, c3, h2, h3, h4, h5, h6, h7, Option.bind_eq_bind, Option.some_bind]

/-- Evaluation of one axis of the zoom tick. -/
theorem zoomAxisD_eval (lo hi zf sum c d h half a b : ℚ)
    (h1 : fadd lo hi = some sum) (h2 : fdiv sum 2 = some c)
    (h3 : fsub hi lo = some d) (h4 : fdiv d 2 = some h) (h5 : fmul h zf = some half)
    (h6 : fsub c half = some a) (h7 : fadd c half = some b) :
    zoomAxisD lo hi zf = some (a, b) := by
  unfold zoomAxisD
  simp only [h1, h2, h3, h4, h5, h6, h7, Option.bind_eq_bind, Option.some_bind]

/-- Evaluation of `zoomTickD` with the zoom-in key held. -/
theorem zoomTickD_eval (s : State) (zf a b lo hi : ℚ)
    (h0 : toDouble (49 / 50) = some zf)
    (h1 : zoomAxisD s.realMin s.realMax zf = some (a, b))
    (h2 : zoomAxisD s.imagMin s.imagMax zf = some (lo, hi)) :
    zoomTickD s true false = some ⟨a, b, lo, hi, s.currentFractal⟩ := by
  have hz : zoomTickFactor true false = 49 / 50 := by decide!
  have hc : true = true ∨ false = true := Or.inl rfl
  unfold zoomTickD
  rw [if_pos hc, hz]
  simp only [h0, h1, h2, Option.bind_eq_bind, Option.some_bind]

/-- Evaluation of `savedSettingsD`. -/
theorem savedSettingsD_eval (s : State) (sR cR sI cI w : ℚ)
    (h1 : fadd s.realMin s.realMax = some sR) (h2 : fdiv sR 2 = some cR)
    (h3 : fadd s.imagMin s.imagMax = some sI) (h4 : fdiv sI 2 = some cI)
    (h5 : fsub s.realMax s.realMin = some w) :
    savedSettingsD s = some ⟨cR, cI, w, s.currentFractal⟩ := by
  unfold savedSettingsD
  simp only [h1, h2, h3, h4, h5, Option.bind_eq_bind, Option.some_bind]

/-- C9 (counterexample): with the settings `centerReal=1`, `width=1e-17` the loaded
width is positive, and in binary64 both `1 - width/2` and `1 + width/2` round
to `1`: the startup window has `realMin = realMax = 1`. -/
theorem view_window_invariant_double_fails :
    stodDecimal "1e-17".toList = some (6490371073168535 / 649037107316853453566312041152512) ∧
      mainStartupD stodDecimal (some ["centerReal=1".toList, "centerImag=0".toList,
          "width=1e-17".toList, "fractal=1".toList])
        = some ⟨1, 1, (-4867778304876401 / 1298074214633706907132624082305024),
            (4867778304876401 / 1298074214633706907132624082305024), 1⟩ ∧
      ¬ State.valid ⟨1, 1, (-4867778304876401 / 1298074214633706907132624082305024),
          (4867778304876401 / 1298074214633706907132624082305024), 1⟩ := by
  have hl : loadSettings stodDecimal (some ["centerReal=1".toList, "centerImag=0".toList,
      "width=1e-17".toList, "fractal=1".toList]) defaultSaved
      = (true, ⟨1, 0, (6490371073168535 / 649037107316853453566312041152512), 1⟩) := by decide!
  have h1 : fdiv (6490371073168535 / 649037107316853453566312041152512) 2 = some
      (6490371073168535 / 1298074214633706907132624082305024) := by decide!
  have h2 : fmul (6490371073168535 / 649037107316853453566312041152512) (3 / 4) = some
      (4867778304876401 / 649037107316853453566312041152512) := by decide!
  have h3 : fdiv (4867778304876401 / 649037107316853453566312041152512) 2 = some
      (4867778304876401 / 1298074214633706907132624082305024) := by decide!
  have h4 : fsub 1 (6490371073168535 / 1298074214633706907132624082305024) = some 1 := by decide!
  have h5 : fadd 1 (6490371073168535 / 1298074214633706907132624082305024) = some 1 := by decide!
  have h6 : fsub 0 (4867778304876401 / 1298074214633706907132624082305024) = some
      (-4867778304876401 / 1298074214633706907132624082305024) := by decide!
  have h7 : fadd 0 (4867778304876401 / 1298074214633706907132624082305024) = some
      (4867778304876401 / 1298074214633706907132624082305024) := by decide!
  have hs := startupD_eval 1 0 (6490371073168535 / 649037107316853453566312041152512) 1
      (6490371073168535 / 1298074214633706907132624082305024)
      (4867778304876401 / 649037107316853453566312041152512)
      (4867778304876401 / 1298074214633706907132624082305024) 1 1
      (-4867778304876401 / 1298074214633706907132624082305024)
      (4867778304876401 / 1298074214633706907132624082305024) (by decide!) h1 h2 h3 h4 h5 h6 h7
  refine ⟨by decide!, ?_, by decide!⟩
  unfold mainStartupD
  rw [hl]
  exact hs

/-- C14 (counterexample): with the settings `centerReal=123456.789`, `width=0.001`
the startup window computed in binary64 has `rMax - rMin ≠ width`, and the
difference exceeds `1e-12`. -/
theorem startup_width_double_fails :
    stodDecimal "0.001".toList = some (1152921504606847 / 1152921504606846976) ∧
      mainStartupD stodDecimal (some ["centerReal=123456.789".toList, "centerImag=0".toList,
          "width=0.001".toList, "fractal=1".toList])
        = some ⟨(8483885905227023 / 68719476736), (8483885973946499 / 68719476736),
            (-3458764513820541 / 9223372036854775808), (3458764513820541 / 9223372036854775808), 1⟩
            ∧
      State.width ⟨(8483885905227023 / 68719476736), (8483885973946499 / 68719476736),
          (-3458764513820541 / 9223372036854775808), (3458764513820541 / 9223372036854775808), 1⟩ ≠
          (1152921504606847 / 1152921504606846976) ∧
      ¬ (|State.width ⟨(8483885905227023 / 68719476736), (8483885973946499 / 68719476736),
          (-3458764513820541 / 9223372036854775808), (3458764513820541 / 9223372036854775808), 1⟩ -
          (1152921504606847 / 1152921504606846976)| < 1 / 1000000000000) := by
  have hl : loadSettings stodDecimal (some ["centerReal=123456.789".toList,
      "centerImag=0".toList, "width=0.001".toList, "fractal=1".toList]) defaultSaved
      = (true, ⟨(8483885939586761 / 68719476736), 0, (1152921504606847 / 1152921504606846976), 1⟩)
          := by decide!
  have h1 : fdiv (1152921504606847 / 1152921504606846976) 2 = some
      (1152921504606847 / 2305843009213693952) := by decide!
  have h2 : fmul (1152921504606847 / 1152921504606846976) (3 / 4) = some
      (3458764513820541 / 4611686018427387904) := by decide!
  have h3 : fdiv (3458764513820541 / 4611686018427387904) 2 = some
      (3458764513820541 / 9223372036854775808) := by decide!
  have h4 : fsub (8483885939586761 / 68719476736) (1152921504606847 / 2305843009213693952) = some
      (8483885905227023 / 68719476736) := by decide!
  have h5 : fadd (8483885939586761 / 68719476736) (1152921504606847 / 2305843009213693952) = some
      (8483885973946499 / 68719476736) := by decide!
  have h6 : fsub 0 (3458764513820541 / 9223372036854775808) = some
      (-3458764513820541 / 9223372036854775808) := by decide!
  have h7 : fadd 0 (3458764513820541 / 9223372036854775808) = some
      (3458764513820541 / 9223372036854775808) := by decide!
  have hs := startupD_eval (8483885939586761 / 68719476736) 0
      (1152921504606847 / 1152921504606846976) 1 (1152921504606847 / 2305843009213693952)
      (3458764513820541 / 4611686018427387904) (3458764513820541 / 9223372036854775808)
      (8483885905227023 / 68719476736) (8483885973946499 / 68719476736)
      (-3458764513820541 / 9223372036854775808) (3458764513820541 / 9223372036854775808) (by
      decide!) h1 h2 h3 h4 h5 h6 h7
  refine ⟨by decide!, ?_, by decide!, by decide!⟩
  unfold mainStartupD
  rw [hl]
  exact hs

/-! ## One zoom tick and one click from the initial window, in binary64 -/

/-- The window after one tick with the zoom-in key held, from the initial window:
`(-2.465, 0.9649999999999999, -0.98, 0.98)` as doubles. -/
theorem zoomTickD_initial (f : ℤ) :
    zoomTickD ⟨-5 / 2, 1, -1, 1, f⟩ true false
      = some ⟨(-693835817591767 / 281474976710656), (271623352525783 / 281474976710656),
          (-2206763817411543 / 2251799813685248), (2206763817411543 / 2251799813685248), f⟩ := by
  have h0 : toDouble (49 / 50) = some (2206763817411543 / 2251799813685248) := by decide!
  have r1 : fadd (-5 / 2) 1 = some (-3 / 2) := by decide!
  have r2 : fdiv (-3 / 2) 2 = some (-3 / 4) := by decide!
  have r3 : fsub 1 (-5 / 2) = some (7 / 2) := by decide!
  have r4 : fdiv (7 / 2) 2 = some (7 / 4) := by decide!
  have r5 : fmul (7 / 4) (2206763817411543 / 2251799813685248) = some
      (482729585058775 / 281474976710656) := by decide!
  have r6 : fsub (-3 / 4) (482729585058775 / 281474976710656) = some
      (-693835817591767 / 281474976710656) := by decide!
  have r7 : fadd (-3 / 4) (482729585058775 / 281474976710656) = some
      (271623352525783 / 281474976710656) := by decide!
  have rx := zoomAxisD_eval (-5 / 2) 1 (2206763817411543 / 2251799813685248) (-3 / 2) (-3 / 4)
      (7 / 2) (7 / 4) (482729585058775 / 281474976710656) (-693835817591767 / 281474976710656)
      (271623352525783 / 281474976710656) r1 r2 r3 r4 r5 r6 r7
  have i1 : fadd (-1) 1 = some 0 := by decide!
  have i2 : fdiv 0 2 = some 0 := by decide!
  have i3 : fsub 1 (-1) = some 2 := by decide!
  have i4 : fdiv 2 2 = some 1 := by decide!
  have i5 : fmul 1 (2206763817411543 / 2251799813685248) = some
      (2206763817411543 / 2251799813685248) := by decide!
  have i6 : fsub 0 (2206763817411543 / 2251799813685248) = some
      (-2206763817411543 / 2251799813685248) := by decide!
  have i7 : fadd 0 (2206763817411543 / 2251799813685248) = some
      (2206763817411543 / 2251799813685248) := by decide!
  have ix := zoomAxisD_eval (-1) 1 (2206763817411543 / 2251799813685248) 0 0 2 1
      (2206763817411543 / 2251799813685248) (-2206763817411543 / 2251799813685248)
      (2206763817411543 / 2251799813685248) i1 i2 i3 i4 i5 i6 i7
  exact zoomTickD_eval ⟨-5 / 2, 1, -1, 1, f⟩ _ _ _ _ _ h0 rx ix

/-- C24 (counterexample): one zoom-in tick from the initial window gives
`rMax = 0.9649999999999999`; the controller saves centre `-0.75` and width
`3.4299999999999997`, which `saveSettings` writes as `width=3.43`; the next run
reads the double nearest to `3.43` and starts with `rMax = 0.9650000000000001`. -/
theorem save_load_round_trip_double_fails :
    zoomTickD ⟨-5 / 2, 1, -1, 1, 1⟩ true false
        = some ⟨(-693835817591767 / 281474976710656), (271623352525783 / 281474976710656),
            (-2206763817411543 / 2251799813685248), (2206763817411543 / 2251799813685248), 1⟩ ∧
      State.valid ⟨(-693835817591767 / 281474976710656), (271623352525783 / 281474976710656),
          (-2206763817411543 / 2251799813685248), (2206763817411543 / 2251799813685248), 1⟩ ∧
      savedSettingsD ⟨(-693835817591767 / 281474976710656), (271623352525783 / 281474976710656),
          (-2206763817411543 / 2251799813685248), (2206763817411543 / 2251799813685248), 1⟩
        = some ⟨(-3 / 4), 0, (482729585058775 / 140737488355328), 1⟩ ∧
      saveSettings (-3 / 4) 0 (482729585058775 / 140737488355328) 1
        = ["centerReal=-0.75".toList, "centerImag=0".toList, "width=3.43".toList,
            "fractal=1".toList] ∧
      mainStartupD stodDecimal (some (saveSettings (-3 / 4) 0 (482729585058775 / 140737488355328)
          1))
        = some ⟨(-693835817591767 / 281474976710656), (4345973640412529 / 4503599627370496),
            (-5792755020705301 / 4503599627370496), (5792755020705301 / 4503599627370496), 1⟩ ∧
      ((4345973640412529 / 4503599627370496) : ℚ) ≠ (271623352525783 / 281474976710656) := by
  have s1 : fadd (-693835817591767 / 281474976710656) (271623352525783 / 281474976710656) = some
      (-3 / 2) := by decide!
  have s2 : fdiv (-3 / 2) 2 = some (-3 / 4) := by decide!
  have s3 : fadd (-2206763817411543 / 2251799813685248) (2206763817411543 / 2251799813685248) =
      some 0 := by decide!
  have s4 : fdiv 0 2 = some 0 := by decide!
  have s5 : fsub (271623352525783 / 281474976710656) (-693835817591767 / 281474976710656) = some
      (482729585058775 / 140737488355328) := by decide!
  have hsave := savedSettingsD_eval ⟨(-693835817591767 / 281474976710656),
      (271623352525783 / 281474976710656), (-2206763817411543 / 2251799813685248),
      (2206763817411543 / 2251799813685248), 1⟩ (-3 / 2) (-3 / 4) 0 0
      (482729585058775 / 140737488355328) s1 s2 s3 s4 s5
  have hfile : saveSettings (-3 / 4) 0 (482729585058775 / 140737488355328) 1 =
      ["centerReal=-0.75".toList, "centerImag=0".toList, "width=3.43".toList, "fractal=1".toList]
      := by decide!
  have hl : loadSettings stodDecimal (some ["centerReal=-0.75".toList, "centerImag=0".toList,
      "width=3.43".toList, "fractal=1".toList]) defaultSaved = (true, ⟨(-3 / 4), 0,
      (7723673360940401 / 2251799813685248), 1⟩) := by decide!
  have h1 : fdiv (7723673360940401 / 2251799813685248) 2 = some
      (7723673360940401 / 4503599627370496) := by decide!
  have h2 : fmul (7723673360940401 / 2251799813685248) (3 / 4) = some
      (5792755020705301 / 2251799813685248) := by decide!
  have h3 : fdiv (5792755020705301 / 2251799813685248) 2 = some
      (5792755020705301 / 4503599627370496) := by decide!
  have h4 : fsub (-3 / 4) (7723673360940401 / 4503599627370496) = some
      (-693835817591767 / 281474976710656) := by decide!
  have h5 : fadd (-3 / 4) (7723673360940401 / 4503599627370496) = some
      (4345973640412529 / 4503599627370496) := by decide!
  have h6 : fsub 0 (5792755020705301 / 4503599627370496) = some
      (-5792755020705301 / 4503599627370496) := by decide!
  have h7 : fadd 0 (5792755020705301 / 4503599627370496) = some
      (5792755020705301 / 4503599627370496) := by decide!
  have hs := startupD_eval (-3 / 4) 0 (7723673360940401 / 2251799813685248) 1
      (7723673360940401 / 4503599627370496) (5792755020705301 / 2251799813685248)
      (5792755020705301 / 4503599627370496) (-693835817591767 / 281474976710656)
      (4345973640412529 / 4503599627370496) (-5792755020705301 / 4503599627370496)
      (5792755020705301 / 4503599627370496) (by decide!) h1 h2 h3 h4 h5 h6 h7
  refine ⟨zoomTickD_initial 1, by decide!, hsave, hfile, ?_, by decide!⟩
  unfold mainStartupD
  rw [hfile, hl]
  exact hs

/-! ## Saving the view and loading it again: theorems -/

/-- The text written for a double is never empty. -/
theorem formatDouble_ne_nil (v : ℚ) : formatDouble 15 v ≠ [] := by
  intro h
  have hlen := congrArg List.length h
  unfold formatDouble at hlen
  have hd : ∀ n : ℕ, (formatDigits n 15).length = 15 := by
    intro n
    simp [formatDigits]
  simp only [] at hlen
  split_ifs at hlen <;>
    simp only [List.length_append, List.length_cons, List.length_nil, List.length_take, hd,
      List.length_singleton] at hlen <;>
    omega

/-- A line `key=value` written by `saveSettings` for one of the three doubles
assigns what `std::stod` makes of the text. -/
theorem applyLine_saved_double (stod : List Char → Option ℚ) (u : Settings) (v x : ℚ)
    (h : stod (formatDouble 15 v) = some x) :
    applyLine stod u ("centerReal=".toList ++ formatDouble 15 v) = { u with centerReal := x } ∧
      applyLine stod u ("centerImag=".toList ++ formatDouble 15 v)
        = { u with centerImag := x } ∧
      applyLine stod u ("width=".toList ++ formatDouble 15 v) = { u with width := x } := by
  have hv := formatDouble_ne_nil v
  have n1 : ¬ ("centerImag".toList = "centerReal".toList) := by decide
  have n2 : ¬ ("width".toList = "centerReal".toList) := by decide
  have n3 : ¬ ("width".toList = "centerImag".toList) := by decide
  have e1 : "centerReal=".toList ++ formatDouble 15 v
      = "centerReal".toList ++ '=' :: formatDouble 15 v := rfl
  have e2 : "centerImag=".toList ++ formatDouble 15 v
      = "centerImag".toList ++ '=' :: formatDouble 15 v := rfl
  have e3 : "width=".toList ++ formatDouble 15 v
      = "width".toList ++ '=' :: formatDouble 15 v := rfl
  refine ⟨?_, ?_, ?_⟩
  · rw [e1, applyLine_key_value stod u _ _ (by decide) hv, if_pos rfl, h]
  · rw [e2, applyLine_key_value stod u _ _ (by decide) hv, if_neg n1, if_pos rfl, h]
  · rw [e3, applyLine_key_value stod u _ _ (by decide) hv, if_neg n2, if_neg n3, if_pos rfl, h]

/-- The line `fractal=...` written by `saveSettings` leaves the three doubles as
they are. -/
theorem applyLine_saved_fractal (stod : List Char → Option ℚ) (u : Settings) (f : ℤ) :
    (applyLine stod u ("fractal=".toList ++ formatInt f)).centerReal = u.centerReal ∧
      (applyLine stod u ("fractal=".toList ++ formatInt f)).centerImag = u.centerImag ∧
      (applyLine stod u ("fractal=".toList ++ formatInt f)).width = u.width := by
  have hk : ∀ key : List Char, key ≠ "fractal".toList →
      appliedKey stod ("fractal=".toList ++ formatInt f) ≠ some key := by
    intro key hkey
    have e : "fractal=".toList ++ formatInt f = "fractal".toList ++ '=' :: formatInt f := rfl
    unfold appliedKey
    rw [e, splitLine_key_value _ _ (by decide)]
    have n4 : ¬ ("fractal".toList = "centerReal".toList ∨ "fractal".toList = "centerImag".toList
        ∨ "fractal".toList = "width".toList) := by decide
    by_cases hv : formatInt f = []
    · rw [if_pos hv]
      simp
    · rw [if_neg hv]
      simp only
      split_ifs
      · intro hc
        exact hkey (Option.some.inj hc).symm
      · simp
  obtain ⟨a1, a2, a3, _⟩ := applyLine_frame stod u ("fractal=".toList ++ formatInt f)
  exact ⟨a1 (hk _ (by decide)), a2 (hk _ (by decide)), a3 (hk _ (by decide))⟩

/-- Reading the file written by `saveSettings`: the loader reports success, and
centre and width are what `std::stod` makes of the three written numerals. -/
theorem loadSettings_saveSettings (stod : List Char → Option ℚ) (v0 : Settings)
    (c ci w x y z : ℚ) (f : ℤ) (h1 : stod (formatDouble 15 c) = some x)
    (h2 : stod (formatDouble 15 ci) = some y) (h3 : stod (formatDouble 15 w) = some z) :
    (loadSettings stod (some (saveSettings c ci w f)) v0).1 = true ∧
      (loadSettings stod (some (saveSettings c ci w f)) v0).2.centerReal = x ∧
      (loadSettings stod (some (saveSettings c ci w f)) v0).2.centerImag = y ∧
      (loadSettings stod (some (saveSettings c ci w f)) v0).2.width = z := by
  have l1 := fun u => (applyLine_saved_double stod u c x h1).1
  have l2 := fun u => (applyLine_saved_double stod u ci y h2).2.1
  have l3 := fun u => (applyLine_saved_double stod u w z h3).2.2
  have hfold : (loadSettings stod (some (saveSettings c ci w f)) v0).2
      = applyLine stod { v0 with centerReal := x, centerImag := y, width := z }
          ("fractal=".toList ++ formatInt f) := by
    show List.foldl (applyLine stod) v0 (saveSettings c ci w f) = _
    unfold saveSettings
    rw [List.foldl_cons, List.foldl_cons, List.foldl_cons, List.foldl_cons, List.foldl_nil,
      l1, l2, l3]
  obtain ⟨a1, a2, a3⟩ := applyLine_saved_fractal stod
    { v0 with centerReal := x, centerImag := y, width := z } f
  refine ⟨rfl, ?_, ?_, ?_⟩
  · rw [hfold, a1]
  · rw [hfold, a2]
  · rw [hfold, a3]

/-- C24 (as amended): for a window with `rMin < rMax`, if the three numerals that
`saveSettings` writes with 15 significant digits are read back as the saved
values themselves, then in exact arithmetic the next run starts with the same
`rMin` and `rMax`, and with the same `iMin` and `iMax` if and only if
`iMax - iMin = (rMax - rMin) * H / W`.  The initial window
`(-2.5, 1.0, -1.0, 1.0)` is saved on the first run as the lines
`centerReal=-0.75`, `centerImag=0`, `width=3.5`, `fractal=1` and the next run
starts with `(-2.5, 1.0, -1.3125, 1.3125)`, in exact arithmetic and in binary64. -/
theorem save_load_round_trip (stod : List Char → Option ℚ) (s : State)
    (h : s.realMin < s.realMax)
    (h1 : stod (formatDouble 15 (savedSettings s).centerReal)
      = some (savedSettings s).centerReal)
    (h2 : stod (formatDouble 15 (savedSettings s).centerImag)
      = some (savedSettings s).centerImag)
    (h3 : stod (formatDouble 15 (savedSettings s).width) = some (savedSettings s).width) :
    (nextRun stod s).realMin = s.realMin ∧
      (nextRun stod s).realMax = s.realMax ∧
      (((nextRun stod s).imagMin = s.imagMin ∧ (nextRun stod s).imagMax = s.imagMax) ↔
        s.imagMax - s.imagMin = (s.realMax - s.realMin) * (HEIGHT : ℚ) / (WIDTH : ℚ)) ∧
      ((nextRun stod s).imagMin = s.imagMin ↔
        s.imagMax - s.imagMin = (s.realMax - s.realMin) * (HEIGHT : ℚ) / (WIDTH : ℚ)) ∧
      ((nextRun stod s).imagMax = s.imagMax ↔
        s.imagMax - s.imagMin = (s.realMax - s.realMin) * (HEIGHT : ℚ) / (WIDTH : ℚ)) ∧
      mainStartup stodDecimal none = (⟨-5 / 2, 1, -1, 1, 1⟩, some ⟨-3 / 4, 0, 7 / 2, 1⟩) ∧
      saveSettings (-3 / 4) 0 (7 / 2) 1
        = ["centerReal=-0.75".toList, "centerImag=0".toList, "width=3.5".toList,
            "fractal=1".toList] ∧
      mainStartup stodDecimal (some (saveSettings (-3 / 4) 0 (7 / 2) 1))
        = (⟨-5 / 2, 1, -21 / 16, 21 / 16, 1⟩, none) ∧
      mainStartupD stodDecimal (some (saveSettings (-3 / 4) 0 (7 / 2) 1))
        = some ⟨-5 / 2, 1, -21 / 16, 21 / 16, 1⟩ := by
  obtain ⟨b0, b1, b2, b3⟩ := loadSettings_saveSettings stod defaultSaved
    (savedSettings s).centerReal (savedSettings s).centerImag (savedSettings s).width
    (savedSettings s).centerReal (savedSettings s).centerImag (savedSettings s).width
    (savedSettings s).fractal h1 h2 h3
  have e : nextRun stod s
      = startup
          (loadSettings stod (some (saveSettings (savedSettings s).centerReal
            (savedSettings s).centerImag (savedSettings s).width (savedSettings s).fractal))
            defaultSaved).1
          (loadSettings stod (some (saveSettings (savedSettings s).centerReal
            (savedSettings s).centerImag (savedSettings s).width (savedSettings s).fractal))
            defaultSaved).2.centerReal
          (loadSettings stod (some (saveSettings (savedSettings s).centerReal
            (savedSettings s).centerImag (savedSettings s).width (savedSettings s).fractal))
            defaultSaved).2.centerImag
          (loadSettings stod (some (saveSettings (savedSettings s).centerReal
            (savedSettings s).centerImag (savedSettings s).width (savedSettings s).fractal))
            defaultSaved).2.width
          (loadSettings stod (some (saveSettings (savedSettings s).centerReal
            (savedSettings s).centerImag (savedSettings s).width (savedSettings s).fractal))
            defaultSaved).2.fractal := rfl
  generalize loadSettings stod (some (saveSettings (savedSettings s).centerReal
    (savedSettings s).centerImag (savedSettings s).width (savedSettings s).fractal))
    defaultSaved = L at b0 b1 b2 b3 e
  rw [b0, b1, b2, b3] at e
  have hc : true = true ∧ (savedSettings s).width > 0 := ⟨rfl, sub_pos.mpr h⟩
  have hst : startup true (savedSettings s).centerReal (savedSettings s).centerImag
      (savedSettings s).width L.2.fractal
      = { realMin := (s.realMin + s.realMax) / 2 - (s.realMax - s.realMin) / 2
          realMax := (s.realMin + s.realMax) / 2 + (s.realMax - s.realMin) / 2
          imagMin := (s.imagMin + s.imagMax) / 2
            - (s.realMax - s.realMin) * ((HEIGHT : ℚ) / (WIDTH : ℚ)) / 2
          imagMax := (s.imagMin + s.imagMax) / 2
            + (s.realMax - s.realMin) * ((HEIGHT : ℚ) / (WIDTH : ℚ)) / 2
          currentFractal := L.2.fractal } := by
    unfold startup
    rw [if_pos hc]
    rfl
  rw [hst] at e
  have r1 : (nextRun stod s).realMin
      = (s.realMin + s.realMax) / 2 - (s.realMax - s.realMin) / 2 := by rw [e]
  have r2 : (nextRun stod s).realMax
      = (s.realMin + s.realMax) / 2 + (s.realMax - s.realMin) / 2 := by rw [e]
  have r3 : (nextRun stod s).imagMin = (s.imagMin + s.imagMax) / 2
      - (s.realMax - s.realMin) * ((HEIGHT : ℚ) / (WIDTH : ℚ)) / 2 := by rw [e]
  have r4 : (nextRun stod s).imagMax = (s.imagMin + s.imagMax) / 2
      + (s.realMax - s.realMin) * ((HEIGHT : ℚ) / (WIDTH : ℚ)) / 2 := by rw [e]
  have hk : (s.realMax - s.realMin) * (HEIGHT : ℚ) / (WIDTH : ℚ)
      = (s.realMax - s.realMin) * ((HEIGHT : ℚ) / (WIDTH : ℚ)) := mul_div_assoc _ _ _
  have hmin : (nextRun stod s).imagMin = s.imagMin ↔
      s.imagMax - s.imagMin = (s.realMax - s.realMin) * (HEIGHT : ℚ) / (WIDTH : ℚ) := by
    rw [r3, hk]
    constructor
    · intro e
      linarith
    · intro e
      linarith
  have hmax : (nextRun stod s).imagMax = s.imagMax ↔
      s.imagMax - s.imagMin = (s.realMax - s.realMin) * (HEIGHT : ℚ) / (WIDTH : ℚ) := by
    rw [r4, hk]
    constructor
    · intro e
      linarith
    · intro e
      linarith
  have hfile : saveSettings (-3 / 4) 0 (7 / 2) 1
      = ["centerReal=-0.75".toList, "centerImag=0".toList, "width=3.5".toList,
          "fractal=1".toList] := by decide!
  have hl : loadSettings stodDecimal (some ["centerReal=-0.75".toList, "centerImag=0".toList,
      "width=3.5".toList, "fractal=1".toList]) defaultSaved
      = (true, ⟨-3 / 4, 0, 7 / 2, 1⟩) := by decide!
  have k1 : fdiv (7 / 2) 2 = some (7 / 4) := by decide!
  have k2 : fmul (7 / 2) (3 / 4) = some (21 / 8) := by decide!
  have k3 : fdiv (21 / 8) 2 = some (21 / 16) := by decide!
  have k4 : fsub (-3 / 4) (7 / 4) = some (-5 / 2) := by decide!
  have k5 : fadd (-3 / 4) (7 / 4) = some 1 := by decide!
  have k6 : fsub 0 (21 / 16) = some (-21 / 16) := by decide!
  have k7 : fadd 0 (21 / 16) = some (21 / 16) := by decide!
  have hsD := startupD_eval (-3 / 4) 0 (7 / 2) 1 (7 / 4) (21 / 8) (21 / 16) (-5 / 2) 1
    (-21 / 16) (21 / 16) (by decide!) k1 k2 k3 k4 k5 k6 k7
  have hm : mainStartup stodDecimal none
      = (startup false defaultSaved.centerReal defaultSaved.centerImag defaultSaved.width
          defaultSaved.fractal, startupSave false defaultSaved.width defaultSaved.fractal) := rfl
  refine ⟨?_, ?_, ?_, hmin, hmax, ?_, hfile, ?_, ?_⟩
  · rw [r1]
    ring
  · rw [r2]
    ring
  · constructor
    · intro e
      exact hmin.mp e.1
    · intro e
      exact ⟨hmin.mpr e, hmax.mpr e⟩
  · rw [hm]
    decide!
  · unfold mainStartup
    rw [hfile, hl]
    decide!
  · unfold mainStartupD
    rw [hfile, hl]
    exact hsD

/-- Witness for C24 (as amended): the window `(0, 2, 0, 1)` with the Koch curve
selected is saved as centre `(1, 0.5)` and width `2`, which are read back as they
are, and the next run starts with the same real bounds. -/
theorem save_load_round_trip_witness :
    (nextRun stodDecimal ⟨0, 2, 0, 1, 3⟩).realMin = 0 ∧
      (nextRun stodDecimal ⟨0, 2, 0, 1, 3⟩).realMax = 2 :=
  have h := save_load_round_trip stodDecimal ⟨0, 2, 0, 1, 3⟩ (by decide!) (by decide!)
    (by decide!) (by decide!)
  ⟨h.1, h.2.1⟩

end Fractal
